import Mathlib

/-!
# Storage-capacity prioritization scheduler plugin

A shallow embedding of
`pkg/plugins/storagecapacityprioritization/storage_capacity_prioritization.go`
and a verification of its filter and scoring behaviour.

Modelling conventions.

* Kubernetes objects are records holding the fields the plugin reads.
  A pointer field is an `Option`, `none` for nil; a call that dereferences
  nil panics, and a call that can panic returns a `Run`.
* The `resource.Quantity` of a storage request is a non-negative amount
  held to the nano-byte (see `Quantity`): sums are exact, and `Value()`
  rounds the amount up to whole bytes and converts it to `int64`.  Of the
  quantities of a capacity record only `Value()` is read; they are the
  natural number of bytes it reports (API admission refuses negative
  capacities).
* A Go `map[string]T` is an association list with distinct keys kept in
  first-insertion order; the order in which `range` visits a map is
  chosen by the Go runtime and is modelled by `rangeOrder seed`.
* A Go `error` is its message; `(T, error)` results are `Except String T`.
* `float64` values are modelled exactly (see `F64` and `Float64`).
* The methods `Filter` and `PreScore` are embedded with the operations they
  perform on the plugin's state data, the calls of its mutex included (see
  `Access`, `FilterCall` and `PreScoreCall`).
-/

namespace Scheduler

/-! ## Kubernetes objects -/

/-- The wrap-around of `int64` arithmetic. -/
def wrapInt64 (x : Int) : Int := (x + 2 ^ 63) % 2 ^ 64 - 2 ^ 63

/-- A `resource.Quantity` of requested storage: a non-negative amount, which
the library holds to the nano-byte, its finest resolution.  `nano` is the
amount in units of `10^-9` bytes: `10Gi` is `10 * 2^30 * 10^9`, `500m` is
`5 * 10^8`. -/
structure Quantity where
  nano : Nat
  deriving DecidableEq, Repr

/-- The quantity of a whole number of bytes, as `resource.MustParse("10Gi")`
and `resource.NewQuantity(n, resource.BinarySI)` give it. -/
def Quantity.ofBytes (n : Nat) : Quantity := ⟨n * 10 ^ 9⟩

/-- The method `Quantity.Add`.  The sum is exact: where the `int64` fast path
of the library would overflow, it carries on in arbitrary precision. -/
def Quantity.Add (q y : Quantity) : Quantity := ⟨q.nano + y.nano⟩

/-- The amount of a quantity rounded up to a whole number of bytes. -/
def Quantity.roundedUp (q : Quantity) : Nat := (q.nano + (10 ^ 9 - 1)) / 10 ^ 9

/-- The method `Quantity.Value`: the amount rounded up to a whole number of
bytes, as an `int64`.  An amount of `2^63` bytes or more does not fit.  A sum
that has outgrown `int64` is held by the library in arbitrary precision, and
`Value` converts it with `big.Int.Int64`, which keeps the low 64 bits; that is
the value given here to every such amount. -/
def Quantity.Value (q : Quantity) : Int := wrapInt64 (q.roundedUp : Int)

/-- The fields of `v1.PersistentVolumeClaim` the plugin reads.
`storageClassName` is the pointer `Spec.StorageClassName`, an optional field of
the API; `request` is `Spec.Resources.Requests[v1.ResourceStorage]`, absent when
the key is not in the map. -/
structure PersistentVolumeClaim where
  name : String
  ns : String
  storageClassName : Option String
  request : Option Quantity
  deriving DecidableEq, Repr

/-- The operators of `metav1.LabelSelectorRequirement`; `unknown` stands for
any other operator string. -/
inductive LabelSelectorOperator where
  | In
  | NotIn
  | Exists
  | DoesNotExist
  | unknown (op : String)
  deriving DecidableEq, Repr

/-- One `matchExpressions` entry of a label selector. -/
structure LabelSelectorRequirement where
  key : String
  operator : LabelSelectorOperator
  values : List String
  deriving DecidableEq, Repr

/-- The type `metav1.LabelSelector`. -/
structure LabelSelector where
  matchLabels : List (String × String)
  matchExpressions : List LabelSelectorRequirement
  deriving DecidableEq, Repr

/-- The fields of `storagev1beta1.CSIStorageCapacity` the plugin reads. -/
structure CSIStorageCapacity where
  StorageClassName : String
  NodeTopology : Option LabelSelector
  Capacity : Option Nat
  MaximumVolumeSize : Option Nat
  deriving DecidableEq, Repr

/-- The fields of `v1.Node` the plugin reads. -/
structure Node where
  name : String
  labels : List (String × String)
  deriving DecidableEq, Repr

/-- The fields of `storagev1.StorageClass` the plugin reads. -/
structure StorageClass where
  name : String
  Provisioner : String
  deriving DecidableEq, Repr

/-- The fields of `storagev1.CSIDriver` the plugin reads:
`Spec.StorageCapacity`, a `*bool`. -/
structure CSIDriver where
  StorageCapacity : Option Bool
  deriving DecidableEq, Repr

/-- An error returned by a lister: either one for which
`apierrors.IsNotFound` holds, or any other. -/
inductive ListerError where
  | notFound (msg : String)
  | other (msg : String)
  deriving DecidableEq, Repr

/-- The method `err.Error()`. -/
def ListerError.Error : ListerError → String
  | .notFound msg => msg
  | .other msg => msg

/-- The function `apierrors.IsNotFound`. -/
def IsNotFound : ListerError → Bool
  | .notFound _ => true
  | .other _ => false

/-- Equality of `(T, error)` results is decidable. -/
instance exceptDecidableEq {ε α : Type} [DecidableEq ε] [DecidableEq α] :
    DecidableEq (Except ε α)
  | .ok a, .ok b =>
    if h : a = b then isTrue (by rw [h]) else isFalse (fun e => h (by cases e; rfl))
  | .error a, .error b =>
    if h : a = b then isTrue (by rw [h]) else isFalse (fun e => h (by cases e; rfl))
  | .ok _, .error _ => isFalse (fun e => by cases e)
  | .error _, .ok _ => isFalse (fun e => by cases e)

/-! ## Formatting -/

/-- The sixteen digits `strconv` uses for escapes. -/
def hexDigit (n : Nat) : Char :=
  "0123456789abcdef".toList.getD n '0'

/-- The lower `k` hexadecimal digits of `n`, most significant first. -/
def hexDigits : Nat → Nat → List Char
  | 0, _ => []
  | k + 1, n => hexDigits k (n / 16) ++ [hexDigit (n % 16)]

/-- The function `strconv.IsPrint` on ASCII.  For runes from `0x80` upwards
Go consults Unicode tables that are not reproduced here, so `goQuote` is exact
on ASCII strings (every Kubernetes object name is one). -/
def IsPrint (r : Char) : Bool :=
  decide (0x20 ≤ r.toNat) && decide (r.toNat < 0x7f)

/-- The escape `strconv.Quote` writes for one rune. -/
def appendEscapedRune (r : Char) : List Char :=
  if r = '"' ∨ r = '\\' then ['\\', r]
  else if IsPrint r then [r]
  else if r.toNat = 7 then ['\\', 'a']
  else if r.toNat = 8 then ['\\', 'b']
  else if r.toNat = 12 then ['\\', 'f']
  else if r.toNat = 10 then ['\\', 'n']
  else if r.toNat = 13 then ['\\', 'r']
  else if r.toNat = 9 then ['\\', 't']
  else if r.toNat = 11 then ['\\', 'v']
  else if r.toNat < 0x20 ∨ r.toNat = 0x7f then '\\' :: 'x' :: hexDigits 2 r.toNat
  else if r.toNat < 0x10000 then '\\' :: 'u' :: hexDigits 4 r.toNat
  else '\\' :: 'U' :: hexDigits 8 r.toNat

/-- The rendering of a string by the verb `%q` of package `fmt`
(`strconv.Quote`). -/
def goQuote (s : String) : String :=
  String.mk ('"' :: (s.toList.flatMap appendEscapedRune) ++ ['"'])

/-- The rendering of an `int64` by the verb `%d`. -/
def goDecimal (n : Int) : String :=
  toString n

/-! ## Claim groups -/

/-- The type `claimGroup`, a slice of claims. -/
abbrev claimGroup := List PersistentVolumeClaim

/-- The loop of `totalRequiredCapacity`, with the running `total`, and the
`return total.Value(), nil` that follows it. -/
def claimGroup.totalFrom (total : Quantity) : claimGroup → Except String Int
  | [] => .ok total.Value
  | claim :: rest =>
    match claim.request with
    | none =>
      .error ("claim " ++ claim.name ++ "/" ++ claim.ns ++ " does't have a resource request")
    | some quantity => claimGroup.totalFrom (total.Add quantity) rest

/-- The method `(cg *claimGroup) totalRequiredCapacity`; `total` starts as
`resource.Quantity{}`, the zero quantity. -/
def claimGroup.totalRequiredCapacity (cg : claimGroup) : Except String Int :=
  claimGroup.totalFrom ⟨0⟩ cg

/-- The type `claimsByStorageClass`, a map from class name to claim group. -/
abbrev claimsByStorageClass := List (String × claimGroup)

/-- The map update `claims[className] = append(claims[className], claim)`. -/
def claimsByStorageClass.appendClaim (className : String) (claim : PersistentVolumeClaim) :
    claimsByStorageClass → claimsByStorageClass
  | [] => [(className, [claim])]
  | (k, cg) :: rest =>
    if k = className then (k, cg ++ [claim]) :: rest
    else (k, cg) :: claimsByStorageClass.appendClaim className claim rest

/-- The map lookup `claims[className]` with its `ok` flag. -/
def claimsByStorageClass.get (claims : claimsByStorageClass) (className : String) :
    Option claimGroup :=
  claims.lookup className

/-! ## Iteration order of Go maps -/

/-- Insert `x` at position `k` (at the end when `k` is too large). -/
def insertAt {α : Type} (x : α) : Nat → List α → List α
  | 0, l => x :: l
  | _ + 1, [] => [x]
  | k + 1, y :: ys => y :: insertAt x k ys

/-- The order in which a `range` loop visits the entries of a map.  Go leaves
it unspecified; `seed` selects one of the possible orders. -/
def rangeOrder {α : Type} (seed : Nat) : List α → List α
  | [] => []
  | x :: xs => insertAt x (seed % (xs.length + 1)) (rangeOrder (seed / (xs.length + 1)) xs)

/-! ## Capacity matching -/

/-- The method `labels.Set.Has`. -/
def labelsHas (ls : List (String × String)) (key : String) : Bool :=
  (ls.lookup key).isSome

/-- A requirement of a `labels.Selector`, as built by `labels.NewRequirement`:
the operators are those `LabelSelectorAsSelector` produces. -/
inductive Requirement where
  | equals (key : String) (value : String)
  | isIn (key : String) (values : List String)
  | notIn (key : String) (values : List String)
  | exists_ (key : String)
  | doesNotExist (key : String)
  deriving DecidableEq, Repr

/-- The method `Requirement.Matches`. -/
def Requirement.Matches (ls : List (String × String)) : Requirement → Bool
  | .equals key value =>
    match ls.lookup key with
    | none => false
    | some v => decide (v = value)
  | .isIn key values =>
    match ls.lookup key with
    | none => false
    | some v => decide (v ∈ values)
  | .notIn key values =>
    match ls.lookup key with
    | none => true
    | some v => !decide (v ∈ values)
  | .exists_ key => labelsHas ls key
  | .doesNotExist key => !labelsHas ls key

/-- The character class `[a-z0-9]` of package `validation`. -/
def isLowerAlphaNumeric (c : Char) : Bool :=
  (decide (0x61 ≤ c.toNat) && decide (c.toNat ≤ 0x7a)) ||
    (decide (0x30 ≤ c.toNat) && decide (c.toNat ≤ 0x39))

/-- The character class `[A-Za-z0-9]`. -/
def isAlphaNumeric (c : Char) : Bool :=
  isLowerAlphaNumeric c || (decide (0x41 ≤ c.toNat) && decide (c.toNat ≤ 0x5a))

/-- The character class `[-A-Za-z0-9_.]`. -/
def isQualifiedNameChar (c : Char) : Bool :=
  isAlphaNumeric c || decide (c = '-') || decide (c = '_') || decide (c = '.')

/-- The character class `[-a-z0-9]`. -/
def isDNSLabelChar (c : Char) : Bool :=
  isLowerAlphaNumeric c || decide (c = '-')

/-- A text matches the regular expression `^(E I*)?E$` for the character classes
`E` (`ends`) and `I` (`inner`, which contains `E`): it is not empty, it begins
and ends with a character of `E`, and all its characters are in `I`. -/
def matchesEnds (ends inner : Char → Bool) (s : List Char) : Bool :=
  match s with
  | [] => false
  | c :: rest =>
    ends c &&
      (match (c :: rest).getLast? with
        | some d => ends d
        | none => false) &&
      (c :: rest).all inner

/-- The function `strings.Split` for a separator of one character. -/
def splitOn (sep : Char) : List Char → List (List Char)
  | [] => [[]]
  | c :: rest =>
    if c = sep then [] :: splitOn sep rest
    else
      match splitOn sep rest with
      | [] => [[c]]
      | part :: parts => (c :: part) :: parts

/-- The function `validation.IsDNS1123Subdomain` (true when it reports no
error): at most 253 characters, lower-case labels separated by dots. -/
def IsDNS1123Subdomain (value : List Char) : Bool :=
  decide (value.length ≤ 253) &&
    (splitOn '.' value).all (matchesEnds isLowerAlphaNumeric isDNSLabelChar)

/-- The name part of a qualified name: at most 63 characters matching
`^([A-Za-z0-9][-A-Za-z0-9_.]*)?[A-Za-z0-9]$`. -/
def isQualifiedNamePart (name : List Char) : Bool :=
  decide (name.length ≤ 63) && matchesEnds isAlphaNumeric isQualifiedNameChar name

/-- The function `validation.IsQualifiedName` (true when it reports no error),
which `labels.NewRequirement` applies to the key: a name part, optionally after
a DNS subdomain and a slash. -/
def IsQualifiedName (value : String) : Bool :=
  match splitOn '/' value.toList with
  | [name] => isQualifiedNamePart name
  | [domain, name] => !domain.isEmpty && IsDNS1123Subdomain domain && isQualifiedNamePart name
  | _ => false

/-- The function `validation.IsValidLabelValue` (true when it reports no
error), which `labels.NewRequirement` applies to every value: empty, or at most
63 characters matching the expression of a name part. -/
def IsValidLabelValue (value : String) : Bool :=
  decide (value.toList.length ≤ 63) &&
    (value.toList.isEmpty || matchesEnds isAlphaNumeric isQualifiedNameChar value.toList)

/-- The conversion of one `matchLabels` pair inside
`metav1.LabelSelectorAsSelector`: `labels.NewRequirement(k, selection.Equals,
[]string{v})`, `none` when that returns an error. -/
def requirementOfLabel (kv : String × String) : Option Requirement :=
  if IsQualifiedName kv.1 = true ∧ IsValidLabelValue kv.2 = true then
    some (.equals kv.1 kv.2)
  else none

/-- The conversion of one `matchExpressions` entry inside
`metav1.LabelSelectorAsSelector`, `none` when it fails: the operator must be one
of the four, and `labels.NewRequirement` checks the key, the number of values
for the operator and every value. -/
def requirementOfExpression (expr : LabelSelectorRequirement) : Option Requirement :=
  if IsQualifiedName expr.key = true ∧ expr.values.all IsValidLabelValue = true then
    match expr.operator with
    | .In => if expr.values = [] then none else some (.isIn expr.key expr.values)
    | .NotIn => if expr.values = [] then none else some (.notIn expr.key expr.values)
    | .Exists => if expr.values = [] then some (.exists_ expr.key) else none
    | .DoesNotExist => if expr.values = [] then some (.doesNotExist expr.key) else none
    | .unknown _ => none
  else none

/-- The conversion of a list by a function that may fail, failing when the
function fails on a member. -/
def convertAll {α β : Type} (f : α → Option β) : List α → Option (List β)
  | [] => some []
  | a :: rest =>
    match f a with
    | none => none
    | some b =>
      match convertAll f rest with
      | none => none
      | some bs => some (b :: bs)

/-- The function `metav1.LabelSelectorAsSelector` on a non-nil selector: the
list of requirements that must all match (the empty list is
`labels.Everything()`), or `none` when it returns an error.  The text of the
error is not modelled: `nodeHasAccess` only logs it. -/
def LabelSelectorAsSelector (ps : LabelSelector) : Option (List Requirement) :=
  match convertAll requirementOfLabel ps.matchLabels with
  | none => none
  | some ls =>
    match convertAll requirementOfExpression ps.matchExpressions with
    | none => none
    | some rs => some (ls ++ rs)

/-- The method `Selector.Matches`. -/
def selectorMatches (selector : List Requirement) (ls : List (String × String)) : Bool :=
  selector.all (Requirement.Matches ls)

/-- The function `capacitySufficient`. -/
def capacitySufficient (capacity : CSIStorageCapacity) (sizeInBytes : Int) : Bool :=
  let limit :=
    match capacity.MaximumVolumeSize with
    | some m => some m
    | none => capacity.Capacity
  match limit with
  | none => false
  | some l => decide ((l : Int) ≥ sizeInBytes)

/-- The function `nodeHasAccess`. -/
def nodeHasAccess (node : Node) (capacity : CSIStorageCapacity) : Bool :=
  match capacity.NodeTopology with
  | none => false
  | some topology =>
    match LabelSelectorAsSelector topology with
    | none => false
    | some selector => selectorMatches selector node.labels

/-! ## float64 arithmetic

`calculateScore` divides two `int64` values as `float64`, clamps the quotient
and multiplies it by 100.  A `float64` is a sign and a magnitude (`Float64`);
the magnitudes that occur (`F64`) are zero, positive finite numbers, infinity
and `NaN`.  A positive finite magnitude is a pair `(m, e)` standing for
`m * 2^e`; every operation rounds its exact result to the nearest value with a
53-bit significand, ties to even, as IEEE 754 prescribes, which treats the two
signs alike.  Exponents are unbounded here: the operands come from `int64`
values, far from the overflow and subnormal ranges of `float64`. -/

/-- The number of binary digits of `n`, by halving at most `fuel` times. -/
def bitLenAux : Nat → Nat → Nat
  | 0, _ => 0
  | fuel + 1, n => if n = 0 then 0 else bitLenAux fuel (n / 2) + 1

/-- The number of binary digits of `n` (0 for 0). -/
def bitLen (n : Nat) : Nat := bitLenAux n n

/-- The integer nearest to `num / den`, ties to even. -/
def roundHalfEven (num den : Nat) : Nat :=
  let q := num / den
  let r := num % den
  if 2 * r < den then q
  else if den < 2 * r then q + 1
  else if q % 2 = 0 then q
  else q + 1

/-- The binary exponent of `num / den`, that is `⌊log₂ (num / den)⌋`, for
positive `num` and `den`. -/
def binaryExponent (num den : Nat) : Int :=
  let l : Int := (bitLen num : Int) - (bitLen den : Int)
  if den * 2 ^ l.toNat ≤ num * 2 ^ (-l).toNat then l else l - 1

/-- The `float64` nearest to `num / den` for positive `num` and `den`: the
significand (between `2^52` and `2^53`) and the exponent. -/
def roundToF64 (num den : Nat) : Nat × Int :=
  let e : Int := binaryExponent num den - 52
  (roundHalfEven (num * 2 ^ (-e).toNat) (den * 2 ^ e.toNat), e)

/-- The magnitudes of the `float64` values that occur in `calculateScore`. -/
inductive F64 where
  | finite (m : Nat) (e : Int)
  | inf
  | nan
  deriving DecidableEq, Repr

namespace F64

/-- The magnitude of the conversion `float64(n)`, from the magnitude of `n`. -/
def ofInt64 (n : Nat) : F64 :=
  if n = 0 then finite 0 0 else finite (roundToF64 n 1).1 (roundToF64 n 1).2

/-- The magnitude of the quotient `a / b`. -/
def div : F64 → F64 → F64
  | nan, _ => nan
  | _, nan => nan
  | inf, inf => nan
  | inf, finite _ _ => inf
  | finite _ _, inf => finite 0 0
  | finite m1 e1, finite m2 e2 =>
    if m2 = 0 then (if m1 = 0 then nan else inf)
    else if m1 = 0 then finite 0 0
    else finite (roundToF64 m1 m2).1 ((roundToF64 m1 m2).2 + e1 - e2)

/-- The magnitude of the product `a * b`. -/
def mul : F64 → F64 → F64
  | nan, _ => nan
  | _, nan => nan
  | inf, inf => inf
  | inf, finite m _ => if m = 0 then nan else inf
  | finite m _, inf => if m = 0 then nan else inf
  | finite m1 e1, finite m2 e2 =>
    if m1 * m2 = 0 then finite 0 0
    else finite (roundToF64 (m1 * m2) 1).1 ((roundToF64 (m1 * m2) 1).2 + e1 + e2)

/-- The comparison `a > b` of two magnitudes. -/
def gt : F64 → F64 → Bool
  | nan, _ => false
  | _, nan => false
  | inf, inf => false
  | inf, finite _ _ => true
  | finite _ _, inf => false
  | finite m1 e1, finite m2 e2 =>
    decide (m2 * 2 ^ (e2 - min e1 e2).toNat < m1 * 2 ^ (e1 - min e1 e2).toNat)

/-- The conversion `int64(x)` of a non-negative value, which truncates towards
zero.  For a value that `int64` cannot represent (`NaN`, `+Inf`, `2^63` and
above) Go leaves the result to the implementation; it is the parameter
`indefinite` (on amd64, `-2^63`). -/
def toInt64 (indefinite : Int) : F64 → Int
  | nan => indefinite
  | inf => indefinite
  | finite m e =>
    let t : Nat := if 0 ≤ e then m * 2 ^ e.toNat else m / 2 ^ (-e).toNat
    if t < 2 ^ 63 then (t : Int) else indefinite

end F64

/-- A `float64`: the sign bit and the magnitude. -/
structure Float64 where
  negative : Bool
  magnitude : F64
  deriving DecidableEq, Repr

namespace Float64

/-- The conversion `float64(n)` of an `int64`. -/
def ofInt64 (n : Int) : Float64 := ⟨decide (n < 0), F64.ofInt64 n.natAbs⟩

/-- The quotient `a / b`: the signs combine, the magnitudes divide. -/
def div (a b : Float64) : Float64 := ⟨xor a.negative b.negative, F64.div a.magnitude b.magnitude⟩

/-- The product `a * b`: the signs combine, the magnitudes multiply. -/
def mul (a b : Float64) : Float64 := ⟨xor a.negative b.negative, F64.mul a.magnitude b.magnitude⟩

/-- The comparison `a > b`.  It is false when either side is `NaN`, and the
two zeros are equal. -/
def gt (a b : Float64) : Bool :=
  match a.negative, b.negative with
  | false, false => F64.gt a.magnitude b.magnitude
  | true, true => F64.gt b.magnitude a.magnitude
  | true, false => false
  | false, true =>
    !(decide (a.magnitude = F64.nan) || decide (b.magnitude = F64.nan)) &&
      (F64.gt a.magnitude (F64.finite 0 0) || F64.gt b.magnitude (F64.finite 0 0))

/-- The conversion `int64(x)`, which truncates towards zero.  For a value
that `int64` cannot represent (`NaN`, an infinity, `2^63` and above, below
`-2^63`) Go leaves the result to the implementation; it is the parameter
`indefinite` (on amd64, `-2^63`). -/
def toInt64 (indefinite : Int) (x : Float64) : Int :=
  if x.negative = false then F64.toInt64 indefinite x.magnitude
  else
    match x.magnitude with
    | F64.nan => indefinite
    | F64.inf => indefinite
    | F64.finite m e =>
      let t : Nat := if 0 ≤ e then m * 2 ^ e.toNat else m / 2 ^ (-e).toNat
      if t ≤ 2 ^ 63 then -(t : Int) else indefinite

end Float64

/-- The per-class score of `calculateScore`:
`usage := float64(request) / float64(capacity)`, clamped to 1, then
`int64(usage * 100)`. -/
def usageScore (indefinite : Int) (request : Int) (capacity : Nat) : Int :=
  let usage := Float64.div (Float64.ofInt64 request) (Float64.ofInt64 capacity)
  let usage := if Float64.gt usage ⟨false, F64.finite 1 0⟩ then ⟨false, F64.finite 1 0⟩ else usage
  Float64.toInt64 indefinite (Float64.mul usage ⟨false, F64.finite 100 0⟩)

/-! ## Score calculation -/

/-- A function call either returns or panics. -/
inductive Run (α : Type) where
  | returns (a : α)
  | panics (msg : String)
  deriving DecidableEq, Repr

/-- The outcome of a call with `f` applied to what it returns. -/
def Run.map {α β : Type} (f : α → β) : Run α → Run β
  | .returns a => .returns (f a)
  | .panics msg => .panics msg

/-- The message of a nil pointer dereference. -/
def nilDereference : String :=
  "runtime error: invalid memory address or nil pointer dereference"

/-- The message of an integer division by zero. -/
def divideByZero : String := "runtime error: integer divide by zero"

/-- The innermost loop of `calculateScore` over the capacity records, from the
current values of `found` and `capacity`.  `cap.Capacity.Value()` panics on a
nil `Capacity`. -/
def findCapacity (node : Node) (className : String) :
    List CSIStorageCapacity → Bool × Nat → Run (Bool × Nat)
  | [], st => .returns st
  | cap :: rest, st =>
    if cap.StorageClassName = className ∧ nodeHasAccess node cap = true then
      match cap.Capacity with
      | none => .panics nilDereference
      | some v => findCapacity node className rest (true, v)
    else findCapacity node className rest st

/-- The type of `capacityUsageMap`: per node name, the score per class name. -/
abbrev UsageMap := List (String × List (String × Int))

/-- The map update `m[key] = value`. -/
def mapSet {β : Type} (key : String) (value : β) : List (String × β) → List (String × β)
  | [] => [(key, value)]
  | (k, v) :: rest => if k = key then (k, value) :: rest else (k, v) :: mapSet key value rest

/-- The two statements that record a score:
`if capacityUsageMap[n] == nil` then `capacityUsageMap[n] = make(...)`, and
`capacityUsageMap[n][className] = score`. -/
def UsageMap.record (m : UsageMap) (nodeName className : String) (score : Int) : UsageMap :=
  mapSet nodeName (mapSet className score ((m.lookup nodeName).getD [])) m

/-- The body of the loop over the nodes in `calculateScore`, for one class. -/
def scoreNodes (indefinite : Int) (className : String) (capacities : List CSIStorageCapacity)
    (claims : claimsByStorageClass) : List Node → UsageMap → Run (Except String UsageMap)
  | [], m => .returns (.ok m)
  | node :: rest, m =>
    match findCapacity node className capacities (false, 0) with
    | .panics msg => .panics msg
    | .returns (found, capacity) =>
      if found = false then scoreNodes indefinite className capacities claims rest m
      else
        match claims.get className with
        | none =>
          .returns (.error ("storage class " ++ goQuote className ++
            " is not found in claim groups"))
        | some claimGroup =>
          match claimGroup.totalRequiredCapacity with
          | .error err => .returns (.error err)
          | .ok request =>
            scoreNodes indefinite className capacities claims rest
              (m.record node.name className (usageScore indefinite request capacity))

/-- The loop over the class names in `calculateScore`. -/
def scoreClasses (indefinite : Int) (nodes : List Node) (capacities : List CSIStorageCapacity)
    (claims : claimsByStorageClass) : List String → UsageMap → Run (Except String UsageMap)
  | [], m => .returns (.ok m)
  | className :: rest, m =>
    match scoreNodes indefinite className capacities claims nodes m with
    | .panics msg => .panics msg
    | .returns (.error err) => .returns (.error err)
    | .returns (.ok m1) => scoreClasses indefinite nodes capacities claims rest m1

/-- The inner loop of the second half of `calculateScore`: the `int64` sum of the
scores of one node and their count.  The sum wraps around; the count cannot,
being at most the length of the map, an `int`. -/
def sumAndCount : List (String × Int) → Int × Int → Int × Int
  | [], st => st
  | (_, cap) :: rest, (sum, count) => sumAndCount rest (wrapInt64 (sum + cap), count + 1)

/-- The second half of `calculateScore`: the mean per node.  The `int64`
division truncates towards zero and panics on a zero divisor. -/
def nodeMeans : UsageMap → List (String × Int) → Run (List (String × Int))
  | [], nodeScores => .returns nodeScores
  | (nodeName, usageMap) :: rest, nodeScores =>
    let (sum, count) := sumAndCount usageMap (0, 0)
    if count = 0 then .panics divideByZero
    else nodeMeans rest (mapSet nodeName (Int.tdiv sum count) nodeScores)

/-- The function `calculateScore`.  `indefinite` is the value the platform
gives to `int64(NaN)`. -/
def calculateScore (indefinite : Int) (nodes : List Node) (storageClassNames : List String)
    (capacities : List CSIStorageCapacity) (claims : claimsByStorageClass) :
    Run (Except String (List (String × Int))) :=
  match scoreClasses indefinite nodes capacities claims storageClassNames [] with
  | .panics msg => .panics msg
  | .returns (.error err) => .returns (.error err)
  | .returns (.ok capacityUsageMap) =>
    match nodeMeans capacityUsageMap [] with
    | .panics msg => .panics msg
    | .returns nodeScores => .returns (.ok nodeScores)

/-! ## Per-cycle state -/

/-- Insert a name into a list kept in increasing order, unless present. -/
def insertName (x : String) : List String → List String
  | [] => [x]
  | y :: ys =>
    if x = y then y :: ys
    else if x.toList < y.toList then x :: y :: ys
    else y :: insertName x ys

theorem insertName_mem (x z : String) (l : List String) :
    z ∈ insertName x l ↔ z = x ∨ z ∈ l := by
  induction l with
  | nil => simp [insertName]
  | cons y ys ih =>
    unfold insertName
    split_ifs with h1 h2
    · subst h1
      constructor
      · intro h; exact Or.inr h
      · rintro (h | h)
        · subst h; exact List.mem_cons_self _ _
        · exact h
    · simp
    · simp only [List.mem_cons, ih]
      tauto

theorem insertName_sorted (x : String) (l : List String)
    (h : l.Pairwise (fun a b => a.toList < b.toList)) :
    (insertName x l).Pairwise (fun a b => a.toList < b.toList) := by
  induction l with
  | nil => simp [insertName]
  | cons y ys ih =>
    unfold insertName
    split_ifs with h1 h2
    · exact h
    · refine List.Pairwise.cons ?_ h
      intro z hz
      rcases List.mem_cons.mp hz with hz | hz
      · subst hz; exact h2
      · exact lt_trans h2 (List.rel_of_pairwise_cons h hz)
    · refine List.Pairwise.cons ?_ (ih h.of_cons)
      intro z hz
      rcases (insertName_mem x z ys).mp hz with hz | hz
      · subst hz
        have hne : z.toList ≠ y.toList := fun e => h1 (String.toList_inj.mp e)
        exact lt_of_le_of_ne (not_lt.mp h2) (Ne.symm hne)
      · exact List.rel_of_pairwise_cons h hz

/-- The type `sets.String`: a set of names, held as the increasing list that
its method `List()` returns. -/
structure StringSet where
  elems : List String
  sorted : elems.Pairwise (fun a b => a.toList < b.toList)
  deriving DecidableEq

/-- The function `sets.NewString()`. -/
def StringSet.NewString : StringSet := ⟨[], List.Pairwise.nil⟩

/-- The method `sets.String.Insert`. -/
def StringSet.Insert (s : StringSet) (x : String) : StringSet :=
  ⟨insertName x s.elems, insertName_sorted x s.elems s.sorted⟩

/-- The method `sets.String.List`: the members in increasing order. -/
def StringSet.List (s : StringSet) : List String := s.elems

/-- The type `stateData`.  `scores` is `none` for a nil map;
`storageClassNames` is never nil once `PreFilter` has run.  The embedded
`sync.Mutex` holds no data of the plugin and is free between two calls; while
a call runs it is the field `held` of `Access`. -/
structure stateData where
  storageClassNames : StringSet
  scores : Option (List (String × Int))
  deriving DecidableEq

/-- An operation on the plugin's state data: `state.Lock()`, `state.Unlock()`,
`state.storageClassNames.Insert(name)`, `state.storageClassNames.List()` and
`state.scores = scores`.  An access to a field is recorded with `held`:
whether the calling method holds the mutex of the state data at that
moment. -/
inductive StateOp where
  | lock
  | unlock
  | insert (name : String) (held : Bool)
  | listNames (held : Bool)
  | writeScores (scores : List (String × Int)) (held : Bool)
  deriving DecidableEq, Repr

/-- The state data in the hands of a running call: the fields as the call has
left them so far, whether the call holds the embedded mutex, and the
operations the call has performed, in program order. -/
structure Access where
  data : stateData
  held : Bool
  ops : List StateOp
  deriving DecidableEq

/-- The pointer `state` as `getStateData` hands it to a call, which does not
hold the mutex yet. -/
def Access.start (state : stateData) : Access := ⟨state, false, []⟩

/-- The statement `state.Lock()`. -/
def Access.Lock (a : Access) : Access :=
  { a with held := true, ops := a.ops ++ [StateOp.lock] }

/-- The statement `state.Unlock()`. -/
def Access.Unlock (a : Access) : Access :=
  { a with held := false, ops := a.ops ++ [StateOp.unlock] }

/-- The statement `state.storageClassNames.Insert(name)`. -/
def Access.Insert (a : Access) (name : String) : Access :=
  { a with
    data := { a.data with storageClassNames := a.data.storageClassNames.Insert name },
    ops := a.ops ++ [StateOp.insert name a.held] }

/-- The expression `state.storageClassNames.List()`. -/
def Access.ListNames (a : Access) : List String × Access :=
  (a.data.storageClassNames.List, { a with ops := a.ops ++ [StateOp.listNames a.held] })

/-- The statement `state.scores = scores`. -/
def Access.setScores (a : Access) (scores : List (String × Int)) : Access :=
  { a with
    data := { a.data with scores := some scores },
    ops := a.ops ++ [StateOp.writeScores scores a.held] }

/-- What a call has done: its result, and the operations it performed on the
plugin's state data, in program order. -/
structure Performed (α : Type) where
  result : α
  ops : List StateOp

/-- The type `volumebinding.PodVolumes`, of which the plugin reads
`DynamicProvisions`. -/
structure PodVolumes where
  DynamicProvisions : List PersistentVolumeClaim
  deriving DecidableEq, Repr

/-- The state of the volume-binding plugin: the pod volumes per node name and
the claims to bind. -/
structure VolumeBindingState where
  podVolumesByNode : List (String × PodVolumes)
  claimsToBind : List PersistentVolumeClaim
  deriving DecidableEq, Repr

/-- The method `GetPodVolumesByNodeName`: nil when the node has no entry. -/
def VolumeBindingState.GetPodVolumesByNodeName (vb : VolumeBindingState) (nodeName : String) :
    Option PodVolumes :=
  vb.podVolumesByNode.lookup nodeName

/-- The method `GetClaimsToBind`. -/
def VolumeBindingState.GetClaimsToBind (vb : VolumeBindingState) : List PersistentVolumeClaim :=
  vb.claimsToBind

/-- What `CycleState.Read` finds under a key: nothing, a value of another
type, or a value of the expected type. -/
inductive StateEntry (α : Type) where
  | absent
  | foreign
  | data (d : α)
  deriving DecidableEq

/-- The part of `framework.CycleState` the plugin touches: the entry under
the volume-binding key and the entry under `stateKey`. -/
structure CycleState where
  volumeBinding : StateEntry VolumeBindingState
  plugin : StateEntry stateData
  deriving DecidableEq

/-- The function `getStateData`. -/
def getStateData (cs : CycleState) : Except String stateData :=
  match cs.plugin with
  | .absent => .error "not found"
  | .foreign => .error "unable to convert state into stateData"
  | .data s => .ok s

/-- The function `volumebinding.GetStateData`. -/
def volumebindingGetStateData (cs : CycleState) : Except String VolumeBindingState :=
  match cs.volumeBinding with
  | .absent => .error "not found"
  | .foreign => .error "unable to convert state into stateData"
  | .data s => .ok s

/-! ## Status -/

/-- The type `framework.Code`. -/
inductive Code where
  | Success
  | Error
  | Unschedulable
  | UnschedulableAndUnresolvable
  | Wait
  | Skip
  deriving DecidableEq, Repr

/-- The type `framework.Status`; a nil `*Status` is `none`. -/
structure Status where
  code : Code
  reasons : List String
  deriving DecidableEq, Repr

/-- The function `framework.NewStatus`. -/
def NewStatus (code : Code) (reasons : List String) : Status := ⟨code, reasons⟩

/-- The function `framework.AsStatus`. -/
def AsStatus (err : String) : Status := ⟨Code.Error, [err]⟩

/-- The method `Status.AppendReason`. -/
def Status.AppendReason (s : Status) (reason : String) : Status :=
  { s with reasons := s.reasons ++ [reason] }

/-! ## The plugin -/

/-- The type `StorageCapacityPrioritization`: its three listers.
`csiStorageCapacityLister` stands for the call `List(labels.Everything())`;
a failed call returns no records. -/
structure StorageCapacityPrioritization where
  classLister : String → Except ListerError StorageClass
  csiDriverLister : String → Except ListerError CSIDriver
  csiStorageCapacityLister : Except ListerError (List CSIStorageCapacity)

namespace StorageCapacityPrioritization

/-- The method `PreFilter`. -/
def PreFilter (_pl : StorageCapacityPrioritization) (state : CycleState) :
    Option Status × CycleState :=
  (none, { state with plugin := .data ⟨StringSet.NewString, none⟩ })

/-- The loop of the method `claimsByStorageClass`.  The dereference
`*claim.Spec.StorageClassName` panics on a claim without a class name. -/
def claimsByStorageClassFrom (pl : StorageCapacityPrioritization) (claims : claimsByStorageClass) :
    List PersistentVolumeClaim → Run (Except String claimsByStorageClass)
  | [] => .returns (.ok claims)
  | claim :: rest =>
    match claim.storageClassName with
    | none => .panics nilDereference
    | some className =>
      match pl.classLister className with
      | .error _ => .returns (.error ("failed to find storage class " ++ goQuote className))
      | .ok _ => claimsByStorageClassFrom pl (claims.appendClaim className claim) rest

/-- The method `claimsByStorageClass`. -/
def claimsByStorageClass (pl : StorageCapacityPrioritization)
    (claimsToProvision : List PersistentVolumeClaim) :
    Run (Except String Scheduler.claimsByStorageClass) :=
  claimsByStorageClassFrom pl [] claimsToProvision

/-- The call `pl.csiStorageCapacityLister.List(labels.Everything())` with the
test `err != nil && !apierrors.IsNotFound(err)` that follows it in
`hasEnoughCapacity` and in `PreScore`: the records, none after a not-found
error, or the error message. -/
def listCapacities (pl : StorageCapacityPrioritization) : Except String (List CSIStorageCapacity) :=
  match pl.csiStorageCapacityLister with
  | .ok capacities => .ok capacities
  | .error err =>
    if IsNotFound err then .ok []
    else .error ("failed to find csi storage capacities err=" ++ err.Error)

/-- The search loop at the end of `hasEnoughCapacity`. -/
def enoughCapacityFound (node : Node) (className : String) (sizeInBytes : Int) :
    List CSIStorageCapacity → Bool
  | [] => false
  | capacity :: rest =>
    if capacity.StorageClassName = className ∧ capacitySufficient capacity sizeInBytes = true ∧
        nodeHasAccess node capacity = true then true
    else enoughCapacityFound node className sizeInBytes rest

/-- The rejection reason of `hasEnoughCapacity`. -/
def notEnoughReason (nodeName : String) (sizeInBytes : Int) : String :=
  "there is nothing enough capacities of csi storage capacity objects. node=" ++
    goQuote nodeName ++ " sizeInBytes=" ++ goDecimal sizeInBytes

/-- The method `hasEnoughCapacity`: the rejection reason (empty when the class
passes) or an error. -/
def hasEnoughCapacity (pl : StorageCapacityPrioritization) (node : Node) (className : String)
    (cg : claimGroup) : Except String String :=
  match pl.classLister className with
  | .error err =>
    if IsNotFound err then .ok ("storage class " ++ goQuote className ++ " is not found")
    else .error ("failed to find storage class " ++ goQuote className ++ " err=" ++ err.Error)
  | .ok cls =>
    match pl.csiDriverLister cls.Provisioner with
    | .error err =>
      if IsNotFound err then .ok ""
      else .error ("failed to find csi driver object " ++ goQuote cls.Provisioner ++
        " err=" ++ err.Error)
    | .ok driver =>
      if driver.StorageCapacity = none ∨ driver.StorageCapacity = some false then .ok ""
      else
        match pl.listCapacities with
        | .error err => .error err
        | .ok capacities =>
          match cg.totalRequiredCapacity with
          | .error err => .error err
          | .ok sizeInBytes =>
            if enoughCapacityFound node className sizeInBytes capacities then .ok ""
            else .ok (notEnoughReason node.name sizeInBytes)

/-- The loop of `hasEnoughCapacities` over the visited entries, with the
reasons gathered so far. -/
def hasEnoughCapacitiesFrom (pl : StorageCapacityPrioritization) (node : Node)
    (reasons : List String) : List (String × claimGroup) → Except String (List String)
  | [] => .ok reasons
  | (className, cg) :: rest =>
    match pl.hasEnoughCapacity node className cg with
    | .error err => .error err
    | .ok reason =>
      if reason ≠ "" then hasEnoughCapacitiesFrom pl node (reasons ++ [reason]) rest
      else hasEnoughCapacitiesFrom pl node reasons rest

/-- The method `hasEnoughCapacities`; `seed` fixes the order in which the
`range` loop visits the map. -/
def hasEnoughCapacities (pl : StorageCapacityPrioritization) (seed : Nat)
    (csc : Scheduler.claimsByStorageClass) (node : Node) : Except String (List String) :=
  hasEnoughCapacitiesFrom pl node [] (rangeOrder seed csc)

/-- The body of the method `Filter`: how the call ends, the cycle state
afterwards, and the operations performed on the state data.  `nodeInfo` is
`nodeInfo.Node()`, `none` when nil.  `seed` fixes the order in which the two
`range` loops visit the map of groups: the loop of `hasEnoughCapacities` by its
low digits, the loop of the insertions by what is left of it.  The deferred
`state.Unlock()` runs when the call returns. -/
def FilterCall (pl : StorageCapacityPrioritization) (seed : Nat) (cs : CycleState)
    (nodeInfo : Option Node) : Performed (Run (Option Status) × CycleState) :=
  match nodeInfo with
  | none => ⟨(.returns (some (NewStatus Code.Error ["node not found"])), cs), []⟩
  | some node =>
    match volumebindingGetStateData cs with
    | .error err =>
      ⟨(.returns (some (AsStatus ("failed to get VolumeBinding state data: " ++ err))), cs), []⟩
    | .ok vbstate =>
      match vbstate.GetPodVolumesByNodeName node.name with
      | none => ⟨(.returns none, cs), []⟩
      | some podVolume =>
        match pl.claimsByStorageClass podVolume.DynamicProvisions with
        | .panics msg => ⟨(.panics msg, cs), []⟩
        | .returns (.error err) => ⟨(.returns (some (AsStatus err)), cs), []⟩
        | .returns (.ok claims) =>
          match pl.hasEnoughCapacities seed claims node with
          | .error err => ⟨(.returns (some (AsStatus err)), cs), []⟩
          | .ok reasons =>
            if reasons.length > 0 then
              ⟨(.returns (some (reasons.foldl Status.AppendReason
                (NewStatus Code.UnschedulableAndUnresolvable []))), cs), []⟩
            else
              match getStateData cs with
              | .error err => ⟨(.returns (some (AsStatus err)), cs), []⟩
              | .ok state =>
                let access := (Access.start state).Lock
                let access := (rangeOrder (seed / claims.length.factorial) claims).foldl
                  (fun a kv => a.Insert kv.1) access
                let access := access.Unlock
                ⟨(.returns none, { cs with plugin := .data access.data }), access.ops⟩

/-- The method `Filter`: how the call ends, with the returned status or with
a panic, and the cycle state afterwards. -/
def Filter (pl : StorageCapacityPrioritization) (seed : Nat) (cs : CycleState)
    (nodeInfo : Option Node) : Run (Option Status) × CycleState :=
  (pl.FilterCall seed cs nodeInfo).result

/-- The body of the method `PreScore`: the returned status and the cycle state
afterwards, unless the call panics, and the operations performed on the state
data.  The status built when `claimsByStorageClass` fails is not returned by
the source, which goes on with the nil map. -/
def PreScoreCall (pl : StorageCapacityPrioritization) (indefinite : Int) (cs : CycleState)
    (nodes : List Node) : Performed (Run (Option Status × CycleState)) :=
  match volumebindingGetStateData cs with
  | .error err =>
    ⟨.returns (some (AsStatus ("failed to get VolumeBinding state data: " ++ err)), cs), []⟩
  | .ok vbstate =>
    let claims := vbstate.GetClaimsToBind
    if claims.length = 0 then ⟨.returns (none, cs), []⟩
    else
      match pl.claimsByStorageClass claims with
      | .panics msg => ⟨.panics msg, []⟩
      | .returns grouped =>
        let claimsBySC : Scheduler.claimsByStorageClass :=
          match grouped with
          | .error _ => []
          | .ok groups => groups
        match getStateData cs with
        | .error err =>
          ⟨.returns (some (AsStatus ("failed to get state data: " ++ err)), cs), []⟩
        | .ok state =>
          match pl.listCapacities with
          | .error err => ⟨.returns (some (AsStatus err), cs), []⟩
          | .ok capacities =>
            let listed := (Access.start state).ListNames
            match calculateScore indefinite nodes listed.1 capacities claimsBySC with
            | .panics msg => ⟨.panics msg, listed.2.ops⟩
            | .returns (.error err) =>
              ⟨.returns (some (AsStatus ("failed to calcurate scores: " ++ err)), cs),
                listed.2.ops⟩
            | .returns (.ok scores) =>
              let access := listed.2.setScores scores
              ⟨.returns (none, { cs with plugin := .data access.data }), access.ops⟩

/-- The method `PreScore`: the returned status and the cycle state
afterwards, unless the call panics. -/
def PreScore (pl : StorageCapacityPrioritization) (indefinite : Int) (cs : CycleState)
    (nodes : List Node) : Run (Option Status × CycleState) :=
  (pl.PreScoreCall indefinite cs nodes).result

/-- The method `Score`: the score and the status. -/
def Score (_pl : StorageCapacityPrioritization) (cs : CycleState) (nodeName : String) :
    Int × Option Status :=
  match getStateData cs with
  | .error err => (0, some (AsStatus ("failed to get state data: " ++ err)))
  | .ok state =>
    match state.scores with
    | none => (0, none)
    | some scores =>
      match scores.find? (fun kv => kv.1 = nodeName) with
      | some kv => (kv.2, none)
      | none => (0, none)

end StorageCapacityPrioritization

/-! ## The test harness and its fixtures -/

/-- The method `pluginTester.Filter` of the test file: `Filter` on every node
in turn; the statuses, the nodes that passed and the state afterwards, unless
a call panics.  `seed` gives the iteration order used in the call for each
node. -/
def testerFilter (pl : StorageCapacityPrioritization) (seed : Node → Nat) :
    List Node → CycleState → Run (List (Option Status) × List Node × CycleState)
  | [], cs => .returns ([], [], cs)
  | node :: rest, cs =>
    match pl.Filter (seed node) cs (some node) with
    | (.panics msg, _) => .panics msg
    | (.returns status, after) =>
      match testerFilter pl seed rest after with
      | .panics msg => .panics msg
      | .returns later =>
        .returns (status :: later.1, if status = none then node :: later.2.1 else later.2.1,
          later.2.2)

/-- The method `pluginTester.Score` of the test file: `Score` for every node
that passed. -/
def testerScore (pl : StorageCapacityPrioritization) (cs : CycleState) (passed : List Node) :
    List (Int × Option Status) :=
  passed.map (fun node => pl.Score cs node.name)

/-- What a whole scheduling cycle of the plugin yields: the filter status per
node, the nodes that passed, the status of `PreScore` and the score and
status per passed node. -/
structure CycleResult where
  filterStatus : List (Option Status)
  passed : List Node
  preScoreStatus : Option Status
  scores : List (Int × Option Status)
  deriving DecidableEq, Repr

/-- The sequence of calls of `TestStorageCapacityPrioritization`: `PreFilter`,
`Filter` on every node, `PreScore` on the nodes that passed, `Score` on each of
them. -/
def runCycle (pl : StorageCapacityPrioritization) (indefinite : Int) (seed : Node → Nat)
    (cs : CycleState) (nodes : List Node) : Run CycleResult :=
  match testerFilter pl seed nodes (pl.PreFilter cs).2 with
  | .panics msg => .panics msg
  | .returns filtered =>
    match pl.PreScore indefinite filtered.2.2 filtered.2.1 with
    | .panics msg => .panics msg
    | .returns pre =>
      .returns ⟨filtered.1, filtered.2.1, pre.1, testerScore pl pre.2 filtered.2.1⟩

/-- The provisioner name `waitProvisioner` of the test file. -/
def waitProvisioner : String := "wait"

/-- The storage class `immediateSC` of the test file. -/
def immediateSC : StorageClass := ⟨"immediate-sc", ""⟩

/-- The storage class `waitSC` of the test file. -/
def waitSC : StorageClass := ⟨"wait-sc", waitProvisioner⟩

/-- The storage class `waitHDDSC` of the test file. -/
def waitHDDSC : StorageClass := ⟨"wait-hdd-sc", waitProvisioner⟩

/-- The driver `waitCSIDriver` of the test file, which tracks capacity. -/
def waitCSIDriver : CSIDriver := ⟨some true⟩

/-- The plugin that `newPluginTester` builds: the three storage classes and
the one driver of the test file, and the given capacity records. -/
def newPluginTester (cscs : List CSIStorageCapacity) : StorageCapacityPrioritization where
  classLister := fun name =>
    if name = immediateSC.name then .ok immediateSC
    else if name = waitSC.name then .ok waitSC
    else if name = waitHDDSC.name then .ok waitHDDSC
    else .error (.notFound ("storageclass.storage.k8s.io " ++ goQuote name ++ " not found"))
  csiDriverLister := fun name =>
    if name = waitProvisioner then .ok waitCSIDriver
    else .error (.notFound ("csidriver.storage.k8s.io " ++ goQuote name ++ " not found"))
  csiStorageCapacityLister := .ok cscs

/-- The builder `makeNode` of the test utilities. -/
def makeNode (name : String) : Node := ⟨name, [("kubernetes.io/hostname", name)]⟩

/-- The builder method `withLabel` of the test utilities. -/
def Node.withLabel (node : Node) (key value : String) : Node :=
  { node with labels := mapSet key value node.labels }

/-- The builder `makePVC` of the test utilities. -/
def makePVC (name storageClassName : String) : PersistentVolumeClaim :=
  ⟨name, "default", some storageClassName, none⟩

/-- The builder method `withRequestStorage` of the test utilities, for a
request of a whole number of bytes: `withRequestStorage(resource.MustParse("10Gi"))`
is `withRequestStorage (Gi 10)`. -/
def PersistentVolumeClaim.withRequestStorage (pvc : PersistentVolumeClaim) (request : Nat) :
    PersistentVolumeClaim :=
  { pvc with request := some (Quantity.ofBytes request) }

/-- The builder method `withRequestStorage` for any quantity. -/
def PersistentVolumeClaim.withRequestQuantity (pvc : PersistentVolumeClaim)
    (request : Quantity) : PersistentVolumeClaim :=
  { pvc with request := some request }

/-- The builder `makeCSC` of the test utilities (the object name is not
read by the plugin). -/
def makeCSC (storageClassName : String) : CSIStorageCapacity :=
  ⟨storageClassName, none, none, none⟩

/-- The builder method `withCapacity` of the test utilities. -/
def CSIStorageCapacity.withCapacity (csc : CSIStorageCapacity) (capacity : Nat) :
    CSIStorageCapacity :=
  { csc with Capacity := some capacity }

/-- The builder method `withTopology` of the test utilities:
`metav1.SetAsLabelSelector` puts the labels into `matchLabels`. -/
def CSIStorageCapacity.withTopology (csc : CSIStorageCapacity) (ls : List (String × String)) :
    CSIStorageCapacity :=
  { csc with NodeTopology := some ⟨ls, []⟩ }

/-- The number of bytes in `n` gibibytes, as in `resource.MustParse("10Gi")`. -/
def Gi (n : Nat) : Nat := n * 2 ^ 30

/-- A node of the tests in the given zone. -/
def zoneNode (zone : String) : Node :=
  (makeNode (zone ++ "-node-a")).withLabel "topology.kubernetes.io/zone" zone

/-- A capacity record of the tests: class `wait-sc`, the given capacity,
reachable from the given zone. -/
def zoneCapacity (zone : String) (capacity : Nat) : CSIStorageCapacity :=
  ((makeCSC waitSC.name).withCapacity capacity).withTopology
    [("topology.kubernetes.io/zone", zone)]

/-- The nodes of `TestStorageCapacityPrioritization`. -/
def e2eNodes : List Node :=
  [zoneNode "zone-a", zoneNode "zone-b", zoneNode "zone-c", zoneNode "zone-d"]

/-- The claim of `TestStorageCapacityPrioritization`, requesting 10Gi. -/
def e2eClaim : PersistentVolumeClaim := (makePVC "pvc-a" waitSC.name).withRequestStorage (Gi 10)

/-- The capacity records of `TestStorageCapacityPrioritization`. -/
def e2eCapacities : List CSIStorageCapacity :=
  [zoneCapacity "zone-a" (Gi 10), zoneCapacity "zone-b" (Gi 20), zoneCapacity "zone-c" (Gi 100),
    zoneCapacity "zone-d" (Gi 5)]

/-- The volume-binding state of `TestStorageCapacityPrioritization`: every
node would provision the claim, which is the one claim to bind. -/
def e2eVolumeBinding : VolumeBindingState :=
  ⟨e2eNodes.map (fun node => (node.name, ⟨[e2eClaim]⟩)), [e2eClaim]⟩

/-- The cycle state of `TestStorageCapacityPrioritization` once the
volume-binding plugin has filtered: every node would provision the claim. -/
def e2eState : CycleState where
  volumeBinding := .data e2eVolumeBinding
  plugin := .absent

/-! ## Vocabulary of the specification -/

/-- The claims of a list that name the given storage class. -/
def claimsOfClass (className : String) (claims : List PersistentVolumeClaim) :
    List PersistentVolumeClaim :=
  claims.filter (fun claim => claim.storageClassName = some className)

/-- The sum of the requests of a list of claims, exact. -/
def requestSum (claims : List PersistentVolumeClaim) : Quantity :=
  ⟨(claims.map (fun claim => (claim.request.getD ⟨0⟩).nano)).sum⟩

/-- The summed request of a list of claims in bytes, in the words of the
specification: the sum of the requests, rounded up to a whole number of bytes.
For requests of whole numbers of bytes it is the sum of those numbers. -/
def summedRequest (claims : List PersistentVolumeClaim) : Nat :=
  (requestSum claims).roundedUp

/-- The request of a list of claims in bytes as the code computes it, the
`int64` that `total.Value()` returns for their sum: the summed request when
that is below `2^63`. -/
def requestedBytes (claims : List PersistentVolumeClaim) : Int :=
  (requestSum claims).Value

/-- The request of a storage class among a list of claims, in bytes as the
code computes it. -/
def classRequest (className : String) (claims : List PersistentVolumeClaim) : Int :=
  requestedBytes (claimsOfClass className claims)

/-- The summed request of a storage class among a list of claims, in the words
of the specification. -/
def classSummedRequest (className : String) (claims : List PersistentVolumeClaim) : Nat :=
  summedRequest (claimsOfClass className claims)

/-- A name of ASCII characters; on such a name `goQuote` is Go's `%q`. -/
def asciiName (s : String) : Prop :=
  ∀ c ∈ s.toList, c.toNat < 128

/-- What the grouping loop has built after the given claims: distinct keys,
and under each class name exactly the claims of that class, in order; classes
without a claim have no entry. -/
def Grouped (groups : claimsByStorageClass) (claims : List PersistentVolumeClaim) : Prop :=
  (groups.map Prod.fst).Nodup ∧
  ∀ k, groups.lookup k =
    if claimsOfClass k claims = [] then none else some (claimsOfClass k claims)

/-- The reasons `hasEnoughCapacities` gathers from the visited entries when
no call fails: the non-empty reasons, in the order visited. -/
def StorageCapacityPrioritization.reasonsOf (pl : StorageCapacityPrioritization) (node : Node)
    (entries : List (String × claimGroup)) : List String :=
  entries.filterMap (fun entry =>
    match pl.hasEnoughCapacity node entry.1 entry.2 with
    | .ok reason => if reason ≠ "" then some reason else none
    | .error _ => none)

/-- The plugin of the tests with a driver that does not track capacity
(`StorageCapacity` is false) in place of `waitCSIDriver`. -/
def untrackedPluginTester (cscs : List CSIStorageCapacity) : StorageCapacityPrioritization where
  classLister := (newPluginTester cscs).classLister
  csiDriverLister := fun name =>
    if name = waitProvisioner then .ok ⟨some false⟩
    else .error (.notFound ("csidriver.storage.k8s.io " ++ goQuote name ++ " not found"))
  csiStorageCapacityLister := .ok cscs

/-- The record is of the class and its topology matches the node. -/
def matchesRecord (node : Node) (className : String) (record : CSIStorageCapacity) : Bool :=
  decide (record.StorageClassName = className) && nodeHasAccess node record

/-- Some capacity record of the class matches the node. -/
def hasMatch (node : Node) (className : String) (capacities : List CSIStorageCapacity) : Bool :=
  capacities.any (matchesRecord node className)

/-- The bulk capacity of the last record, in list order, of the class that
matches the node (0 when there is none or it has no `Capacity`). -/
def lastCapacity (node : Node) (className : String) (capacities : List CSIStorageCapacity) :
    Nat :=
  match (capacities.filter (matchesRecord node className)).getLast? with
  | some record => record.Capacity.getD 0
  | none => 0

/-- The storage classes, among the given names, for which a matching
capacity record is found for the node. -/
def scoredClasses (node : Node) (storageClassNames : List String)
    (capacities : List CSIStorageCapacity) : List String :=
  storageClassNames.filter (fun className => hasMatch node className capacities)

/-- The utilisation score of a class on a node: the score of the class's
summed request against the capacity used for the pair. -/
def classScore (indefinite : Int) (capacities : List CSIStorageCapacity)
    (claims : claimsByStorageClass) (node : Node) (className : String) : Int :=
  usageScore indefinite (requestedBytes ((claims.get className).getD []))
    (lastCapacity node className capacities)

/-- The mean of the specification: the quotient, truncated towards zero, of
the `int64` sum of the scores by their number. -/
def meanScore (scores : List Int) : Int :=
  Int.tdiv (wrapInt64 scores.sum) scores.length

/-- The entries of a node in `capacityUsageMap`: one per scored class. -/
def usageEntries (indefinite : Int) (capacities : List CSIStorageCapacity)
    (claims : claimsByStorageClass) (node : Node) (storageClassNames : List String) :
    List (String × Int) :=
  (scoredClasses node storageClassNames capacities).map
    (fun className => (className, classScore indefinite capacities claims node className))

/-- What `capacityUsageMap` holds once the given class names have been
visited: for each node its entries (no key when it has none), and no other
key. -/
def UsageInv (indefinite : Int) (nodes : List Node) (capacities : List CSIStorageCapacity)
    (claims : claimsByStorageClass) (m : UsageMap) (visited : List String) : Prop :=
  (∀ node ∈ nodes, m.lookup node.name =
    if usageEntries indefinite capacities claims node visited = [] then none
    else some (usageEntries indefinite capacities claims node visited)) ∧
  (∀ nm, nm ∉ nodes.map Node.name → m.lookup nm = none)

/-- The nodes of the cases of `TestStorageCapacityPrioritizationPreScore`. -/
def preScoreNodes : List Node := [zoneNode "zone-a", zoneNode "zone-b", zoneNode "zone-c"]

/-- A capacity record of the tests for the given class and zone. -/
def classZoneCapacity (className zone : String) (capacity : Nat) : CSIStorageCapacity :=
  ((makeCSC className).withCapacity capacity).withTopology
    [("topology.kubernetes.io/zone", zone)]

/-- The capacity records of the case with two storage classes of
`TestStorageCapacityPrioritizationPreScore`: 50Gi per class and zone. -/
def multiClassCapacities : List CSIStorageCapacity :=
  [classZoneCapacity waitSC.name "zone-a" (Gi 50), classZoneCapacity waitSC.name "zone-b" (Gi 50),
    classZoneCapacity waitSC.name "zone-c" (Gi 50),
    classZoneCapacity waitHDDSC.name "zone-a" (Gi 50),
    classZoneCapacity waitHDDSC.name "zone-b" (Gi 50),
    classZoneCapacity waitHDDSC.name "zone-c" (Gi 50)]

/-- The claims to bind of that case: 20Gi of `wait-sc` and 10Gi of
`wait-hdd-sc`. -/
def multiClassClaims : List PersistentVolumeClaim :=
  [(makePVC "pvc-a" waitSC.name).withRequestStorage (Gi 20),
    (makePVC "pvc-b" waitHDDSC.name).withRequestStorage (Gi 10)]

/-- The claims of that case grouped by storage class. -/
def multiClassGroups : claimsByStorageClass :=
  [(waitSC.name, [(makePVC "pvc-a" waitSC.name).withRequestStorage (Gi 20)]),
    (waitHDDSC.name, [(makePVC "pvc-b" waitHDDSC.name).withRequestStorage (Gi 10)])]

/-- The value of a finite `float64` as a rational number. -/
def F64.toRat : F64 → ℚ
  | .finite m e => (m : ℚ) * (2 : ℚ) ^ e
  | .inf => 0
  | .nan => 0

/-- The integer nearest to the rational `y`, ties to even. -/
def roundHalfEvenQ (y : ℚ) : ℤ :=
  if y - ⌊y⌋ < 1 / 2 then ⌊y⌋
  else if 1 / 2 < y - ⌊y⌋ then ⌊y⌋ + 1
  else if ⌊y⌋ % 2 = 0 then ⌊y⌋
  else ⌊y⌋ + 1

/-- The rational with a 53-bit significand nearest to the rational `x`, ties to
even (0 for `x ≤ 0`): what IEEE 754 rounding to `float64` yields, exponent
range aside. -/
def roundQ (x : ℚ) : ℚ :=
  if x ≤ 0 then 0
  else (roundHalfEvenQ (x / (2 : ℚ) ^ (Int.log 2 x - 52)) : ℚ) * (2 : ℚ) ^ (Int.log 2 x - 52)

/-- A node, a class and one matching capacity record of the given capacity,
with one claim of the class requesting the given number of bytes: the
arguments of `calculateScore` for a single (node, class) pair. -/
def singlePairScore (indefinite : Int) (request capacity : Nat) :
    Run (Except String (List (String × Int))) :=
  calculateScore indefinite [zoneNode "zone-a"] [waitSC.name]
    [zoneCapacity "zone-a" capacity]
    [(waitSC.name, [(makePVC "pvc-a" waitSC.name).withRequestStorage request])]

/-- The rejection of a node for a shortfall of `sizeInBytes` bytes in one
class. -/
def shortfallStatus (node : Node) (sizeInBytes : Int) : Status :=
  ⟨Code.UnschedulableAndUnresolvable,
    [StorageCapacityPrioritization.notEnoughReason node.name sizeInBytes]⟩

/-- A claim of class `wait-sc` requesting 0 bytes. -/
def zeroClaim : PersistentVolumeClaim := (makePVC "pvc-a" waitSC.name).withRequestStorage 0

/-- A cycle state in which the one node of zone `zone-a` would provision
`zeroClaim`, the one claim to bind. -/
def zeroState : CycleState where
  volumeBinding := .data ⟨[((zoneNode "zone-a").name, ⟨[zeroClaim]⟩)], [zeroClaim]⟩
  plugin := .absent

/-- A `matchLabels` pair is satisfied by labels that carry the key with that
value. -/
def pairSatisfied (ls : List (String × String)) (kv : String × String) : Bool :=
  decide (ls.lookup kv.1 = some kv.2)

/-- A `matchExpressions` requirement is satisfied by labels as the API
documents its operators: `In`, the key is present with one of the values;
`NotIn`, the key is absent or its value is none of the values; `Exists`, the
key is present; `DoesNotExist`, the key is absent.  No labels satisfy an
operator outside these four. -/
def expressionSatisfied (ls : List (String × String)) (expr : LabelSelectorRequirement) : Bool :=
  match expr.operator, ls.lookup expr.key with
  | .In, some v => decide (v ∈ expr.values)
  | .In, none => false
  | .NotIn, some v => !decide (v ∈ expr.values)
  | .NotIn, none => true
  | .Exists, l => l.isSome
  | .DoesNotExist, l => l.isNone
  | .unknown _, _ => false

/-- A `matchLabels` pair is well formed: the key is a qualified name and the
value a valid label value. -/
def wellFormedPair (kv : String × String) : Bool :=
  IsQualifiedName kv.1 && IsValidLabelValue kv.2

/-- A `matchExpressions` requirement is well formed as the API documents it:
the key is a qualified name, the values are valid label values, and the
operator is one of the four, with values for `In` and `NotIn` and without
values for `Exists` and `DoesNotExist`. -/
def wellFormedExpression (expr : LabelSelectorRequirement) : Bool :=
  IsQualifiedName expr.key && expr.values.all IsValidLabelValue &&
    (match expr.operator with
      | .In => !expr.values.isEmpty
      | .NotIn => !expr.values.isEmpty
      | .Exists => expr.values.isEmpty
      | .DoesNotExist => expr.values.isEmpty
      | .unknown _ => false)

/-- A label selector is well formed: its pairs and its requirements are. -/
def wellFormedSelector (sel : LabelSelector) : Bool :=
  sel.matchLabels.all wellFormedPair && sel.matchExpressions.all wellFormedExpression

/-- A capacity record whose topology is the malformed requirement
`topology.kubernetes.io/zone NotIn ()`. -/
def malformedTopologyRecord : CSIStorageCapacity :=
  ⟨waitSC.name, some ⟨[], [⟨"topology.kubernetes.io/zone", .NotIn, []⟩]⟩, some (Gi 10), none⟩

/-- A claim without a storage request: `makePVC` sets none. -/
def claimWithoutRequest : PersistentVolumeClaim := makePVC "pvc-b" waitSC.name

/-- A claim of a storage class that the class lister of the tests does not
know. -/
def unknownClassClaim : PersistentVolumeClaim :=
  (makePVC "pvc-c" "unknown-sc").withRequestStorage (Gi 10)

/-- Three claims of two storage classes, the first and the last of `wait-sc`. -/
def mixedClaims : List PersistentVolumeClaim := multiClassClaims ++ [e2eClaim]

/-- The driver of a storage class does not take part in capacity tracking: its
record is not found, or its `StorageCapacity` flag is unset or false. -/
def StorageCapacityPrioritization.driverUntracked (pl : StorageCapacityPrioritization)
    (cls : StorageClass) : Bool :=
  match pl.csiDriverLister cls.Provisioner with
  | .error err => IsNotFound err
  | .ok driver => decide (driver.StorageCapacity = none ∨ driver.StorageCapacity = some false)

/-- The driver of a storage class tracks capacity: its record is found and its
`StorageCapacity` flag is true. -/
def StorageCapacityPrioritization.driverTracks (pl : StorageCapacityPrioritization)
    (cls : StorageClass) : Bool :=
  match pl.csiDriverLister cls.Provisioner with
  | .ok driver => decide (driver.StorageCapacity = some true)
  | .error _ => false

/-- A storage class has a capacity shortfall on a node for a request of
`sizeInBytes` bytes: the class is known, its driver tracks capacity, and no
capacity record of the class both matches the node's topology and has a limit of
at least `sizeInBytes`.  A class whose driver does not track capacity passes. -/
def StorageCapacityPrioritization.hasShortfall (pl : StorageCapacityPrioritization) (node : Node)
    (capacities : List CSIStorageCapacity) (className : String) (sizeInBytes : Int) : Bool :=
  (match pl.classLister className with
    | .ok cls => pl.driverTracks cls
    | .error _ => false) &&
  !capacities.any (fun record => decide (record.StorageClassName = className) &&
    (capacitySufficient record sizeInBytes && nodeHasAccess node record))

/-- The capacity records of the second filter case with a shortfall of
`TestStorageCapacityPrioritizationFilter`: 50Gi, 49Gi and 49Gi. -/
def filterCapacities : List CSIStorageCapacity :=
  [zoneCapacity "zone-a" (Gi 50), zoneCapacity "zone-b" (Gi 49), zoneCapacity "zone-c" (Gi 49)]

/-- The claim of the filter cases, requesting 50Gi. -/
def filterClaim : PersistentVolumeClaim := (makePVC "pvc-a" waitSC.name).withRequestStorage (Gi 50)

/-- The volume-binding state of the filter cases: each of the three nodes would
provision the claim. -/
def filterVolumeBinding : VolumeBindingState :=
  ⟨preScoreNodes.map (fun node => (node.name, ⟨[filterClaim]⟩)), []⟩

/-- The cycle state of the filter cases before `Filter` runs. -/
def filterState : CycleState where
  volumeBinding := .data filterVolumeBinding
  plugin := .data ⟨StringSet.NewString, none⟩

/-- A cycle state left over from an earlier use: names and scores stored under
the plugin's key. -/
def usedState : CycleState where
  volumeBinding := .data filterVolumeBinding
  plugin := .data ⟨StringSet.NewString.Insert waitSC.name, some [("zone-a-node-a", 100)]⟩

/-- A volume-binding state in which the node of zone `zone-a` has nothing to
provision and the one claim to bind names a storage class the class lister of
the tests does not know. -/
def unknownClassVolumeBinding : VolumeBindingState :=
  ⟨[((zoneNode "zone-a").name, ⟨[]⟩)], [unknownClassClaim]⟩

/-- The cycle state with `unknownClassVolumeBinding` once `PreFilter` and
`Filter` have run: no class name has been recorded. -/
def unknownClassState : CycleState where
  volumeBinding := .data unknownClassVolumeBinding
  plugin := .data ⟨StringSet.NewString, none⟩

/-- A cycle state in which `Filter` has recorded `wait-sc` and the claims to
bind are one of `wait-sc` and one of the unknown class. -/
def partlyUnknownState : CycleState where
  volumeBinding := .data ⟨[((zoneNode "zone-a").name, ⟨[e2eClaim]⟩)], [e2eClaim, unknownClassClaim]⟩
  plugin := .data ⟨StringSet.NewString.Insert waitSC.name, none⟩

/-- A volume-binding state in which the node of zone `zone-a` would provision
one claim that carries no storage request. -/
def noRequestVolumeBinding : VolumeBindingState :=
  ⟨[((zoneNode "zone-a").name, ⟨[claimWithoutRequest]⟩)], [claimWithoutRequest]⟩

/-- The cycle state with `noRequestVolumeBinding` once `PreFilter` has run. -/
def noRequestState : CycleState where
  volumeBinding := .data noRequestVolumeBinding
  plugin := .data ⟨StringSet.NewString, none⟩

/-- The text `storage class <name> is not found`, the reason `hasEnoughCapacity`
returns when its own class lookup is answered with not-found. -/
def classNotFoundReason (className : String) : String :=
  "storage class " ++ goQuote className ++ " is not found"

/-- A volume-binding state in which the node of zone `zone-a` would provision
a claim of `wait-sc` and a claim of a class the class lister does not know. -/
def unknownProvisionVolumeBinding : VolumeBindingState :=
  ⟨[((zoneNode "zone-a").name, ⟨[e2eClaim, unknownClassClaim]⟩)], [e2eClaim, unknownClassClaim]⟩

/-- The cycle state with `unknownProvisionVolumeBinding` once `PreFilter` has
run. -/
def unknownProvisionState : CycleState where
  volumeBinding := .data unknownProvisionVolumeBinding
  plugin := .data ⟨StringSet.NewString, none⟩

/-- The plugin of the tests with a driver lookup that fails with an error other
than not-found. -/
def brokenDriverTester (cscs : List CSIStorageCapacity) : StorageCapacityPrioritization where
  classLister := (newPluginTester cscs).classLister
  csiDriverLister := fun _ => .error (.other "etcdserver: request timed out")
  csiStorageCapacityLister := .ok cscs

/-- The plugin of the tests with a capacity listing that fails with an error
other than not-found. -/
def brokenCapacityTester : StorageCapacityPrioritization where
  classLister := (newPluginTester []).classLister
  csiDriverLister := (newPluginTester []).csiDriverLister
  csiStorageCapacityLister := .error (.other "etcdserver: request timed out")

/-- The plugin of the tests with a capacity listing that is answered with
not-found. -/
def missingCapacityTester : StorageCapacityPrioritization where
  classLister := (newPluginTester []).classLister
  csiDriverLister := (newPluginTester []).csiDriverLister
  csiStorageCapacityLister := .error (.notFound "csistoragecapacities not found")

/-- A lookup made for a storage class fails with an error other than
not-found: the driver lookup, or, the driver tracking capacity so that the
records are listed, the capacity listing. -/
def StorageCapacityPrioritization.lookupBroken (pl : StorageCapacityPrioritization)
    (cls : StorageClass) : Bool :=
  match pl.csiDriverLister cls.Provisioner with
  | .error err => !IsNotFound err
  | .ok driver =>
    decide (driver.StorageCapacity = some true) &&
      (match pl.csiStorageCapacityLister with
        | .error err => !IsNotFound err
        | .ok _ => false)

/-- The map `claimsBySC` of `PreScore`: what `claimsByStorageClass` returned
for the claims to bind, the nil map when it failed. -/
def StorageCapacityPrioritization.groupsOrNil (pl : StorageCapacityPrioritization)
    (claims : List PersistentVolumeClaim) : Scheduler.claimsByStorageClass :=
  match pl.claimsByStorageClass claims with
  | .returns (.ok grouped) => grouped
  | _ => []

/-- The cycle state of the first case of
`TestStorageCapacityPrioritizationFilter`: an empty `volumebinding.StateData`
and the state data `PreFilter` writes. -/
def noVolumesState : CycleState where
  volumeBinding := .data ⟨[], []⟩
  plugin := .data ⟨StringSet.NewString, none⟩

/-- The cycle state of the case with two storage classes of
`TestStorageCapacityPrioritizationPreScore`, before `PreScore` runs. -/
def multiClassState : CycleState where
  volumeBinding := .data ⟨[], multiClassClaims⟩
  plugin := .data ⟨(StringSet.NewString.Insert waitSC.name).Insert waitHDDSC.name, none⟩

/-- The claims of `wait-sc` grouped, with one claim of the given request. -/
def waitGroup (request : Nat) : claimsByStorageClass :=
  [(waitSC.name, [(makePVC "pvc-a" waitSC.name).withRequestStorage request])]

/-- A volume-binding state in which the node of zone `zone-a` would provision
the two claims of `multiClassClaims`, one of `wait-sc` and one of
`wait-hdd-sc`. -/
def twoClassVolumeBinding : VolumeBindingState :=
  ⟨[((zoneNode "zone-a").name, ⟨multiClassClaims⟩)], multiClassClaims⟩

/-- The cycle state with `twoClassVolumeBinding` once `PreFilter` has run. -/
def twoClassState : CycleState where
  volumeBinding := .data twoClassVolumeBinding
  plugin := .data ⟨StringSet.NewString, none⟩

/-- Two claims of the class `wait-sc` of `2^62` bytes (4Ei) each: their sum,
`2^63` bytes, is not an `int64`. -/
def hugeClaims : List PersistentVolumeClaim :=
  [(makePVC "pvc-a" waitSC.name).withRequestStorage (2 ^ 62),
    (makePVC "pvc-b" waitSC.name).withRequestStorage (2 ^ 62)]

/-- A claim of the class `wait-sc` requesting half a byte (`500m`). -/
def halfByteClaim : PersistentVolumeClaim :=
  (makePVC "pvc-a" waitSC.name).withRequestQuantity ⟨5 * 10 ^ 8⟩

/-- A claim without a storage class name: `Spec.StorageClassName` is nil. -/
def unnamedClaim : PersistentVolumeClaim :=
  ⟨"pvc-a", "default", none, some (Quantity.ofBytes (Gi 10))⟩

/-- A cycle state in which the node of zone `zone-a` would provision
`unnamedClaim`, the one claim to bind. -/
def unnamedState : CycleState where
  volumeBinding := .data ⟨[((zoneNode "zone-a").name, ⟨[unnamedClaim]⟩)], [unnamedClaim]⟩
  plugin := .absent

/-- Four claims of the class `wait-sc` of `2^62` bytes each and one of 5
bytes: their sum is `2^64 + 5` bytes. -/
def wrappedClaims : List PersistentVolumeClaim :=
  hugeClaims ++ hugeClaims ++ [(makePVC "pvc-c" waitSC.name).withRequestStorage 5]

/-- A cycle state in which the node of zone `zone-a` would provision
`wrappedClaims`. -/
def wrappedState : CycleState where
  volumeBinding := .data ⟨[((zoneNode "zone-a").name, ⟨wrappedClaims⟩)], wrappedClaims⟩
  plugin := .absent

/-- The two claims of `hugeClaims` beside a claim of the class `wait-hdd-sc`
requesting 10Gi. -/
def hugeAndSmallClaims : List PersistentVolumeClaim :=
  hugeClaims ++ [(makePVC "pvc-c" waitHDDSC.name).withRequestStorage (Gi 10)]

/-- A cycle state in which the node of zone `zone-a` would provision
`hugeAndSmallClaims`. -/
def hugeAndSmallState : CycleState where
  volumeBinding :=
    .data ⟨[((zoneNode "zone-a").name, ⟨hugeAndSmallClaims⟩)], hugeAndSmallClaims⟩
  plugin := .absent

/-- The operations `Filter` performs on the state data, in program order. -/
def StorageCapacityPrioritization.FilterOps (pl : StorageCapacityPrioritization)
    (seed : Nat) (cs : CycleState) (nodeInfo : Option Node) : List StateOp :=
  (pl.FilterCall seed cs nodeInfo).ops

/-- The operations `PreScore` performs on the state data, in program order. -/
def StorageCapacityPrioritization.PreScoreOps (pl : StorageCapacityPrioritization)
    (indefinite : Int) (cs : CycleState) (nodes : List Node) : List StateOp :=
  (pl.PreScoreCall indefinite cs nodes).ops

/-- The operation keeps the lock discipline: an insertion or a write of
`scores` does when the mutex is held at that moment, the other operations
always do. -/
def StateOp.guarded : StateOp → Bool
  | .insert _ held => held
  | .writeScores _ held => held
  | _ => true

/-- A volume-binding state for two nodes: the node of zone `zone-a` would
provision the two claims of `multiClassClaims`, the node of zone `zone-b` the
claim of `wait-sc` alone. -/
def twoNodeVolumeBinding : VolumeBindingState :=
  ⟨[((zoneNode "zone-a").name, ⟨multiClassClaims⟩),
    ((zoneNode "zone-b").name, ⟨[(makePVC "pvc-a" waitSC.name).withRequestStorage (Gi 20)]⟩)],
    multiClassClaims⟩

/-- The cycle state with `twoNodeVolumeBinding` once `PreFilter` has run. -/
def twoNodeState : CycleState where
  volumeBinding := .data twoNodeVolumeBinding
  plugin := .data ⟨StringSet.NewString, none⟩

/-- The plugin of the two-node case: the one capacity record is 50Gi of
`wait-sc` in zone `zone-b`. -/
def twoNodePlugin : StorageCapacityPrioritization :=
  newPluginTester [zoneCapacity "zone-b" (Gi 50)]

/-- The capacity records with their `MaximumVolumeSize` replaced, record by
record, by the value `f` gives. -/
def setMaximumVolumeSizes (f : CSIStorageCapacity → Option Nat)
    (capacities : List CSIStorageCapacity) : List CSIStorageCapacity :=
  capacities.map (fun record => { record with MaximumVolumeSize := f record })

/-- Two records of `wait-sc` that both match the node of zone `zone-a`: 10Gi,
then 20Gi. -/
def twoRecordCapacities : List CSIStorageCapacity :=
  [zoneCapacity "zone-a" (Gi 10), zoneCapacity "zone-a" (Gi 20)]

/-- Some capacity record of the class matches at least one of the nodes. -/
def matchesSomeNode (nodes : List Node) (className : String)
    (capacities : List CSIStorageCapacity) : Bool :=
  nodes.any (fun node => hasMatch node className capacities)

/-- The error a class gives rise to once a record of it matches a node: its
group is missing from the claims, or the sum of its group's requests fails. -/
def groupError (claims : claimsByStorageClass) (className : String) : Option String :=
  match claims.get className with
  | none => some ("storage class " ++ goQuote className ++ " is not found in claim groups")
  | some cg =>
    match cg.totalRequiredCapacity with
    | .error err => some err
    | .ok _ => none

/-- The error of the first class, in the order of the names, that has a record
matching one of the nodes and a missing or unusable group. -/
def firstError (nodes : List Node) (capacities : List CSIStorageCapacity)
    (claims : claimsByStorageClass) : List String → Option String
  | [] => none
  | className :: rest =>
    match (if matchesSomeNode nodes className capacities = true then groupError claims className
      else none) with
    | some err => some err
    | none => firstError nodes capacities claims rest

/-- A capacity record of `wait-sc` for zone `zone-a` that reports a
`MaximumVolumeSize` of 50Gi and no `Capacity`. -/
def maximumOnlyRecord : CSIStorageCapacity :=
  { (makeCSC waitSC.name).withTopology [("topology.kubernetes.io/zone", "zone-a")] with
    MaximumVolumeSize := some (Gi 50) }

/-! # Verification -/

set_option maxRecDepth 4000

/-! ## Capacity matching -/

theorem find_eq_lookup (scores : List (String × Int)) (nodeName : String) :
    (scores.find? (fun kv => kv.1 = nodeName)).map Prod.snd = scores.lookup nodeName := by
  induction scores with
  | nil => rfl
  | cons kv rest ih =>
    obtain ⟨k, v⟩ := kv
    by_cases h : k = nodeName
    · subst h
      simp [List.find?, List.lookup]
    · have h2 : (nodeName == k) = false := by
        simp only [beq_eq_false_iff_ne, ne_eq]
        exact fun e => h e.symm
      simp [List.find?, List.lookup, h, h2, ih]

theorem Score_of_state (pl : StorageCapacityPrioritization) (cs : CycleState) (state : stateData)
    (nodeName : String) (h : cs.plugin = StateEntry.data state) :
    pl.Score cs nodeName = (((state.scores.getD []).lookup nodeName).getD 0, none) := by
  unfold StorageCapacityPrioritization.Score getStateData
  rw [h]
  obtain ⟨names, scores⟩ := state
  cases scores with
  | none => simp
  | some scores =>
    have hl := find_eq_lookup scores nodeName
    cases hf : scores.find? (fun kv => kv.1 = nodeName) with
    | none =>
      rw [hf] at hl
      simp only [Option.map_none'] at hl
      simp [hf, ← hl]
    | some kv =>
      rw [hf] at hl
      simp only [Option.map_some'] at hl
      simp [hf, ← hl]

/-- C9: on a cycle state that holds the plugin's state data, `Score` returns
the score stored under the node name when there is one and 0 otherwise (also
when `scores` was never set), always with the nil (success) status.  `Score`
yields no new state: it only reads. -/
theorem Score_eq_lookup (pl : StorageCapacityPrioritization) (cs : CycleState) (state : stateData)
    (nodeName : String) (h : cs.plugin = StateEntry.data state) :
    pl.Score cs nodeName = (((state.scores.getD []).lookup nodeName).getD 0, none) :=
  Score_of_state pl cs state nodeName h

/-- The cycle state of `TestStorageCapacityPrioritizationScore`. -/
theorem Score_eq_lookup_witness :
    (newPluginTester []).Score
        ⟨.absent, .data ⟨StringSet.NewString,
          some [("zone-a-node-a", 10), ("zone-b-node-a", 20), ("zone-c-node-a", 30)]⟩⟩
        "zone-b-node-a" = (20, none) :=
  Score_eq_lookup (newPluginTester [])
    ⟨.absent, .data ⟨StringSet.NewString,
      some [("zone-a-node-a", 10), ("zone-b-node-a", 20), ("zone-c-node-a", 30)]⟩⟩
    ⟨StringSet.NewString, some [("zone-a-node-a", 10), ("zone-b-node-a", 20), ("zone-c-node-a", 30)]⟩
    "zone-b-node-a" rfl

/-! ## Association lists -/

theorem lookup_cons_eq {β : Type} (k : String) (v : β) (l : List (String × β)) :
    List.lookup k ((k, v) :: l) = some v := by
  simp [List.lookup]

theorem lookup_cons_ne {β : Type} (k k1 : String) (v : β) (l : List (String × β)) (h : k ≠ k1) :
    List.lookup k ((k1, v) :: l) = List.lookup k l := by
  have h2 : (k == k1) = false := by simpa using h
  simp [List.lookup, h2]

theorem lookup_eq_none_iff {β : Type} (k : String) (l : List (String × β)) :
    l.lookup k = none ↔ k ∉ l.map Prod.fst := by
  induction l with
  | nil => simp
  | cons kv rest ih =>
    obtain ⟨k1, v⟩ := kv
    by_cases h : k = k1
    · subst h
      simp [lookup_cons_eq]
    · rw [lookup_cons_ne k k1 v rest h, ih]
      simp [h]

theorem mem_of_lookup_eq_some {β : Type} (k : String) (v : β) (l : List (String × β))
    (h : l.lookup k = some v) : (k, v) ∈ l := by
  induction l with
  | nil => simp at h
  | cons kv rest ih =>
    obtain ⟨k1, v1⟩ := kv
    by_cases hk : k = k1
    · subst hk
      rw [lookup_cons_eq] at h
      cases h
      exact List.mem_cons_self _ _
    · rw [lookup_cons_ne k k1 v1 rest hk] at h
      exact List.mem_cons_of_mem _ (ih h)

theorem lookup_eq_some_of_mem {β : Type} (k : String) (v : β) (l : List (String × β))
    (hn : (l.map Prod.fst).Nodup) (h : (k, v) ∈ l) : l.lookup k = some v := by
  induction l with
  | nil => simp at h
  | cons kv rest ih =>
    obtain ⟨k1, v1⟩ := kv
    simp only [List.map_cons, List.nodup_cons] at hn
    rcases List.mem_cons.mp h with h1 | h1
    · cases h1
      exact lookup_cons_eq k v rest
    · have hk : k ≠ k1 := by
        rintro rfl
        exact hn.1 (List.mem_map_of_mem Prod.fst h1)
      rw [lookup_cons_ne k k1 v1 rest hk]
      exact ih hn.2 h1

/-! ## Grouping claims by storage class -/

theorem wrapInt64_of_range (x : Int) (h1 : -2 ^ 63 ≤ x) (h2 : x < 2 ^ 63) : wrapInt64 x = x := by
  unfold wrapInt64
  rw [Int.emod_eq_of_lt (by linarith) (by linarith)]
  ring

theorem wrapInt64_bounds (x : Int) : -2 ^ 63 ≤ wrapInt64 x ∧ wrapInt64 x < 2 ^ 63 := by
  unfold wrapInt64
  have h1 := Int.emod_nonneg (x + 2 ^ 63) (by norm_num : (2 ^ 64 : Int) ≠ 0)
  have h2 := Int.emod_lt_of_pos (x + 2 ^ 63) (by norm_num : (0 : Int) < 2 ^ 64)
  constructor <;> linarith

theorem Quantity.roundedUp_ofBytes (n : Nat) : (Quantity.ofBytes n).roundedUp = n := by
  unfold Quantity.roundedUp Quantity.ofBytes
  simp only
  rw [Nat.add_comm, Nat.add_mul_div_right _ _ (by norm_num : 0 < 10 ^ 9)]
  norm_num

theorem Quantity.Value_of_lt (q : Quantity) (h : q.roundedUp < 2 ^ 63) :
    q.Value = (q.roundedUp : Int) := by
  unfold Quantity.Value
  apply wrapInt64_of_range
  · have : (0 : Int) ≤ (q.roundedUp : Int) := Int.natCast_nonneg _
    linarith
  · exact_mod_cast h

theorem requestSum_cons (claim : PersistentVolumeClaim) (rest : List PersistentVolumeClaim) :
    requestSum (claim :: rest) = (claim.request.getD ⟨0⟩).Add (requestSum rest) := by
  simp [requestSum, Quantity.Add]

theorem Quantity.Add_assoc (a b c : Quantity) : (a.Add b).Add c = a.Add (b.Add c) := by
  simp [Quantity.Add, Nat.add_assoc]

theorem Quantity.zero_Add (a : Quantity) : Quantity.Add ⟨0⟩ a = a := by
  simp [Quantity.Add]

theorem totalFrom_eq (cg : claimGroup) (total : Quantity)
    (h : ∀ claim ∈ cg, claim.request.isSome = true) :
    claimGroup.totalFrom total cg = .ok (total.Add (requestSum cg)).Value := by
  induction cg generalizing total with
  | nil => simp [claimGroup.totalFrom, requestSum, Quantity.Add]
  | cons claim rest ih =>
    have h1 := h claim (List.mem_cons_self _ _)
    obtain ⟨q, hq⟩ := Option.isSome_iff_exists.mp h1
    unfold claimGroup.totalFrom
    rw [hq]
    simp only
    rw [ih (total.Add q) (fun c hc => h c (List.mem_cons_of_mem _ hc)), requestSum_cons, hq,
      Quantity.Add_assoc]
    rfl

theorem totalRequiredCapacity_eq (cg : claimGroup)
    (h : ∀ claim ∈ cg, claim.request.isSome = true) :
    cg.totalRequiredCapacity = .ok (requestedBytes cg) := by
  unfold claimGroup.totalRequiredCapacity
  rw [totalFrom_eq cg ⟨0⟩ h, Quantity.zero_Add]
  rfl

theorem requestedBytes_of_lt (claims : List PersistentVolumeClaim)
    (h : summedRequest claims < 2 ^ 63) : requestedBytes claims = (summedRequest claims : Int) :=
  Quantity.Value_of_lt _ h

theorem appendClaim_keys (k : String) (c : PersistentVolumeClaim) (g : claimsByStorageClass) :
    (claimsByStorageClass.appendClaim k c g).map Prod.fst =
      if k ∈ g.map Prod.fst then g.map Prod.fst else g.map Prod.fst ++ [k] := by
  induction g with
  | nil => simp [claimsByStorageClass.appendClaim]
  | cons kv rest ih =>
    obtain ⟨k1, cg⟩ := kv
    unfold claimsByStorageClass.appendClaim
    by_cases h : k1 = k
    · subst h
      simp
    · have h2 : ¬ k = k1 := fun e => h e.symm
      simp only [h, if_false, List.map_cons, ih, List.mem_cons, h2, false_or]
      split_ifs <;> simp

theorem appendClaim_lookup (k : String) (c : PersistentVolumeClaim) (g : claimsByStorageClass)
    (k1 : String) :
    (claimsByStorageClass.appendClaim k c g).lookup k1 =
      if k1 = k then some ((g.lookup k).getD [] ++ [c]) else g.lookup k1 := by
  induction g with
  | nil =>
    by_cases h : k1 = k
    · subst h
      simp [claimsByStorageClass.appendClaim, lookup_cons_eq]
    · simp [claimsByStorageClass.appendClaim, lookup_cons_ne k1 k [c] [] h, h]
  | cons kv rest ih =>
    obtain ⟨k2, cg⟩ := kv
    unfold claimsByStorageClass.appendClaim
    by_cases h2 : k2 = k
    · subst h2
      simp only [if_true]
      by_cases h : k1 = k2
      · subst h
        simp [lookup_cons_eq]
      · simp [lookup_cons_ne k1 k2 _ rest h, h]
    · simp only [h2, if_false]
      have h2b : k ≠ k2 := fun e => h2 e.symm
      by_cases h : k1 = k2
      · subst h
        simp [lookup_cons_eq, h2]
      · rw [lookup_cons_ne k1 k2 _ _ h, ih, lookup_cons_ne k1 k2 _ _ h,
          lookup_cons_ne k k2 _ _ h2b]

theorem claimsOfClass_append (k : String) (pre : List PersistentVolumeClaim)
    (c : PersistentVolumeClaim) :
    claimsOfClass k (pre ++ [c]) =
      claimsOfClass k pre ++ (if c.storageClassName = some k then [c] else []) := by
  unfold claimsOfClass
  rw [List.filter_append]
  by_cases h : c.storageClassName = some k <;> simp [List.filter, h]

theorem Grouped.appendClaim {g : claimsByStorageClass} {pre : List PersistentVolumeClaim}
    (h : Grouped g pre) (c : PersistentVolumeClaim) (className : String)
    (hc : c.storageClassName = some className) :
    Grouped (claimsByStorageClass.appendClaim className c g) (pre ++ [c]) := by
  obtain ⟨hn, hl⟩ := h
  refine ⟨?_, ?_⟩
  · rw [appendClaim_keys]
    split_ifs with hk
    · exact hn
    · exact List.Nodup.append hn (List.nodup_singleton _) (by simpa using hk)
  · intro k
    rw [appendClaim_lookup, claimsOfClass_append, hc]
    by_cases hk : k = className
    · subst hk
      simp only [if_true]
      rw [hl]
      have hne : ¬ (claimsOfClass k pre ++ [c] = []) := by simp
      rw [if_neg hne]
      by_cases h1 : claimsOfClass k pre = []
      · simp [h1]
      · simp [h1]
    · have hk2 : ¬ some className = some k := fun e => hk (Option.some.inj e).symm
      simp only [hk, hk2, if_false, List.append_nil]
      exact hl k

theorem Grouped.nil : Grouped [] [] := by
  refine ⟨List.nodup_nil, ?_⟩
  intro k
  simp [claimsOfClass]

theorem claimsByStorageClassFrom_ok (pl : StorageCapacityPrioritization)
    (rest pre : List PersistentVolumeClaim) (g : claimsByStorageClass) (hg : Grouped g pre)
    (hl : ∀ claim ∈ rest, ∃ className cls,
      claim.storageClassName = some className ∧ pl.classLister className = .ok cls) :
    ∃ groups, pl.claimsByStorageClassFrom g rest = .returns (.ok groups) ∧
      Grouped groups (pre ++ rest) := by
  induction rest generalizing pre g with
  | nil => exact ⟨g, rfl, by simpa using hg⟩
  | cons c rest ih =>
    obtain ⟨className, cls, hname, hcls⟩ := hl c (List.mem_cons_self _ _)
    unfold StorageCapacityPrioritization.claimsByStorageClassFrom
    simp only [hname, hcls]
    have := ih (pre ++ [c]) _ (hg.appendClaim c className hname)
      (fun c1 hc1 => hl c1 (List.mem_cons_of_mem _ hc1))
    simpa using this

theorem claimsByStorageClass_ok (pl : StorageCapacityPrioritization)
    (claims : List PersistentVolumeClaim)
    (hl : ∀ claim ∈ claims, ∃ className cls,
      claim.storageClassName = some className ∧ pl.classLister className = .ok cls) :
    ∃ groups, pl.claimsByStorageClass claims = .returns (.ok groups) ∧ Grouped groups claims := by
  have := claimsByStorageClassFrom_ok pl claims [] [] Grouped.nil hl
  simpa [StorageCapacityPrioritization.claimsByStorageClass] using this

theorem Grouped.of_mem {g : claimsByStorageClass} {claims : List PersistentVolumeClaim}
    (h : Grouped g claims) {k : String} {cg : claimGroup} (hm : (k, cg) ∈ g) :
    cg = claimsOfClass k claims ∧ cg ≠ [] := by
  have h1 := lookup_eq_some_of_mem k cg g h.1 hm
  rw [h.2 k] at h1
  split_ifs at h1 with h2
  simp only [Option.some.injEq] at h1
  exact ⟨h1.symm, h1 ▸ h2⟩

theorem Grouped.mem_of_class {g : claimsByStorageClass} {claims : List PersistentVolumeClaim}
    (h : Grouped g claims) {claim : PersistentVolumeClaim} (hc : claim ∈ claims)
    {className : String} (hname : claim.storageClassName = some className) :
    (className, claimsOfClass className claims) ∈ g := by
  apply mem_of_lookup_eq_some
  rw [h.2]
  have : claimsOfClass className claims ≠ [] := by
    intro e
    have hm : claim ∈ claimsOfClass className claims := by
      simp [claimsOfClass, hc, hname]
    rw [e] at hm
    simp at hm
  simp [this]

/-! ## Iteration order -/

theorem insertAt_perm {α : Type} (x : α) (k : Nat) (l : List α) :
    (insertAt x k l).Perm (x :: l) := by
  induction l generalizing k with
  | nil => cases k <;> simp [insertAt]
  | cons y ys ih =>
    cases k with
    | zero => simp [insertAt]
    | succ k =>
      simp only [insertAt]
      exact ((ih k).cons y).trans (List.Perm.swap x y ys)

theorem rangeOrder_perm {α : Type} (seed : Nat) (l : List α) : (rangeOrder seed l).Perm l := by
  induction l generalizing seed with
  | nil => simp [rangeOrder]
  | cons x xs ih =>
    simp only [rangeOrder]
    exact (insertAt_perm x _ _).trans ((ih _).cons x)

theorem mem_rangeOrder {α : Type} (seed : Nat) (l : List α) (x : α) :
    x ∈ rangeOrder seed l ↔ x ∈ l :=
  (rangeOrder_perm seed l).mem_iff

/-! ## The filter decision -/

theorem enoughCapacityFound_iff (node : Node) (className : String) (sizeInBytes : Int)
    (capacities : List CSIStorageCapacity) :
    StorageCapacityPrioritization.enoughCapacityFound node className sizeInBytes capacities = true ↔
      ∃ record ∈ capacities, record.StorageClassName = className ∧
        capacitySufficient record sizeInBytes = true ∧ nodeHasAccess node record = true := by
  induction capacities with
  | nil => simp [StorageCapacityPrioritization.enoughCapacityFound]
  | cons capacity rest ih =>
    unfold StorageCapacityPrioritization.enoughCapacityFound
    split_ifs with h
    · simp only [true_iff]
      exact ⟨capacity, List.mem_cons_self _ _, h⟩
    · rw [ih]
      constructor
      · rintro ⟨record, hm, hr⟩
        exact ⟨record, List.mem_cons_of_mem _ hm, hr⟩
      · rintro ⟨record, hm, hr⟩
        rcases List.mem_cons.mp hm with hm | hm
        · subst hm
          exact absurd hr h
        · exact ⟨record, hm, hr⟩

theorem hasEnoughCapacitiesFrom_ok (pl : StorageCapacityPrioritization) (node : Node)
    (entries : List (String × claimGroup)) (reasons : List String)
    (h : ∀ entry ∈ entries, ∃ reason, pl.hasEnoughCapacity node entry.1 entry.2 = .ok reason) :
    pl.hasEnoughCapacitiesFrom node reasons entries = .ok (reasons ++ pl.reasonsOf node entries) := by
  induction entries generalizing reasons with
  | nil => simp [StorageCapacityPrioritization.hasEnoughCapacitiesFrom,
      StorageCapacityPrioritization.reasonsOf]
  | cons entry rest ih =>
    obtain ⟨k, cg⟩ := entry
    obtain ⟨reason, hr⟩ := h (k, cg) (List.mem_cons_self _ _)
    have hrest := fun r => ih r (fun e he => h e (List.mem_cons_of_mem _ he))
    unfold StorageCapacityPrioritization.hasEnoughCapacitiesFrom
    simp only at hr
    rw [hr]
    simp only
    by_cases hne : reason = ""
    · simp only [hne, ne_eq, not_true_eq_false, if_false]
      rw [hrest]
      simp [StorageCapacityPrioritization.reasonsOf, hr, hne]
    · simp only [ne_eq, hne, not_false_eq_true, if_true]
      rw [hrest]
      simp [StorageCapacityPrioritization.reasonsOf, hr, hne]

theorem foldl_AppendReason (reasons : List String) (status : Status) :
    reasons.foldl Status.AppendReason status = ⟨status.code, status.reasons ++ reasons⟩ := by
  induction reasons generalizing status with
  | nil => simp
  | cons r rest ih =>
    simp only [List.foldl_cons]
    rw [ih]
    simp [Status.AppendReason]

/-- The outcome of `hasEnoughCapacity` for a class whose lookups succeed, whose
driver tracks capacity and whose claims all carry a request. -/
theorem hasEnoughCapacity_tracked (pl : StorageCapacityPrioritization) (node : Node)
    (className : String) (cg : claimGroup) (cls : StorageClass)
    (capacities : List CSIStorageCapacity)
    (hcls : pl.classLister className = .ok cls)
    (hdrv : pl.csiDriverLister cls.Provisioner = .ok ⟨some true⟩)
    (hcaps : pl.listCapacities = .ok capacities)
    (hreq : ∀ claim ∈ cg, claim.request.isSome = true) :
    pl.hasEnoughCapacity node className cg =
      .ok (if StorageCapacityPrioritization.enoughCapacityFound node className
          (requestedBytes cg) capacities = true then ""
        else StorageCapacityPrioritization.notEnoughReason node.name (requestedBytes cg)) := by
  unfold StorageCapacityPrioritization.hasEnoughCapacity
  rw [hcls]
  simp only
  rw [hdrv]
  simp only [reduceCtorEq, Option.some.injEq, Bool.true_eq_false, or_self, if_false]
  rw [hcaps]
  simp only
  rw [totalRequiredCapacity_eq cg hreq]
  simp only
  split_ifs <;> rfl

theorem Grouped.entry {g : claimsByStorageClass} {claims : List PersistentVolumeClaim}
    (h : Grouped g claims) {k : String} {cg : claimGroup} (hm : (k, cg) ∈ g) :
    cg = claimsOfClass k claims ∧ (∀ c ∈ cg, c ∈ claims) ∧
      ∃ claim ∈ claims, claim.storageClassName = some k := by
  obtain ⟨h1, h2⟩ := h.of_mem hm
  refine ⟨h1, ?_, ?_⟩
  · intro c hc
    rw [h1] at hc
    exact (List.mem_filter.mp hc).1
  · obtain ⟨c, rest, hcg⟩ := List.exists_cons_of_ne_nil h2
    have hc : c ∈ claimsOfClass k claims := by
      rw [← h1, hcg]
      exact List.mem_cons_self _ _
    have := List.mem_filter.mp hc
    exact ⟨c, this.1, by simpa using this.2⟩

theorem sorted_names_ext (l1 l2 : List String)
    (h1 : l1.Pairwise (fun a b => a.toList < b.toList))
    (h2 : l2.Pairwise (fun a b => a.toList < b.toList))
    (h : ∀ x, x ∈ l1 ↔ x ∈ l2) : l1 = l2 := by
  have hirr : ∀ a : String, ¬ a.toList < a.toList := fun a => lt_irrefl _
  have hne : ∀ a b : String, a.toList < b.toList → a ≠ b := by
    intro a b hab e
    rw [e] at hab
    exact hirr b hab
  have hn1 : l1.Nodup := by
    unfold List.Nodup
    exact h1.imp (fun {a b} hab => hne a b hab)
  have hn2 : l2.Nodup := by
    unfold List.Nodup
    exact h2.imp (fun {a b} hab => hne a b hab)
  have hperm : l1.Perm l2 := (List.perm_ext_iff_of_nodup hn1 hn2).mpr h
  have hanti : IsAntisymm String (fun a b => a.toList < b.toList) :=
    ⟨fun a b hab hba => absurd hab (lt_asymm hba)⟩
  exact List.eq_of_perm_of_sorted hperm h1 h2

theorem StringSet.ext_mem (s t : StringSet) (h : ∀ x, x ∈ s.elems ↔ x ∈ t.elems) : s = t := by
  obtain ⟨l1, h1⟩ := s
  obtain ⟨l2, h2⟩ := t
  have := sorted_names_ext l1 l2 h1 h2 h
  subst this
  rfl

theorem foldl_Insert_mem (entries : List (String × claimGroup)) (s : StringSet) (name : String) :
    name ∈ (entries.foldl (fun s kv => s.Insert kv.1) s).elems ↔
      name ∈ s.elems ∨ name ∈ entries.map Prod.fst := by
  induction entries generalizing s with
  | nil => simp
  | cons kv rest ih =>
    simp only [List.foldl_cons, List.map_cons, List.mem_cons]
    rw [ih]
    simp only [StringSet.Insert, insertName_mem]
    tauto

/-- The insertions of a pass do not depend on the order in which the map of
groups is visited. -/
theorem foldl_Insert_perm (entries entries2 : List (String × claimGroup)) (s : StringSet)
    (h : entries2.Perm entries) :
    entries2.foldl (fun s kv => s.Insert kv.1) s = entries.foldl (fun s kv => s.Insert kv.1) s := by
  apply StringSet.ext_mem
  intro x
  rw [foldl_Insert_mem, foldl_Insert_mem, (h.map Prod.fst).mem_iff]

theorem Access_foldl_Insert (entries : List (String × claimGroup)) (a : Access) :
    entries.foldl (fun a kv => a.Insert kv.1) a =
      ⟨⟨entries.foldl (fun s kv => s.Insert kv.1) a.data.storageClassNames, a.data.scores⟩,
        a.held, a.ops ++ entries.map (fun kv => StateOp.insert kv.1 a.held)⟩ := by
  induction entries generalizing a with
  | nil => simp
  | cons kv rest ih =>
    simp only [List.foldl_cons, List.map_cons]
    rw [ih]
    simp [Access.Insert]

/-- The method `Filter`, its operations on the state data left out; the set of
names after a pass does not depend on the order in which they are inserted. -/
theorem Filter_def (pl : StorageCapacityPrioritization) (seed : Nat) (cs : CycleState)
    (nodeInfo : Option Node) :
    pl.Filter seed cs nodeInfo =
      match nodeInfo with
      | none => (.returns (some (NewStatus Code.Error ["node not found"])), cs)
      | some node =>
        match volumebindingGetStateData cs with
        | .error err =>
          (.returns (some (AsStatus ("failed to get VolumeBinding state data: " ++ err))), cs)
        | .ok vbstate =>
          match vbstate.GetPodVolumesByNodeName node.name with
          | none => (.returns none, cs)
          | some podVolume =>
            match pl.claimsByStorageClass podVolume.DynamicProvisions with
            | .panics msg => (.panics msg, cs)
            | .returns (.error err) => (.returns (some (AsStatus err)), cs)
            | .returns (.ok claims) =>
              match pl.hasEnoughCapacities seed claims node with
              | .error err => (.returns (some (AsStatus err)), cs)
              | .ok reasons =>
                if reasons.length > 0 then
                  (.returns (some (reasons.foldl Status.AppendReason
                    (NewStatus Code.UnschedulableAndUnresolvable []))), cs)
                else
                  match getStateData cs with
                  | .error err => (.returns (some (AsStatus err)), cs)
                  | .ok state =>
                    (.returns none, { cs with plugin := .data { state with
                      storageClassNames :=
                        claims.foldl (fun s kv => s.Insert kv.1) state.storageClassNames } }) := by
  unfold StorageCapacityPrioritization.Filter StorageCapacityPrioritization.FilterCall
  cases nodeInfo with
  | none => rfl
  | some node =>
    simp only
    cases volumebindingGetStateData cs with
    | error err => rfl
    | ok vbstate =>
      simp only
      cases vbstate.GetPodVolumesByNodeName node.name with
      | none => rfl
      | some podVolume =>
        simp only
        cases pl.claimsByStorageClass podVolume.DynamicProvisions with
        | panics msg => rfl
        | returns grouped =>
          cases grouped with
          | error err => rfl
          | ok claims =>
            simp only
            cases pl.hasEnoughCapacities seed claims node with
            | error err => rfl
            | ok reasons =>
              simp only
              split_ifs
              · rfl
              · cases getStateData cs with
                | error err => rfl
                | ok state =>
                  simp only [Access.Unlock, Access.Lock, Access.start, Access_foldl_Insert]
                  rw [foldl_Insert_perm _ _ _ (rangeOrder_perm _ claims)]

/-- The method `PreScore`, its operations on the state data left out; the map
of groups it goes on with is `groupsOrNil`. -/
theorem PreScore_def (pl : StorageCapacityPrioritization) (indefinite : Int) (cs : CycleState)
    (nodes : List Node) :
    pl.PreScore indefinite cs nodes =
      match volumebindingGetStateData cs with
      | .error err =>
        .returns (some (AsStatus ("failed to get VolumeBinding state data: " ++ err)), cs)
      | .ok vbstate =>
        if vbstate.GetClaimsToBind.length = 0 then .returns (none, cs)
        else
          match pl.claimsByStorageClass vbstate.GetClaimsToBind with
          | .panics msg => .panics msg
          | .returns _ =>
            match getStateData cs with
            | .error err => .returns (some (AsStatus ("failed to get state data: " ++ err)), cs)
            | .ok state =>
              match pl.listCapacities with
              | .error err => .returns (some (AsStatus err), cs)
              | .ok capacities =>
                match calculateScore indefinite nodes state.storageClassNames.List capacities
                    (pl.groupsOrNil vbstate.GetClaimsToBind) with
                | .panics msg => .panics msg
                | .returns (.error err) =>
                  .returns (some (AsStatus ("failed to calcurate scores: " ++ err)), cs)
                | .returns (.ok scores) =>
                  .returns (none, { cs with plugin := .data { state with scores := some scores } }) := by
  unfold StorageCapacityPrioritization.PreScore StorageCapacityPrioritization.PreScoreCall
  cases volumebindingGetStateData cs with
  | error err => rfl
  | ok vbstate =>
    simp only
    split_ifs
    · rfl
    · cases hg : pl.claimsByStorageClass vbstate.GetClaimsToBind with
      | panics msg => rfl
      | returns grouped =>
        have hgo : pl.groupsOrNil vbstate.GetClaimsToBind =
            Except.casesOn grouped (fun _ => []) (fun groups => groups) := by
          unfold StorageCapacityPrioritization.groupsOrNil
          rw [hg]
          cases grouped <;> rfl
        rw [hgo]
        simp only
        cases getStateData cs with
        | error err => rfl
        | ok state =>
          simp only
          cases pl.listCapacities with
          | error err => rfl
          | ok capacities =>
            simp only [Access.ListNames, Access.start]
            cases grouped with
            | error e =>
              simp only
              cases calculateScore indefinite nodes state.storageClassNames.List capacities
                  [] with
              | panics msg => rfl
              | returns r =>
                cases r with
                | error err => rfl
                | ok scores => rfl
            | ok groups =>
              simp only
              cases calculateScore indefinite nodes state.storageClassNames.List capacities
                  groups with
              | panics msg => rfl
              | returns r =>
                cases r with
                | error err => rfl
                | ok scores => rfl

theorem notEnoughReason_toList (nodeName : String) (sizeInBytes : Int) :
    (StorageCapacityPrioritization.notEnoughReason nodeName sizeInBytes).toList =
      "there is nothing enough capacities of csi storage capacity objects. node=".toList ++
        ((goQuote nodeName).toList ++
          (" sizeInBytes=".toList ++ (goDecimal sizeInBytes).toList)) := by
  unfold StorageCapacityPrioritization.notEnoughReason
  simp [String.toList, String.data_append, List.append_assoc]

theorem notEnoughReason_ne_empty (nodeName : String) (sizeInBytes : Int) :
    StorageCapacityPrioritization.notEnoughReason nodeName sizeInBytes ≠ "" := by
  intro h
  have := congrArg String.toList h
  rw [notEnoughReason_toList] at this
  simp [String.toList] at this

theorem mapSet_lookup_eq {β : Type} (k : String) (v : β) (m : List (String × β)) :
    (mapSet k v m).lookup k = some v := by
  induction m with
  | nil => simp [mapSet, lookup_cons_eq]
  | cons kv rest ih =>
    obtain ⟨k1, v1⟩ := kv
    unfold mapSet
    by_cases h : k1 = k
    · subst h
      simp [lookup_cons_eq]
    · have h2 : k ≠ k1 := fun e => h e.symm
      simp only [h, if_false]
      rw [lookup_cons_ne k k1 v1 _ h2]
      exact ih

theorem mapSet_lookup_ne {β : Type} (k k1 : String) (v : β) (m : List (String × β))
    (h : k1 ≠ k) : (mapSet k v m).lookup k1 = m.lookup k1 := by
  induction m with
  | nil => simp [mapSet, lookup_cons_ne k1 k v [] h]
  | cons kv rest ih =>
    obtain ⟨k2, v2⟩ := kv
    unfold mapSet
    by_cases h2 : k2 = k
    · subst h2
      simp only [if_true]
      rw [lookup_cons_ne k1 k2 v _ h, lookup_cons_ne k1 k2 v2 _ h]
    · simp only [h2, if_false]
      by_cases h3 : k1 = k2
      · subst h3
        simp [lookup_cons_eq]
      · rw [lookup_cons_ne k1 k2 v2 _ h3, lookup_cons_ne k1 k2 v2 _ h3]
        exact ih

theorem mapSet_keys {β : Type} (k : String) (v : β) (m : List (String × β)) :
    (mapSet k v m).map Prod.fst =
      if k ∈ m.map Prod.fst then m.map Prod.fst else m.map Prod.fst ++ [k] := by
  induction m with
  | nil => simp [mapSet]
  | cons kv rest ih =>
    obtain ⟨k1, v1⟩ := kv
    unfold mapSet
    by_cases h : k1 = k
    · subst h
      simp
    · have h2 : ¬ k = k1 := fun e => h e.symm
      simp only [h, if_false, List.map_cons, ih, List.mem_cons, h2, false_or]
      split_ifs <;> simp

theorem mem_mapSet_keys {β : Type} (k k1 : String) (v : β) (m : List (String × β)) :
    k1 ∈ (mapSet k v m).map Prod.fst ↔ k1 = k ∨ k1 ∈ m.map Prod.fst := by
  rw [mapSet_keys]
  split_ifs with h
  · constructor
    · exact Or.inr
    · rintro (h1 | h1)
      · subst h1; exact h
      · exact h1
  · simp only [List.mem_append, List.mem_singleton]
    tauto

theorem mapSet_keys_nodup {β : Type} (k : String) (v : β) (m : List (String × β))
    (h : (m.map Prod.fst).Nodup) : ((mapSet k v m).map Prod.fst).Nodup := by
  rw [mapSet_keys]
  split_ifs with hk
  · exact h
  · exact List.Nodup.append h (List.nodup_singleton _) (by simpa using hk)

theorem mapSet_of_not_mem {β : Type} (k : String) (v : β) (m : List (String × β))
    (h : k ∉ m.map Prod.fst) : mapSet k v m = m ++ [(k, v)] := by
  induction m with
  | nil => rfl
  | cons kv rest ih =>
    obtain ⟨k1, v1⟩ := kv
    simp only [List.map_cons, List.mem_cons, not_or] at h
    unfold mapSet
    have h1 : ¬ k1 = k := fun e => h.1 e.symm
    simp only [h1, if_false, List.cons_append]
    rw [ih h.2]

theorem mem_mapSet {β : Type} (k : String) (v : β) (m : List (String × β)) (kv : String × β)
    (h : kv ∈ mapSet k v m) : kv = (k, v) ∨ kv ∈ m := by
  induction m with
  | nil =>
    simp only [mapSet, List.mem_singleton] at h
    exact Or.inl h
  | cons kv1 rest ih =>
    obtain ⟨k1, v1⟩ := kv1
    unfold mapSet at h
    split_ifs at h with h1
    · rcases List.mem_cons.mp h with h2 | h2
      · subst h1
        exact Or.inl h2
      · exact Or.inr (List.mem_cons_of_mem _ h2)
    · rcases List.mem_cons.mp h with h2 | h2
      · exact Or.inr (h2 ▸ List.mem_cons_self _ _)
      · rcases ih h2 with h3 | h3
        · exact Or.inl h3
        · exact Or.inr (List.mem_cons_of_mem _ h3)

theorem mapSet_ne_nil {β : Type} (k : String) (v : β) (m : List (String × β)) :
    mapSet k v m ≠ [] := by
  cases m with
  | nil => simp [mapSet]
  | cons kv rest =>
    obtain ⟨k1, v1⟩ := kv
    unfold mapSet
    split_ifs <;> simp

/-! ## The capacity used for a score -/

theorem hasMatch_cons (node : Node) (className : String) (record : CSIStorageCapacity)
    (rest : List CSIStorageCapacity) :
    hasMatch node className (record :: rest) =
      (matchesRecord node className record || hasMatch node className rest) := by
  simp [hasMatch]

theorem hasMatch_eq_false_iff (node : Node) (className : String)
    (capacities : List CSIStorageCapacity) :
    hasMatch node className capacities = false ↔
      capacities.filter (matchesRecord node className) = [] := by
  unfold hasMatch
  rw [List.filter_eq_nil_iff, ← Bool.not_eq_true, List.any_eq_true]
  constructor
  · intro h a ha hm
    exact h ⟨a, ha, hm⟩
  · rintro h ⟨a, ha, hm⟩
    exact h a ha hm

theorem lastCapacity_cons_match (node : Node) (className : String) (record : CSIStorageCapacity)
    (rest : List CSIStorageCapacity) (h : matchesRecord node className record = true) :
    lastCapacity node className (record :: rest) =
      if hasMatch node className rest = true then lastCapacity node className rest
      else record.Capacity.getD 0 := by
  unfold lastCapacity
  rw [List.filter_cons, if_pos h, List.getLast?_cons]
  split_ifs with hm
  · cases hl : (rest.filter (matchesRecord node className)).getLast? with
    | none =>
      rw [List.getLast?_eq_none_iff, ← hasMatch_eq_false_iff] at hl
      rw [hl] at hm
      exact absurd hm (by simp)
    | some r => simp
  · rw [Bool.not_eq_true, hasMatch_eq_false_iff] at hm
    rw [hm]
    simp

theorem lastCapacity_cons_no_match (node : Node) (className : String)
    (record : CSIStorageCapacity) (rest : List CSIStorageCapacity)
    (h : ¬ matchesRecord node className record = true) :
    lastCapacity node className (record :: rest) = lastCapacity node className rest := by
  unfold lastCapacity
  rw [List.filter_cons, if_neg h]

theorem findCapacity_returns (node : Node) (className : String)
    (capacities : List CSIStorageCapacity) (st out : Bool × Nat)
    (h : findCapacity node className capacities st = .returns out) :
    out.1 = (st.1 || hasMatch node className capacities) ∧
      out.2 = if hasMatch node className capacities = true
        then lastCapacity node className capacities else st.2 := by
  induction capacities generalizing st with
  | nil =>
    simp only [findCapacity, Run.returns.injEq] at h
    subst h
    simp [hasMatch]
  | cons record rest ih =>
    unfold findCapacity at h
    by_cases hm : matchesRecord node className record = true
    · have hm2 : record.StorageClassName = className ∧ nodeHasAccess node record = true := by
        simpa [matchesRecord] using hm
      rw [if_pos hm2] at h
      cases hc : record.Capacity with
      | none =>
        rw [hc] at h
        simp at h
      | some v =>
        rw [hc] at h
        simp only at h
        obtain ⟨h1, h2⟩ := ih (true, v) h
        rw [hasMatch_cons, hm]
        simp only [Bool.true_or, Bool.or_true, if_true]
        refine ⟨by simpa using h1, ?_⟩
        rw [lastCapacity_cons_match node className record rest hm, h2, hc]
        simp
    · have hm2 : ¬ (record.StorageClassName = className ∧ nodeHasAccess node record = true) := by
        simpa [matchesRecord] using hm
      rw [if_neg hm2] at h
      obtain ⟨h1, h2⟩ := ih st h
      rw [hasMatch_cons, lastCapacity_cons_no_match node className record rest hm]
      rw [Bool.not_eq_true] at hm
      rw [hm]
      simpa using ⟨h1, h2⟩

theorem totalFrom_ok (cg : claimGroup) (total : Quantity) (n : Int)
    (h : claimGroup.totalFrom total cg = .ok n) : n = (total.Add (requestSum cg)).Value := by
  induction cg generalizing total with
  | nil =>
    simp only [claimGroup.totalFrom, Except.ok.injEq] at h
    rw [← h]
    simp [requestSum, Quantity.Add]
  | cons claim rest ih =>
    unfold claimGroup.totalFrom at h
    cases hq : claim.request with
    | none =>
      rw [hq] at h
      simp at h
    | some q =>
      rw [hq] at h
      simp only at h
      rw [ih (total.Add q) h, requestSum_cons, hq, Quantity.Add_assoc]
      rfl

theorem totalRequiredCapacity_ok (cg : claimGroup) (n : Int)
    (h : cg.totalRequiredCapacity = .ok n) : n = requestedBytes cg := by
  have := totalFrom_ok cg ⟨0⟩ n h
  rw [Quantity.zero_Add] at this
  exact this

/-! ## The usage map -/

theorem record_lookup_eq (m : UsageMap) (nodeName className : String) (score : Int) :
    (m.record nodeName className score).lookup nodeName =
      some (mapSet className score ((m.lookup nodeName).getD [])) := by
  unfold UsageMap.record
  exact mapSet_lookup_eq _ _ _

theorem record_lookup_ne (m : UsageMap) (nodeName className : String) (score : Int)
    (nm : String) (h : nm ≠ nodeName) :
    (m.record nodeName className score).lookup nm = m.lookup nm := by
  unfold UsageMap.record
  exact mapSet_lookup_ne _ _ _ _ h

/-- What one step of the loop over the nodes does, read off a successful run. -/
theorem scoreNodes_cons (indefinite : Int) (className : String)
    (capacities : List CSIStorageCapacity) (claims : claimsByStorageClass) (node : Node)
    (rest : List Node) (m m1 : UsageMap)
    (h : scoreNodes indefinite className capacities claims (node :: rest) m = .returns (.ok m1)) :
    (hasMatch node className capacities = false ∧
      scoreNodes indefinite className capacities claims rest m = .returns (.ok m1)) ∨
    (hasMatch node className capacities = true ∧
      ∃ cg, claims.get className = some cg ∧
        cg.totalRequiredCapacity = .ok (requestedBytes cg) ∧
        scoreNodes indefinite className capacities claims rest
          (m.record node.name className (classScore indefinite capacities claims node className))
          = .returns (.ok m1)) := by
  unfold scoreNodes at h
  cases hf : findCapacity node className capacities (false, 0) with
  | panics msg =>
    rw [hf] at h
    simp at h
  | returns out =>
    obtain ⟨found, capacity⟩ := out
    obtain ⟨h1, h2⟩ := findCapacity_returns node className capacities (false, 0) _ hf
    simp only [Bool.false_or] at h1 h2
    rw [hf] at h
    simp only at h
    by_cases hfound : found = false
    · rw [if_pos hfound] at h
      exact Or.inl ⟨by rw [← h1]; exact hfound, h⟩
    · rw [if_neg hfound] at h
      have hm : hasMatch node className capacities = true := by
        rw [← h1]
        simpa using hfound
      rw [if_pos hm] at h2
      refine Or.inr ⟨hm, ?_⟩
      cases hg : claims.get className with
      | none =>
        rw [hg] at h
        simp at h
      | some cg =>
        rw [hg] at h
        simp only at h
        cases ht : cg.totalRequiredCapacity with
        | error err =>
          rw [ht] at h
          simp at h
        | ok request =>
          rw [ht] at h
          simp only at h
          have hr := totalRequiredCapacity_ok cg request ht
          refine ⟨cg, rfl, by rw [ht, hr], ?_⟩
          have hs : classScore indefinite capacities claims node className =
              usageScore indefinite request capacity := by
            unfold classScore
            rw [hg, hr, h2]
            rfl
          rw [hs]
          exact h

theorem scoreNodes_keys (indefinite : Int) (className : String)
    (capacities : List CSIStorageCapacity) (claims : claimsByStorageClass) (ns : List Node)
    (m m1 : UsageMap)
    (h : scoreNodes indefinite className capacities claims ns m = .returns (.ok m1)) (nm : String) :
    nm ∈ m1.map Prod.fst ↔ nm ∈ m.map Prod.fst ∨
      ∃ node ∈ ns, node.name = nm ∧ hasMatch node className capacities = true := by
  induction ns generalizing m with
  | nil =>
    simp only [scoreNodes, Run.returns.injEq, Except.ok.injEq] at h
    subst h
    simp
  | cons node rest ih =>
    rcases scoreNodes_cons indefinite className capacities claims node rest m m1 h with
      ⟨hno, hrest⟩ | ⟨hyes, cg, -, -, hrest⟩
    · rw [ih m hrest]
      constructor
      · rintro (h1 | ⟨n, hn, h2⟩)
        · exact Or.inl h1
        · exact Or.inr ⟨n, List.mem_cons_of_mem _ hn, h2⟩
      · rintro (h1 | ⟨n, hn, h2, h3⟩)
        · exact Or.inl h1
        · rcases List.mem_cons.mp hn with hn | hn
          · subst hn
            rw [hno] at h3
            exact absurd h3 (by simp)
          · exact Or.inr ⟨n, hn, h2, h3⟩
    · rw [ih _ hrest]
      unfold UsageMap.record
      rw [mem_mapSet_keys]
      constructor
      · rintro ((h1 | h1) | ⟨n, hn, h2⟩)
        · exact Or.inr ⟨node, List.mem_cons_self _ _, h1.symm, hyes⟩
        · exact Or.inl h1
        · exact Or.inr ⟨n, List.mem_cons_of_mem _ hn, h2⟩
      · rintro (h1 | ⟨n, hn, h2, h3⟩)
        · exact Or.inl (Or.inr h1)
        · rcases List.mem_cons.mp hn with hn | hn
          · subst hn
            exact Or.inl (Or.inl h2.symm)
          · exact Or.inr ⟨n, hn, h2, h3⟩

theorem scoreNodes_keys_nodup (indefinite : Int) (className : String)
    (capacities : List CSIStorageCapacity) (claims : claimsByStorageClass) (ns : List Node)
    (m m1 : UsageMap)
    (h : scoreNodes indefinite className capacities claims ns m = .returns (.ok m1))
    (hm : (m.map Prod.fst).Nodup) : (m1.map Prod.fst).Nodup := by
  induction ns generalizing m with
  | nil =>
    simp only [scoreNodes, Run.returns.injEq, Except.ok.injEq] at h
    subst h
    exact hm
  | cons node rest ih =>
    rcases scoreNodes_cons indefinite className capacities claims node rest m m1 h with
      ⟨-, hrest⟩ | ⟨-, cg, -, -, hrest⟩
    · exact ih m hrest hm
    · exact ih _ hrest (mapSet_keys_nodup _ _ _ hm)

theorem scoreNodes_nonempty (indefinite : Int) (className : String)
    (capacities : List CSIStorageCapacity) (claims : claimsByStorageClass) (ns : List Node)
    (m m1 : UsageMap)
    (h : scoreNodes indefinite className capacities claims ns m = .returns (.ok m1))
    (hm : ∀ kv ∈ m, kv.2 ≠ []) : ∀ kv ∈ m1, kv.2 ≠ [] := by
  induction ns generalizing m with
  | nil =>
    simp only [scoreNodes, Run.returns.injEq, Except.ok.injEq] at h
    subst h
    exact hm
  | cons node rest ih =>
    rcases scoreNodes_cons indefinite className capacities claims node rest m m1 h with
      ⟨-, hrest⟩ | ⟨-, cg, -, -, hrest⟩
    · exact ih m hrest hm
    · refine ih _ hrest ?_
      intro kv hkv
      unfold UsageMap.record at hkv
      rcases mem_mapSet _ _ _ _ hkv with h1 | h1
      · rw [h1]
        exact mapSet_ne_nil _ _ _
      · exact hm kv h1

theorem scoreNodes_values (indefinite : Int) (className : String)
    (capacities : List CSIStorageCapacity) (claims : claimsByStorageClass) (ns : List Node)
    (m m1 : UsageMap) (hn : (ns.map Node.name).Nodup)
    (h : scoreNodes indefinite className capacities claims ns m = .returns (.ok m1)) :
    (∀ node ∈ ns, hasMatch node className capacities = true →
      m1.lookup node.name = some (mapSet className
        (classScore indefinite capacities claims node className)
        ((m.lookup node.name).getD []))) ∧
    (∀ nm, (∀ node ∈ ns, node.name = nm → hasMatch node className capacities = false) →
      m1.lookup nm = m.lookup nm) := by
  induction ns generalizing m with
  | nil =>
    simp only [scoreNodes, Run.returns.injEq, Except.ok.injEq] at h
    subst h
    simp
  | cons node rest ih =>
    simp only [List.map_cons, List.nodup_cons] at hn
    rcases scoreNodes_cons indefinite className capacities claims node rest m m1 h with
      ⟨hno, hrest⟩ | ⟨hyes, cg, -, -, hrest⟩
    · obtain ⟨ha, hb⟩ := ih m hn.2 hrest
      refine ⟨?_, ?_⟩
      · intro n hmem hmatch
        rcases List.mem_cons.mp hmem with h1 | h1
        · subst h1
          rw [hno] at hmatch
          exact absurd hmatch (by simp)
        · exact ha n h1 hmatch
      · intro nm hnm
        exact hb nm (fun n hmem => hnm n (List.mem_cons_of_mem _ hmem))
    · obtain ⟨ha, hb⟩ := ih _ hn.2 hrest
      refine ⟨?_, ?_⟩
      · intro n hmem hmatch
        rcases List.mem_cons.mp hmem with h1 | h1
        · subst h1
          rw [hb n.name ?_, record_lookup_eq]
          intro n2 hn2 hname
          exact absurd (hname ▸ List.mem_map_of_mem Node.name hn2) hn.1
        · have hne : n.name ≠ node.name := by
            intro e
            exact hn.1 (e ▸ List.mem_map_of_mem Node.name h1)
          rw [ha n h1 hmatch, record_lookup_ne _ _ _ _ _ hne]
      · intro nm hnm
        have hne : nm ≠ node.name := by
          intro e
          have := hnm node (List.mem_cons_self _ _) e.symm
          rw [hyes] at this
          exact absurd this (by simp)
        rw [hb nm (fun n hmem => hnm n (List.mem_cons_of_mem _ hmem)),
          record_lookup_ne _ _ _ _ _ hne]

/-- What one step of the loop over the classes does, read off a successful
run. -/
theorem scoreClasses_cons (indefinite : Int) (nodes : List Node)
    (capacities : List CSIStorageCapacity) (claims : claimsByStorageClass) (className : String)
    (rest : List String) (m m2 : UsageMap)
    (h : scoreClasses indefinite nodes capacities claims (className :: rest) m =
      .returns (.ok m2)) :
    ∃ m1, scoreNodes indefinite className capacities claims nodes m = .returns (.ok m1) ∧
      scoreClasses indefinite nodes capacities claims rest m1 = .returns (.ok m2) := by
  unfold scoreClasses at h
  cases hs : scoreNodes indefinite className capacities claims nodes m with
  | panics msg =>
    rw [hs] at h
    simp at h
  | returns r =>
    cases r with
    | error err =>
      rw [hs] at h
      simp at h
    | ok m1 =>
      rw [hs] at h
      exact ⟨m1, rfl, h⟩

theorem usageEntries_append (indefinite : Int) (capacities : List CSIStorageCapacity)
    (claims : claimsByStorageClass) (node : Node) (visited : List String) (className : String) :
    usageEntries indefinite capacities claims node (visited ++ [className]) =
      usageEntries indefinite capacities claims node visited ++
        (if hasMatch node className capacities = true
          then [(className, classScore indefinite capacities claims node className)] else []) := by
  unfold usageEntries scoredClasses
  rw [List.filter_append, List.map_append]
  by_cases h : hasMatch node className capacities = true <;> simp [List.filter, h]

theorem usageEntries_keys (indefinite : Int) (capacities : List CSIStorageCapacity)
    (claims : claimsByStorageClass) (node : Node) (visited : List String) :
    (usageEntries indefinite capacities claims node visited).map Prod.fst =
      scoredClasses node visited capacities := by
  unfold usageEntries
  rw [List.map_map]
  exact List.map_id _

theorem usageEntries_values (indefinite : Int) (capacities : List CSIStorageCapacity)
    (claims : claimsByStorageClass) (node : Node) (visited : List String) :
    (usageEntries indefinite capacities claims node visited).map Prod.snd =
      (scoredClasses node visited capacities).map
        (classScore indefinite capacities claims node) := by
  unfold usageEntries
  generalize scoredClasses node visited capacities = l
  induction l with
  | nil => rfl
  | cons a l ih =>
    rw [List.map_cons, List.map_cons, List.map_cons, ih]

theorem eq_of_name_eq (nodes : List Node) (hn : (nodes.map Node.name).Nodup) (a b : Node)
    (ha : a ∈ nodes) (hb : b ∈ nodes) (h : a.name = b.name) : a = b :=
  List.inj_on_of_nodup_map hn ha hb h

theorem UsageInv.step (indefinite : Int) (nodes : List Node)
    (capacities : List CSIStorageCapacity) (claims : claimsByStorageClass) (m m1 : UsageMap)
    (visited : List String) (className : String) (hn : (nodes.map Node.name).Nodup)
    (hc : className ∉ visited)
    (h : scoreNodes indefinite className capacities claims nodes m = .returns (.ok m1))
    (hinv : UsageInv indefinite nodes capacities claims m visited) :
    UsageInv indefinite nodes capacities claims m1 (visited ++ [className]) := by
  obtain ⟨ha, hb⟩ := scoreNodes_values indefinite className capacities claims nodes m m1 hn h
  refine ⟨?_, ?_⟩
  · intro node hnode
    rw [usageEntries_append]
    have hget : (m.lookup node.name).getD [] =
        usageEntries indefinite capacities claims node visited := by
      rw [hinv.1 node hnode]
      split_ifs with he
      · simp [he]
      · simp
    by_cases hm : hasMatch node className capacities = true
    · rw [ha node hnode hm, hget, if_pos hm]
      have hnot : className ∉
          (usageEntries indefinite capacities claims node visited).map Prod.fst := by
        rw [usageEntries_keys]
        intro hmem
        exact hc (List.mem_filter.mp hmem).1
      rw [mapSet_of_not_mem _ _ _ hnot]
      simp
    · rw [if_neg hm, List.append_nil]
      rw [hb node.name ?_]
      · exact hinv.1 node hnode
      · intro n2 hn2 hname
        have := eq_of_name_eq nodes hn n2 node hn2 hnode hname
        subst this
        simpa using hm
  · intro nm hnm
    rw [hb nm ?_]
    · exact hinv.2 nm hnm
    · intro n2 hn2 hname
      exact absurd (hname ▸ List.mem_map_of_mem Node.name hn2) hnm

theorem scoreClasses_values (indefinite : Int) (nodes : List Node)
    (capacities : List CSIStorageCapacity) (claims : claimsByStorageClass) (rest : List String)
    (visited : List String) (m m2 : UsageMap) (hn : (nodes.map Node.name).Nodup)
    (hs : (visited ++ rest).Nodup)
    (h : scoreClasses indefinite nodes capacities claims rest m = .returns (.ok m2))
    (hinv : UsageInv indefinite nodes capacities claims m visited) :
    UsageInv indefinite nodes capacities claims m2 (visited ++ rest) := by
  induction rest generalizing visited m with
  | nil =>
    simp only [scoreClasses, Run.returns.injEq, Except.ok.injEq] at h
    subst h
    simpa using hinv
  | cons className rest ih =>
    obtain ⟨m1, h1, h2⟩ := scoreClasses_cons indefinite nodes capacities claims className rest m m2 h
    have hs2 : (visited ++ [className] ++ rest).Nodup := by simpa using hs
    have hc : className ∉ visited := by
      intro hmem
      have := List.nodup_append.mp hs
      exact this.2.2 hmem (List.mem_cons_self _ _)
    have := ih (visited ++ [className]) m1 hs2 h2
      (UsageInv.step indefinite nodes capacities claims m m1 visited className hn hc h1 hinv)
    simpa using this

theorem scoreClasses_keys (indefinite : Int) (nodes : List Node)
    (capacities : List CSIStorageCapacity) (claims : claimsByStorageClass) (classes : List String)
    (m m2 : UsageMap)
    (h : scoreClasses indefinite nodes capacities claims classes m = .returns (.ok m2))
    (nm : String) :
    nm ∈ m2.map Prod.fst ↔ nm ∈ m.map Prod.fst ∨
      ∃ node ∈ nodes, node.name = nm ∧
        ∃ className ∈ classes, hasMatch node className capacities = true := by
  induction classes generalizing m with
  | nil =>
    simp only [scoreClasses, Run.returns.injEq, Except.ok.injEq] at h
    subst h
    simp
  | cons className rest ih =>
    obtain ⟨m1, h1, h2⟩ := scoreClasses_cons indefinite nodes capacities claims className rest m m2 h
    rw [ih m1 h2, scoreNodes_keys indefinite className capacities claims nodes m m1 h1]
    constructor
    · rintro ((h3 | ⟨n, hn, h4, h5⟩) | ⟨n, hn, h4, c, hc, h5⟩)
      · exact Or.inl h3
      · exact Or.inr ⟨n, hn, h4, className, List.mem_cons_self _ _, h5⟩
      · exact Or.inr ⟨n, hn, h4, c, List.mem_cons_of_mem _ hc, h5⟩
    · rintro (h3 | ⟨n, hn, h4, c, hc, h5⟩)
      · exact Or.inl (Or.inl h3)
      · rcases List.mem_cons.mp hc with hc | hc
        · subst hc
          exact Or.inl (Or.inr ⟨n, hn, h4, h5⟩)
        · exact Or.inr ⟨n, hn, h4, c, hc, h5⟩

theorem scoreClasses_keys_nodup (indefinite : Int) (nodes : List Node)
    (capacities : List CSIStorageCapacity) (claims : claimsByStorageClass) (classes : List String)
    (m m2 : UsageMap)
    (h : scoreClasses indefinite nodes capacities claims classes m = .returns (.ok m2))
    (hm : (m.map Prod.fst).Nodup) : (m2.map Prod.fst).Nodup := by
  induction classes generalizing m with
  | nil =>
    simp only [scoreClasses, Run.returns.injEq, Except.ok.injEq] at h
    subst h
    exact hm
  | cons className rest ih =>
    obtain ⟨m1, h1, h2⟩ := scoreClasses_cons indefinite nodes capacities claims className rest m m2 h
    exact ih m1 h2 (scoreNodes_keys_nodup indefinite className capacities claims nodes m m1 h1 hm)

theorem scoreClasses_nonempty (indefinite : Int) (nodes : List Node)
    (capacities : List CSIStorageCapacity) (claims : claimsByStorageClass) (classes : List String)
    (m m2 : UsageMap)
    (h : scoreClasses indefinite nodes capacities claims classes m = .returns (.ok m2))
    (hm : ∀ kv ∈ m, kv.2 ≠ []) : ∀ kv ∈ m2, kv.2 ≠ [] := by
  induction classes generalizing m with
  | nil =>
    simp only [scoreClasses, Run.returns.injEq, Except.ok.injEq] at h
    subst h
    exact hm
  | cons className rest ih =>
    obtain ⟨m1, h1, h2⟩ := scoreClasses_cons indefinite nodes capacities claims className rest m m2 h
    exact ih m1 h2 (scoreNodes_nonempty indefinite className capacities claims nodes m m1 h1 hm)

/-! ## The mean per node -/

theorem wrapInt64_add_wrapInt64 (a b : Int) : wrapInt64 (wrapInt64 a + b) = wrapInt64 (a + b) := by
  unfold wrapInt64
  norm_num
  omega

theorem sumAndCount_eq (entries : List (String × Int)) (sum count : Int) :
    sumAndCount entries (wrapInt64 sum, count) =
      (wrapInt64 (sum + (entries.map Prod.snd).sum), count + entries.length) := by
  induction entries generalizing sum count with
  | nil => simp [sumAndCount]
  | cons kv rest ih =>
    obtain ⟨k, v⟩ := kv
    unfold sumAndCount
    rw [wrapInt64_add_wrapInt64, ih]
    simp only [List.map_cons, List.sum_cons, List.length_cons, Nat.cast_add, Nat.cast_one]
    rw [add_assoc, add_assoc, add_comm 1]

theorem sumAndCount_zero (entries : List (String × Int)) :
    sumAndCount entries (0, 0) =
      (wrapInt64 (entries.map Prod.snd).sum, (entries.length : Int)) := by
  have h0 : wrapInt64 0 = 0 := by decide
  have := sumAndCount_eq entries 0 0
  rw [h0] at this
  simpa using this

theorem nodeMeans_spec (m : UsageMap) (acc : List (String × Int))
    (hn : (m.map Prod.fst).Nodup) (hne : ∀ kv ∈ m, kv.2 ≠ []) :
    ∃ res, nodeMeans m acc = .returns res ∧
      (∀ nm, res.lookup nm =
        if nm ∈ m.map Prod.fst then (m.lookup nm).map (fun l => meanScore (l.map Prod.snd))
        else acc.lookup nm) ∧
      (∀ nm, nm ∈ res.map Prod.fst ↔ nm ∈ acc.map Prod.fst ∨ nm ∈ m.map Prod.fst) := by
  induction m generalizing acc with
  | nil => exact ⟨acc, rfl, by simp, by simp⟩
  | cons kv rest ih =>
    obtain ⟨k, l⟩ := kv
    simp only [List.map_cons, List.nodup_cons] at hn
    have hl : l ≠ [] := hne (k, l) (List.mem_cons_self _ _)
    have hlen : (l.length : Int) ≠ 0 := by
      have := List.length_pos.mpr hl
      omega
    obtain ⟨res, hres, hlook, hkeys⟩ := ih (mapSet k (meanScore (l.map Prod.snd)) acc) hn.2
      (fun kv hkv => hne kv (List.mem_cons_of_mem _ hkv))
    refine ⟨res, ?_, ?_, ?_⟩
    · unfold nodeMeans
      rw [sumAndCount_zero]
      simp only [hlen, if_false]
      have : Int.tdiv (wrapInt64 (l.map Prod.snd).sum) (l.length : Int) =
          meanScore (l.map Prod.snd) := by
        unfold meanScore
        simp
      rw [this]
      exact hres
    · intro nm
      rw [hlook nm]
      by_cases h1 : nm = k
      · subst h1
        simp [hn.1, mapSet_lookup_eq, lookup_cons_eq]
      · have h2 : nm ∈ k :: rest.map Prod.fst ↔ nm ∈ rest.map Prod.fst := by
          simp [h1]
        simp only [List.map_cons, h2]
        rw [mapSet_lookup_ne k nm _ acc h1, lookup_cons_ne nm k l rest h1]
    · intro nm
      rw [hkeys nm, mem_mapSet_keys]
      simp only [List.map_cons, List.mem_cons]
      tauto

/-! ## The result of `calculateScore` -/

theorem calculateScore_returns (indefinite : Int) (nodes : List Node)
    (storageClassNames : List String) (capacities : List CSIStorageCapacity)
    (claims : claimsByStorageClass) (res : List (String × Int))
    (h : calculateScore indefinite nodes storageClassNames capacities claims =
      .returns (.ok res)) :
    ∃ m, scoreClasses indefinite nodes capacities claims storageClassNames [] =
        .returns (.ok m) ∧ nodeMeans m [] = .returns res := by
  unfold calculateScore at h
  cases hs : scoreClasses indefinite nodes capacities claims storageClassNames [] with
  | panics msg =>
    rw [hs] at h
    simp at h
  | returns r =>
    cases r with
    | error err =>
      rw [hs] at h
      simp at h
    | ok m =>
      rw [hs] at h
      simp only at h
      refine ⟨m, rfl, ?_⟩
      cases hm : nodeMeans m [] with
      | panics msg =>
        rw [hm] at h
        simp at h
      | returns r2 =>
        rw [hm] at h
        simp only [Run.returns.injEq, Except.ok.injEq] at h
        rw [h]

theorem hasMatch_iff (node : Node) (className : String) (capacities : List CSIStorageCapacity) :
    hasMatch node className capacities = true ↔
      ∃ record ∈ capacities, record.StorageClassName = className ∧
        nodeHasAccess node record = true := by
  unfold hasMatch
  rw [List.any_eq_true]
  simp [matchesRecord]

/-- The keys of the result of a successful `calculateScore`. -/
theorem calculateScore_keys (indefinite : Int) (nodes : List Node)
    (storageClassNames : List String) (capacities : List CSIStorageCapacity)
    (claims : claimsByStorageClass) (res : List (String × Int))
    (h : calculateScore indefinite nodes storageClassNames capacities claims =
      .returns (.ok res)) (nm : String) :
    nm ∈ res.map Prod.fst ↔ ∃ node ∈ nodes, node.name = nm ∧
      ∃ className ∈ storageClassNames, hasMatch node className capacities = true := by
  obtain ⟨m, h1, h2⟩ := calculateScore_returns indefinite nodes storageClassNames capacities
    claims res h
  have hk := scoreClasses_keys indefinite nodes capacities claims storageClassNames [] m h1
  have hnd := scoreClasses_keys_nodup indefinite nodes capacities claims storageClassNames [] m h1
    List.nodup_nil
  have hne := scoreClasses_nonempty indefinite nodes capacities claims storageClassNames [] m h1
    (by simp)
  obtain ⟨res2, hres, -, hkeys⟩ := nodeMeans_spec m [] hnd hne
  rw [h2] at hres
  cases hres
  rw [hkeys nm, hk nm]
  simp

/-- The values of the result of a successful `calculateScore` over nodes
with distinct names and distinct class names. -/
theorem calculateScore_values (indefinite : Int) (nodes : List Node)
    (storageClassNames : List String) (capacities : List CSIStorageCapacity)
    (claims : claimsByStorageClass) (res : List (String × Int))
    (hn : (nodes.map Node.name).Nodup) (hs : storageClassNames.Nodup)
    (h : calculateScore indefinite nodes storageClassNames capacities claims =
      .returns (.ok res)) (node : Node) (hnode : node ∈ nodes) :
    res.lookup node.name =
      if scoredClasses node storageClassNames capacities = [] then none
      else some (meanScore ((scoredClasses node storageClassNames capacities).map
        (classScore indefinite capacities claims node))) := by
  obtain ⟨m, h1, h2⟩ := calculateScore_returns indefinite nodes storageClassNames capacities
    claims res h
  have hinv0 : UsageInv indefinite nodes capacities claims [] [] := by
    refine ⟨?_, ?_⟩
    · intro n _
      simp [usageEntries, scoredClasses]
    · intro nm _
      rfl
  have hinv := scoreClasses_values indefinite nodes capacities claims storageClassNames [] [] m
    hn (by simpa using hs) h1 hinv0
  simp only [List.nil_append] at hinv
  have hnd := scoreClasses_keys_nodup indefinite nodes capacities claims storageClassNames [] m h1
    List.nodup_nil
  have hne := scoreClasses_nonempty indefinite nodes capacities claims storageClassNames [] m h1
    (by simp)
  obtain ⟨res2, hres, hlook, -⟩ := nodeMeans_spec m [] hnd hne
  rw [h2] at hres
  cases hres
  rw [hlook node.name, hinv.1 node hnode]
  have hempty : usageEntries indefinite capacities claims node storageClassNames = [] ↔
      scoredClasses node storageClassNames capacities = [] := by
    unfold usageEntries
    simp
  by_cases he : scoredClasses node storageClassNames capacities = []
  · rw [if_pos he, if_pos (hempty.mpr he)]
    have : node.name ∉ m.map Prod.fst := by
      rw [← lookup_eq_none_iff, hinv.1 node hnode, if_pos (hempty.mpr he)]
    simp [this]
  · rw [if_neg he, if_neg (fun e => he (hempty.mp e))]
    have : node.name ∈ m.map Prod.fst := by
      by_contra hcon
      rw [← lookup_eq_none_iff, hinv.1 node hnode, if_neg (fun e => he (hempty.mp e))] at hcon
      simp at hcon
    rw [if_pos this]
    simp [usageEntries_values]

theorem sum_le_of_forall_le (l : List Int) (b : Int) (h : ∀ x ∈ l, x ≤ b) :
    l.sum ≤ b * l.length := by
  induction l with
  | nil => simp
  | cons x rest ih =>
    have h1 := h x (List.mem_cons_self _ _)
    have h2 := ih (fun y hy => h y (List.mem_cons_of_mem _ hy))
    simp only [List.sum_cons, List.length_cons, Nat.cast_add, Nat.cast_one]
    linarith

theorem sum_nonneg_of_forall_nonneg (l : List Int) (h : ∀ x ∈ l, 0 ≤ x) : 0 ≤ l.sum := by
  induction l with
  | nil => simp
  | cons x rest ih =>
    have h1 := h x (List.mem_cons_self _ _)
    have h2 := ih (fun y hy => h y (List.mem_cons_of_mem _ hy))
    simp only [List.sum_cons]
    linarith

theorem meanScore_of_range (l : List Int) (h : ∀ x ∈ l, 0 ≤ x ∧ x ≤ 100)
    (hlen : l.length < 2 ^ 56) : meanScore l = Int.tdiv l.sum l.length := by
  unfold meanScore
  have h1 := sum_le_of_forall_le l 100 (fun x hx => (h x hx).2)
  have h2 := sum_nonneg_of_forall_nonneg l (fun x hx => (h x hx).1)
  have h3 : (l.length : Int) < 2 ^ 56 := by exact_mod_cast hlen
  rw [wrapInt64_of_range]
  · norm_num at *
    linarith
  · norm_num at *
    linarith

/-- C6: for nodes with distinct names and distinct class names, every node
that has an entry in the result of `calculateScore` has at least one scored
class (one with a matching capacity record), and its score is the quotient,
truncated towards zero, of the `int64` sum of its per-class utilisation scores
by the number of scored classes; the `int64` sum is the plain sum whenever the
per-class scores lie in 0..100 and there are fewer than `2^56` of them. -/
theorem calculateScore_is_mean_of_class_scores (indefinite : Int) (nodes : List Node)
    (storageClassNames : List String) (capacities : List CSIStorageCapacity)
    (claims : claimsByStorageClass) (res : List (String × Int))
    (hn : (nodes.map Node.name).Nodup) (hs : storageClassNames.Nodup)
    (h : calculateScore indefinite nodes storageClassNames capacities claims =
      .returns (.ok res))
    (node : Node) (hnode : node ∈ nodes) (score : Int)
    (hscore : res.lookup node.name = some score) :
    scoredClasses node storageClassNames capacities ≠ [] ∧
    score = Int.tdiv
      (wrapInt64 ((scoredClasses node storageClassNames capacities).map
        (classScore indefinite capacities claims node)).sum)
      (scoredClasses node storageClassNames capacities).length ∧
    ((∀ c ∈ scoredClasses node storageClassNames capacities,
        0 ≤ classScore indefinite capacities claims node c ∧
        classScore indefinite capacities claims node c ≤ 100) →
      (scoredClasses node storageClassNames capacities).length < 2 ^ 56 →
      score = Int.tdiv
        ((scoredClasses node storageClassNames capacities).map
          (classScore indefinite capacities claims node)).sum
        (scoredClasses node storageClassNames capacities).length) := by
  have hv := calculateScore_values indefinite nodes storageClassNames capacities claims res hn hs
    h node hnode
  rw [hscore] at hv
  by_cases he : scoredClasses node storageClassNames capacities = []
  · rw [if_pos he] at hv
    simp at hv
  · rw [if_neg he] at hv
    simp only [Option.some.injEq] at hv
    refine ⟨he, ?_, ?_⟩
    · rw [hv]
      unfold meanScore
      simp
    · intro hrange hlen
      rw [hv, meanScore_of_range _ (by simpa using hrange) (by simpa using hlen)]
      simp

/-- The case with two storage classes of
`TestStorageCapacityPrioritizationPreScore`: 20Gi of 50Gi and 10Gi of 50Gi,
that is 40 and 20, give 30. -/
theorem calculateScore_is_mean_of_class_scores_witness :
    calculateScore 0 preScoreNodes [waitHDDSC.name, waitSC.name] multiClassCapacities
        multiClassGroups =
      .returns (.ok [("zone-a-node-a", 30), ("zone-b-node-a", 30), ("zone-c-node-a", 30)]) ∧
    (scoredClasses (zoneNode "zone-a") [waitHDDSC.name, waitSC.name] multiClassCapacities).map
        (classScore 0 multiClassCapacities multiClassGroups (zoneNode "zone-a")) = [20, 40] ∧
    (30 : Int) = Int.tdiv
      (wrapInt64 ((scoredClasses (zoneNode "zone-a") [waitHDDSC.name, waitSC.name]
        multiClassCapacities).map
        (classScore 0 multiClassCapacities multiClassGroups (zoneNode "zone-a"))).sum)
      (scoredClasses (zoneNode "zone-a") [waitHDDSC.name, waitSC.name]
        multiClassCapacities).length :=
  ⟨by decide, by decide,
    (calculateScore_is_mean_of_class_scores 0 preScoreNodes [waitHDDSC.name, waitSC.name]
      multiClassCapacities multiClassGroups
      [("zone-a-node-a", 30), ("zone-b-node-a", 30), ("zone-c-node-a", 30)]
      (by decide) (by decide) (by decide) (zoneNode "zone-a") (by decide) 30 (by decide)).2.1⟩

/-- C7: for nodes with distinct names and distinct class names, adding to the
class names a class for which no capacity record matches a given node (and
giving that class any claim group, the other groups staying as they are)
leaves that node's score, or its absence, unchanged. -/
theorem calculateScore_ignores_unmatched_class (indefinite : Int) (nodes : List Node)
    (before after : List String) (className : String) (capacities : List CSIStorageCapacity)
    (claims claimsWith : claimsByStorageClass) (res resWith : List (String × Int))
    (hn : (nodes.map Node.name).Nodup) (hs : (before ++ className :: after).Nodup)
    (node : Node) (hnode : node ∈ nodes)
    (hno : ¬ ∃ record ∈ capacities, record.StorageClassName = className ∧
      nodeHasAccess node record = true)
    (hsame : ∀ k, k ≠ className → claimsWith.get k = claims.get k)
    (h : calculateScore indefinite nodes (before ++ after) capacities claims =
      .returns (.ok res))
    (hWith : calculateScore indefinite nodes (before ++ className :: after) capacities
      claimsWith = .returns (.ok resWith)) :
    resWith.lookup node.name = res.lookup node.name := by
  have hs2 : (before ++ after).Nodup := by
    rw [List.nodup_append] at hs ⊢
    refine ⟨hs.1, (List.nodup_cons.mp hs.2.1).2, ?_⟩
    intro a ha hb
    exact hs.2.2 ha (List.mem_cons_of_mem _ hb)
  have hno2 : hasMatch node className capacities = false := by
    rw [← Bool.not_eq_true, hasMatch_iff]
    exact hno
  have hcls : scoredClasses node (before ++ className :: after) capacities =
      scoredClasses node (before ++ after) capacities := by
    unfold scoredClasses
    rw [List.filter_append, List.filter_append, List.filter_cons]
    simp [hno2]
  have hscore : ∀ c ∈ scoredClasses node (before ++ after) capacities,
      classScore indefinite capacities claimsWith node c =
        classScore indefinite capacities claims node c := by
    intro c hc
    have hc2 : hasMatch node c capacities = true := by
      have := (List.mem_filter.mp hc).2
      simpa using this
    have hne : c ≠ className := by
      rintro rfl
      rw [hno2] at hc2
      exact absurd hc2 (by simp)
    unfold classScore
    rw [hsame c hne]
  rw [calculateScore_values indefinite nodes _ capacities claims res hn hs2 h node hnode,
    calculateScore_values indefinite nodes _ capacities claimsWith resWith hn hs hWith node hnode,
    hcls, List.map_congr_left hscore]

/-- The two-class case with the class `immediate-sc`, which has no capacity
record, added: the score of the first node stays 30. -/
theorem calculateScore_ignores_unmatched_class_witness :
    calculateScore 0 preScoreNodes [immediateSC.name, waitHDDSC.name, waitSC.name]
        multiClassCapacities
        ((immediateSC.name, [(makePVC "pvc-c" immediateSC.name).withRequestStorage (Gi 1)]) ::
          multiClassGroups) =
      .returns (.ok [("zone-a-node-a", 30), ("zone-b-node-a", 30), ("zone-c-node-a", 30)]) ∧
    List.lookup (zoneNode "zone-a").name
        [("zone-a-node-a", (30 : Int)), ("zone-b-node-a", 30), ("zone-c-node-a", 30)] =
      List.lookup (zoneNode "zone-a").name
        [("zone-a-node-a", (30 : Int)), ("zone-b-node-a", 30), ("zone-c-node-a", 30)] :=
  ⟨by decide,
    calculateScore_ignores_unmatched_class 0 preScoreNodes [] [waitHDDSC.name, waitSC.name]
      immediateSC.name multiClassCapacities multiClassGroups
      ((immediateSC.name, [(makePVC "pvc-c" immediateSC.name).withRequestStorage (Gi 1)]) ::
        multiClassGroups)
      [("zone-a-node-a", 30), ("zone-b-node-a", 30), ("zone-c-node-a", 30)]
      [("zone-a-node-a", 30), ("zone-b-node-a", 30), ("zone-c-node-a", 30)]
      (by decide) (by decide) (zoneNode "zone-a") (by decide)
      (by
        rintro ⟨record, hrec, hc, -⟩
        simp only [multiClassCapacities, List.mem_cons, List.mem_singleton, List.not_mem_nil,
          or_false] at hrec
        rcases hrec with h | h | h | h | h | h <;> subst h <;> exact absurd hc (by decide))
      (by
        intro k hk
        exact lookup_cons_ne k immediateSC.name _ _ hk)
      (by decide) (by decide)⟩

/-- C8: when `calculateScore` succeeds, a name is a key of its result exactly
when it is the name of one of the nodes for which some class among the class
names has a capacity record of that class whose topology matches the node; a
name without such a node has no entry, and `Score` returns 0 with the nil
status for it once the result is stored as `scores`. -/
theorem calculateScore_entry_iff_match (indefinite : Int) (nodes : List Node)
    (storageClassNames : List String) (capacities : List CSIStorageCapacity)
    (claims : claimsByStorageClass) (res : List (String × Int))
    (h : calculateScore indefinite nodes storageClassNames capacities claims =
      .returns (.ok res)) :
    (∀ nm, nm ∈ res.map Prod.fst ↔ ∃ node ∈ nodes, node.name = nm ∧
      ∃ className ∈ storageClassNames, ∃ record ∈ capacities,
        record.StorageClassName = className ∧ nodeHasAccess node record = true) ∧
    (∀ nm, (¬ ∃ node ∈ nodes, node.name = nm ∧
        ∃ className ∈ storageClassNames, ∃ record ∈ capacities,
          record.StorageClassName = className ∧ nodeHasAccess node record = true) →
      res.lookup nm = none ∧
      ∀ (pl : StorageCapacityPrioritization) (cs : CycleState) (state : stateData),
        cs.plugin = StateEntry.data state → state.scores = some res →
          pl.Score cs nm = (0, none)) := by
  have hkeys : ∀ nm, nm ∈ res.map Prod.fst ↔ ∃ node ∈ nodes, node.name = nm ∧
      ∃ className ∈ storageClassNames, ∃ record ∈ capacities,
        record.StorageClassName = className ∧ nodeHasAccess node record = true := by
    intro nm
    rw [calculateScore_keys indefinite nodes storageClassNames capacities claims res h nm]
    simp only [hasMatch_iff]
  refine ⟨hkeys, ?_⟩
  intro nm hnm
  have hnone : res.lookup nm = none := by
    rw [lookup_eq_none_iff, hkeys nm]
    exact hnm
  refine ⟨hnone, ?_⟩
  intro pl cs state hcs hst
  rw [Score_of_state pl cs state nm hcs, hst]
  simp [hnone]

/-- The first node of the tests beside a node of a zone without any capacity
record: only the first gets an entry. -/
theorem calculateScore_entry_iff_match_witness :
    calculateScore 0 [zoneNode "zone-a", zoneNode "zone-e"] [waitSC.name] e2eCapacities
        [(waitSC.name, [e2eClaim])] = .returns (.ok [("zone-a-node-a", 100)]) ∧
    (∀ nm, nm ∈ ([("zone-a-node-a", (100 : Int))].map Prod.fst) ↔
      ∃ node ∈ [zoneNode "zone-a", zoneNode "zone-e"], node.name = nm ∧
        ∃ className ∈ [waitSC.name], ∃ record ∈ e2eCapacities,
          record.StorageClassName = className ∧ nodeHasAccess node record = true) :=
  ⟨by decide,
    (calculateScore_entry_iff_match 0 [zoneNode "zone-a", zoneNode "zone-e"] [waitSC.name]
      e2eCapacities [(waitSC.name, [e2eClaim])] [("zone-a-node-a", 100)] (by decide)).1⟩

/-! ## Rounding of rationals to float64 -/

theorem log2_eq_of_bounds (x : ℚ) (l : ℤ) (hx : 0 < x) (h1 : (2 : ℚ) ^ l ≤ x)
    (h2 : x < (2 : ℚ) ^ (l + 1)) : Int.log 2 x = l := by
  have hb : 1 < 2 := by norm_num
  have ha : l ≤ Int.log 2 x := by
    rw [← Int.zpow_le_iff_le_log hb hx]
    simpa using h1
  have hc : Int.log 2 x < l + 1 := by
    rw [← Int.lt_zpow_iff_log_lt hb hx]
    simpa using h2
  omega

theorem log2_bounds (x : ℚ) (hx : 0 < x) :
    (2 : ℚ) ^ Int.log 2 x ≤ x ∧ x < (2 : ℚ) ^ (Int.log 2 x + 1) := by
  have hb : 1 < 2 := by norm_num
  have h1 := Int.zpow_log_le_self hb hx
  have h2 := Int.lt_zpow_succ_log_self hb x
  simp only [Nat.cast_ofNat] at h1 h2
  exact ⟨h1, h2⟩

theorem two_zpow_pos (e : ℤ) : (0 : ℚ) < (2 : ℚ) ^ e := by positivity

theorem log2_mul_zpow (x : ℚ) (k : ℤ) (hx : 0 < x) :
    Int.log 2 (x * (2 : ℚ) ^ k) = Int.log 2 x + k := by
  obtain ⟨h1, h2⟩ := log2_bounds x hx
  have hk := two_zpow_pos k
  apply log2_eq_of_bounds _ _ (mul_pos hx hk)
  · rw [zpow_add₀ (by norm_num : (2 : ℚ) ≠ 0)]
    exact mul_le_mul_of_nonneg_right h1 hk.le
  · have : (2 : ℚ) ^ (Int.log 2 x + k + 1) = (2 : ℚ) ^ (Int.log 2 x + 1) * (2 : ℚ) ^ k := by
      rw [← zpow_add₀ (by norm_num : (2 : ℚ) ≠ 0)]
      congr 1
      ring
    rw [this]
    exact mul_lt_mul_of_pos_right h2 hk

theorem roundHalfEvenQ_cases (y : ℚ) :
    roundHalfEvenQ y = ⌊y⌋ ∨ roundHalfEvenQ y = ⌊y⌋ + 1 := by
  unfold roundHalfEvenQ
  split_ifs <;> simp

theorem roundHalfEvenQ_intCast (n : ℤ) : roundHalfEvenQ (n : ℚ) = n := by
  unfold roundHalfEvenQ
  simp

theorem le_roundHalfEvenQ (y : ℚ) (n : ℤ) (h : (n : ℚ) ≤ y) : n ≤ roundHalfEvenQ y := by
  have h1 : n ≤ ⌊y⌋ := Int.le_floor.mpr h
  rcases roundHalfEvenQ_cases y with h2 | h2 <;> omega

theorem roundHalfEvenQ_le (y : ℚ) (n : ℤ) (h : y ≤ (n : ℚ)) : roundHalfEvenQ y ≤ n := by
  by_cases hy : y = (⌊y⌋ : ℚ)
  · have h1 : roundHalfEvenQ y = ⌊y⌋ := by
      rw [hy, roundHalfEvenQ_intCast]
      simp
    rw [h1]
    have : (⌊y⌋ : ℚ) ≤ n := by rw [← hy]; exact h
    exact_mod_cast this
  · have h1 : (⌊y⌋ : ℚ) < y := lt_of_le_of_ne (Int.floor_le y) (Ne.symm hy)
    have h2 : (⌊y⌋ : ℚ) < n := lt_of_lt_of_le h1 h
    have h3 : ⌊y⌋ < n := by exact_mod_cast h2
    rcases roundHalfEvenQ_cases y with h4 | h4 <;> omega

theorem roundHalfEvenQ_mono (y z : ℚ) (h : y ≤ z) : roundHalfEvenQ y ≤ roundHalfEvenQ z := by
  have hf : ⌊y⌋ ≤ ⌊z⌋ := Int.floor_mono h
  rcases lt_or_eq_of_le hf with hlt | heq
  · have h1 : roundHalfEvenQ y ≤ ⌊y⌋ + 1 := by
      rcases roundHalfEvenQ_cases y with h2 | h2 <;> omega
    have h3 : ⌊z⌋ ≤ roundHalfEvenQ z := by
      rcases roundHalfEvenQ_cases z with h2 | h2 <;> omega
    omega
  · unfold roundHalfEvenQ
    rw [← heq]
    have hyz : y - ⌊y⌋ ≤ z - ⌊y⌋ := by linarith
    split_ifs <;> first | omega | linarith

theorem roundQ_of_pos (x : ℚ) (hx : 0 < x) :
    roundQ x = (roundHalfEvenQ (x / (2 : ℚ) ^ (Int.log 2 x - 52)) : ℚ) *
      (2 : ℚ) ^ (Int.log 2 x - 52) := by
  unfold roundQ
  rw [if_neg (not_le.mpr hx)]

theorem scaled_bounds (x : ℚ) (hx : 0 < x) :
    (2 : ℚ) ^ (52 : ℕ) ≤ x / (2 : ℚ) ^ (Int.log 2 x - 52) ∧
      x / (2 : ℚ) ^ (Int.log 2 x - 52) < (2 : ℚ) ^ (53 : ℕ) := by
  obtain ⟨h1, h2⟩ := log2_bounds x hx
  have hp := two_zpow_pos (Int.log 2 x - 52)
  have e1 : (2 : ℚ) ^ Int.log 2 x = (2 : ℚ) ^ (52 : ℕ) * (2 : ℚ) ^ (Int.log 2 x - 52) := by
    rw [← zpow_natCast, ← zpow_add₀ (by norm_num : (2 : ℚ) ≠ 0)]
    congr 1
    push_cast
    ring
  have e2 : (2 : ℚ) ^ (Int.log 2 x + 1) =
      (2 : ℚ) ^ (53 : ℕ) * (2 : ℚ) ^ (Int.log 2 x - 52) := by
    rw [← zpow_natCast, ← zpow_add₀ (by norm_num : (2 : ℚ) ≠ 0)]
    congr 1
    push_cast
    ring
  constructor
  · rw [le_div_iff₀ hp, ← e1]
    exact h1
  · rw [div_lt_iff₀ hp, ← e2]
    exact h2

theorem roundQ_bounds (x : ℚ) (hx : 0 < x) :
    (2 : ℚ) ^ Int.log 2 x ≤ roundQ x ∧ roundQ x ≤ (2 : ℚ) ^ (Int.log 2 x + 1) := by
  obtain ⟨h1, h2⟩ := scaled_bounds x hx
  have hp := two_zpow_pos (Int.log 2 x - 52)
  rw [roundQ_of_pos x hx]
  have e1 : (2 : ℚ) ^ Int.log 2 x = (2 : ℚ) ^ (52 : ℕ) * (2 : ℚ) ^ (Int.log 2 x - 52) := by
    rw [← zpow_natCast, ← zpow_add₀ (by norm_num : (2 : ℚ) ≠ 0)]
    congr 1
    push_cast
    ring
  have e2 : (2 : ℚ) ^ (Int.log 2 x + 1) =
      (2 : ℚ) ^ (53 : ℕ) * (2 : ℚ) ^ (Int.log 2 x - 52) := by
    rw [← zpow_natCast, ← zpow_add₀ (by norm_num : (2 : ℚ) ≠ 0)]
    congr 1
    push_cast
    ring
  have h3 : ((2 ^ 52 : ℤ) : ℚ) ≤ x / (2 : ℚ) ^ (Int.log 2 x - 52) := by
    push_cast
    exact h1
  have h4 : x / (2 : ℚ) ^ (Int.log 2 x - 52) ≤ ((2 ^ 53 : ℤ) : ℚ) := by
    push_cast
    exact h2.le
  have h5 := le_roundHalfEvenQ _ _ h3
  have h6 := roundHalfEvenQ_le _ _ h4
  have h5q : ((2 ^ 52 : ℤ) : ℚ) ≤ (roundHalfEvenQ (x / (2 : ℚ) ^ (Int.log 2 x - 52)) : ℚ) := by
    exact_mod_cast h5
  have h6q : (roundHalfEvenQ (x / (2 : ℚ) ^ (Int.log 2 x - 52)) : ℚ) ≤ ((2 ^ 53 : ℤ) : ℚ) := by
    exact_mod_cast h6
  push_cast at h5q h6q
  constructor
  · rw [e1]
    exact mul_le_mul_of_nonneg_right h5q hp.le
  · rw [e2]
    exact mul_le_mul_of_nonneg_right h6q hp.le

theorem roundQ_pos (x : ℚ) (hx : 0 < x) : 0 < roundQ x :=
  lt_of_lt_of_le (two_zpow_pos _) (roundQ_bounds x hx).1

theorem roundQ_mono (x z : ℚ) (hx : 0 < x) (h : x ≤ z) : roundQ x ≤ roundQ z := by
  have hz : 0 < z := lt_of_lt_of_le hx h
  have hl : Int.log 2 x ≤ Int.log 2 z := Int.log_mono_right hx h
  rcases lt_or_eq_of_le hl with hlt | heq
  · have h1 := (roundQ_bounds x hx).2
    have h2 := (roundQ_bounds z hz).1
    have h3 : (2 : ℚ) ^ (Int.log 2 x + 1) ≤ (2 : ℚ) ^ Int.log 2 z :=
      zpow_le_zpow_right₀ (by norm_num) (by omega)
    linarith
  · rw [roundQ_of_pos x hx, roundQ_of_pos z hz, ← heq]
    have hp := two_zpow_pos (Int.log 2 x - 52)
    have h1 : x / (2 : ℚ) ^ (Int.log 2 x - 52) ≤ z / (2 : ℚ) ^ (Int.log 2 x - 52) :=
      div_le_div_of_nonneg_right h hp.le
    have h2 := roundHalfEvenQ_mono _ _ h1
    have h3 : (roundHalfEvenQ (x / (2 : ℚ) ^ (Int.log 2 x - 52)) : ℚ) ≤
        (roundHalfEvenQ (z / (2 : ℚ) ^ (Int.log 2 x - 52)) : ℚ) := by exact_mod_cast h2
    exact mul_le_mul_of_nonneg_right h3 hp.le

theorem roundQ_mul_zpow (x : ℚ) (k : ℤ) (hx : 0 < x) :
    roundQ (x * (2 : ℚ) ^ k) = roundQ x * (2 : ℚ) ^ k := by
  have hk := two_zpow_pos k
  rw [roundQ_of_pos x hx, roundQ_of_pos _ (mul_pos hx hk), log2_mul_zpow x k hx]
  have e : (2 : ℚ) ^ (Int.log 2 x + k - 52) = (2 : ℚ) ^ (Int.log 2 x - 52) * (2 : ℚ) ^ k := by
    rw [← zpow_add₀ (by norm_num : (2 : ℚ) ≠ 0)]
    congr 1
    ring
  rw [e]
  have hd : x * (2 : ℚ) ^ k / ((2 : ℚ) ^ (Int.log 2 x - 52) * (2 : ℚ) ^ k) =
      x / (2 : ℚ) ^ (Int.log 2 x - 52) := by
    field_simp
    ring
  rw [hd]
  ring

/-- A rational `m * 2^k` with `0 < m ≤ 2^53` is a `float64` value: rounding
leaves it as it is. -/
theorem roundQ_exact (m : ℕ) (k : ℤ) (hm : 0 < m) (hle : m ≤ 2 ^ 53) :
    roundQ ((m : ℚ) * (2 : ℚ) ^ k) = (m : ℚ) * (2 : ℚ) ^ k := by
  have hmq : (0 : ℚ) < (m : ℚ) := by exact_mod_cast hm
  rw [roundQ_mul_zpow _ k hmq]
  congr 1
  rw [roundQ_of_pos _ hmq]
  obtain ⟨h1, h2⟩ := log2_bounds (m : ℚ) hmq
  have hlog : Int.log 2 (m : ℚ) ≤ 53 := by
    by_contra hcon
    have h54 : (54 : ℤ) ≤ Int.log 2 (m : ℚ) := by omega
    have h3 : (2 : ℚ) ^ (54 : ℤ) ≤ (2 : ℚ) ^ Int.log 2 (m : ℚ) :=
      zpow_le_zpow_right₀ (by norm_num) h54
    have h4 : (m : ℚ) ≤ 2 ^ 53 := by exact_mod_cast hle
    have h5 : (2 : ℚ) ^ (54 : ℤ) = 2 ^ 54 := by norm_cast
    rw [h5] at h3
    have : (2 : ℚ) ^ 53 < 2 ^ 54 := by norm_num
    linarith
  rcases lt_or_eq_of_le hlog with hlt | heq
  · obtain ⟨j, hj⟩ : ∃ j : ℕ, (j : ℤ) = 52 - Int.log 2 (m : ℚ) := ⟨(52 - Int.log 2 (m : ℚ)).toNat,
      by omega⟩
    have e : (2 : ℚ) ^ (Int.log 2 (m : ℚ) - 52) = ((2 : ℚ) ^ j)⁻¹ := by
      rw [← zpow_natCast, ← zpow_neg, hj]
      congr 1
      ring
    rw [e, div_inv_eq_mul]
    have hint : (m : ℚ) * (2 : ℚ) ^ j = ((m * 2 ^ j : ℕ) : ℤ) := by push_cast; ring
    rw [hint, roundHalfEvenQ_intCast]
    push_cast
    field_simp
  · have hm53 : (m : ℚ) = 2 ^ 53 := by
      have h4 : (m : ℚ) ≤ 2 ^ 53 := by exact_mod_cast hle
      rw [heq] at h1
      have h5 : (2 : ℚ) ^ (53 : ℤ) = 2 ^ 53 := by norm_cast
      rw [h5] at h1
      linarith
    rw [heq, hm53]
    have e : (2 : ℚ) ^ ((53 : ℤ) - 52) = 2 := by norm_num
    rw [e]
    have hint : (2 : ℚ) ^ 53 / 2 = ((2 ^ 52 : ℤ) : ℚ) := by norm_num
    rw [hint, roundHalfEvenQ_intCast]
    norm_num

/-! ## The float64 operations compute the rounding -/

theorem bitLenAux_zero (fuel : Nat) : bitLenAux fuel 0 = 0 := by
  cases fuel <;> simp [bitLenAux]

theorem bitLenAux_bounds (fuel n : Nat) (hf : n ≤ fuel) (hn : 0 < n) :
    2 ^ bitLenAux fuel n ≤ 2 * n ∧ n < 2 ^ bitLenAux fuel n := by
  induction fuel generalizing n with
  | zero => omega
  | succ f ih =>
    unfold bitLenAux
    rw [if_neg (by omega)]
    by_cases h2 : n / 2 = 0
    · have h1 : n = 1 := by omega
      subst h1
      simp [bitLenAux_zero]
    · obtain ⟨h3, h4⟩ := ih (n / 2) (by omega) (by omega)
      rw [pow_succ]
      constructor <;> omega

theorem bitLen_bounds (n : Nat) (hn : 0 < n) : 2 ^ bitLen n ≤ 2 * n ∧ n < 2 ^ bitLen n :=
  bitLenAux_bounds n n le_rfl hn

theorem two_zpow_eq_div (l : ℤ) :
    (2 : ℚ) ^ l = (2 : ℚ) ^ l.toNat / (2 : ℚ) ^ (-l).toNat := by
  rcases le_or_lt 0 l with h | h
  · have h1 : (-l).toNat = 0 := by omega
    have h2 : ((l.toNat : ℕ) : ℤ) = l := Int.toNat_of_nonneg h
    rw [h1, pow_zero, div_one, ← zpow_natCast, h2]
  · have h1 : l.toNat = 0 := by omega
    have h2 : (((-l).toNat : ℕ) : ℤ) = -l := Int.toNat_of_nonneg (by omega)
    rw [h1, pow_zero, one_div, ← zpow_natCast, h2, zpow_neg, inv_inv]

theorem binaryExponent_bounds (num den : Nat) (hn : 0 < num) (hd : 0 < den) :
    (2 : ℚ) ^ binaryExponent num den ≤ (num : ℚ) / den ∧
      (num : ℚ) / den < (2 : ℚ) ^ (binaryExponent num den + 1) := by
  obtain ⟨hn1, hn2⟩ := bitLen_bounds num hn
  obtain ⟨hd1, hd2⟩ := bitLen_bounds den hd
  have hnq : (0 : ℚ) < num := by exact_mod_cast hn
  have hdq : (0 : ℚ) < den := by exact_mod_cast hd
  have hn1q : (2 : ℚ) ^ bitLen num ≤ 2 * num := by exact_mod_cast hn1
  have hn2q : (num : ℚ) < (2 : ℚ) ^ bitLen num := by exact_mod_cast hn2
  have hd1q : (2 : ℚ) ^ bitLen den ≤ 2 * den := by exact_mod_cast hd1
  have hd2q : (den : ℚ) < (2 : ℚ) ^ bitLen den := by exact_mod_cast hd2
  have hpn : (0 : ℚ) < (2 : ℚ) ^ bitLen num := by positivity
  have hpd : (0 : ℚ) < (2 : ℚ) ^ bitLen den := by positivity
  have hl : (2 : ℚ) ^ ((bitLen num : ℤ) - (bitLen den : ℤ)) =
      (2 : ℚ) ^ bitLen num / (2 : ℚ) ^ bitLen den := by
    rw [zpow_sub₀ (by norm_num : (2 : ℚ) ≠ 0), zpow_natCast, zpow_natCast]
  -- the quotient lies strictly between 2^(l-1) and 2^(l+1)
  have hlow : (2 : ℚ) ^ ((bitLen num : ℤ) - (bitLen den : ℤ) - 1) < (num : ℚ) / den := by
    rw [zpow_sub₀ (by norm_num : (2 : ℚ) ≠ 0), hl, zpow_one, div_div, div_lt_div_iff₀
      (by positivity) hdq]
    nlinarith
  have hhigh : (num : ℚ) / den < (2 : ℚ) ^ ((bitLen num : ℤ) - (bitLen den : ℤ) + 1) := by
    rw [zpow_add₀ (by norm_num : (2 : ℚ) ≠ 0), hl, zpow_one, div_mul_eq_mul_div,
      div_lt_div_iff₀ hdq hpd]
    nlinarith
  unfold binaryExponent
  simp only
  split_ifs with ht
  · refine ⟨?_, hhigh⟩
    rw [two_zpow_eq_div, div_le_div_iff₀ (by positivity) hdq]
    have : ((den * 2 ^ ((bitLen num : ℤ) - (bitLen den : ℤ)).toNat : ℕ) : ℚ) ≤
        ((num * 2 ^ (-((bitLen num : ℤ) - (bitLen den : ℤ))).toNat : ℕ) : ℚ) := by
      exact_mod_cast ht
    push_cast at this
    linarith
  · refine ⟨hlow.le, ?_⟩
    have e : (bitLen num : ℤ) - (bitLen den : ℤ) - 1 + 1 =
        (bitLen num : ℤ) - (bitLen den : ℤ) := by ring
    rw [e, two_zpow_eq_div, div_lt_div_iff₀ hdq (by positivity)]
    have : ((num * 2 ^ (-((bitLen num : ℤ) - (bitLen den : ℤ))).toNat : ℕ) : ℚ) <
        ((den * 2 ^ ((bitLen num : ℤ) - (bitLen den : ℤ)).toNat : ℕ) : ℚ) := by
      exact_mod_cast not_le.mp ht
    push_cast at this
    linarith

theorem binaryExponent_eq_log (num den : Nat) (hn : 0 < num) (hd : 0 < den) :
    binaryExponent num den = Int.log 2 ((num : ℚ) / den) := by
  obtain ⟨h1, h2⟩ := binaryExponent_bounds num den hn hd
  have hx : (0 : ℚ) < (num : ℚ) / den := by positivity
  exact (log2_eq_of_bounds _ _ hx h1 h2).symm

theorem floor_natCast_div (n d : ℕ) (hd : 0 < d) : ⌊(n : ℚ) / d⌋ = ((n / d : ℕ) : ℤ) := by
  rw [Int.floor_eq_iff]
  have hdq : (0 : ℚ) < d := by exact_mod_cast hd
  constructor
  · rw [le_div_iff₀ hdq]
    have : (n / d) * d ≤ n := Nat.div_mul_le_self n d
    exact_mod_cast this
  · rw [div_lt_iff₀ hdq]
    have : n < (n / d + 1) * d := by
      nlinarith [Nat.div_add_mod n d, Nat.mod_lt n hd]
    exact_mod_cast this

theorem roundHalfEven_eq (n d : ℕ) (hd : 0 < d) :
    ((roundHalfEven n d : ℕ) : ℤ) = roundHalfEvenQ ((n : ℚ) / d) := by
  have hdq : (0 : ℚ) < d := by exact_mod_cast hd
  have hfl := floor_natCast_div n d hd
  have hsplit : (n : ℚ) = ((n / d : ℕ) : ℚ) * d + ((n % d : ℕ) : ℚ) := by
    have := Nat.div_add_mod n d
    have h2 : ((d * (n / d) + n % d : ℕ) : ℚ) = (n : ℚ) := by rw [this]
    push_cast at h2
    linarith
  have hfrac : (n : ℚ) / d - ((⌊(n : ℚ) / d⌋ : ℤ) : ℚ) = ((n % d : ℕ) : ℚ) / d := by
    rw [hfl]
    simp only [Int.cast_natCast]
    field_simp
    linarith
  have c1 : ((n % d : ℕ) : ℚ) / d < 1 / 2 ↔ 2 * (n % d) < d := by
    rw [div_lt_div_iff₀ hdq (by norm_num)]
    constructor
    · intro h
      have : ((2 * (n % d) : ℕ) : ℚ) < (d : ℚ) := by push_cast; linarith
      exact_mod_cast this
    · intro h
      have : ((2 * (n % d) : ℕ) : ℚ) < (d : ℚ) := by exact_mod_cast h
      push_cast at this
      linarith
  have c2 : 1 / 2 < ((n % d : ℕ) : ℚ) / d ↔ d < 2 * (n % d) := by
    rw [div_lt_div_iff₀ (by norm_num) hdq]
    constructor
    · intro h
      have : (d : ℚ) < ((2 * (n % d) : ℕ) : ℚ) := by push_cast; linarith
      exact_mod_cast this
    · intro h
      have : (d : ℚ) < ((2 * (n % d) : ℕ) : ℚ) := by exact_mod_cast h
      push_cast at this
      linarith
  have c3 : ((n / d : ℕ) : ℤ) % 2 = 0 ↔ n / d % 2 = 0 := by omega
  unfold roundHalfEven roundHalfEvenQ
  rw [hfrac, hfl]
  simp only [c1, c2, c3]
  split_ifs <;> simp

/-- The pair `roundToF64 num den` stands for the rounding of `num / den`. -/
theorem roundToF64_toRat (num den : Nat) (hn : 0 < num) (hd : 0 < den) :
    ((roundToF64 num den).1 : ℚ) * (2 : ℚ) ^ (roundToF64 num den).2 =
      roundQ ((num : ℚ) / den) := by
  have hx : (0 : ℚ) < (num : ℚ) / den := by positivity
  rw [roundQ_of_pos _ hx, ← binaryExponent_eq_log num den hn hd]
  unfold roundToF64
  simp only
  generalize binaryExponent num den - 52 = e
  have hpos : 0 < den * 2 ^ e.toNat := by positivity
  have h1 := roundHalfEven_eq (num * 2 ^ (-e).toNat) (den * 2 ^ e.toNat) hpos
  have h2 : ((num * 2 ^ (-e).toNat : ℕ) : ℚ) / ((den * 2 ^ e.toNat : ℕ) : ℚ) =
      (num : ℚ) / den / (2 : ℚ) ^ e := by
    rw [two_zpow_eq_div e]
    push_cast
    field_simp
  rw [h2] at h1
  rw [← h1]
  push_cast
  rfl

theorem roundToF64_mantissa_pos (num den : Nat) (hn : 0 < num) (hd : 0 < den) :
    0 < (roundToF64 num den).1 := by
  have h := roundToF64_toRat num den hn hd
  have hp : (0 : ℚ) < roundQ ((num : ℚ) / den) := roundQ_pos _ (by positivity)
  rw [← h] at hp
  by_contra hcon
  have h0 : (roundToF64 num den).1 = 0 := by omega
  rw [h0] at hp
  simp at hp

theorem F64.ofInt64_pos (n : Nat) (hn : 0 < n) :
    ∃ m e, F64.ofInt64 n = F64.finite m e ∧ 0 < m ∧ (m : ℚ) * (2 : ℚ) ^ e = roundQ (n : ℚ) := by
  refine ⟨(roundToF64 n 1).1, (roundToF64 n 1).2, ?_, roundToF64_mantissa_pos n 1 hn (by norm_num),
    ?_⟩
  · unfold F64.ofInt64
    rw [if_neg (by omega)]
  · have := roundToF64_toRat n 1 hn (by norm_num)
    simpa using this

theorem F64.div_pos (m1 m2 : Nat) (e1 e2 : Int) (h1 : 0 < m1) (h2 : 0 < m2) :
    ∃ m e, F64.div (F64.finite m1 e1) (F64.finite m2 e2) = F64.finite m e ∧ 0 < m ∧
      (m : ℚ) * (2 : ℚ) ^ e =
        roundQ (((m1 : ℚ) * (2 : ℚ) ^ e1) / ((m2 : ℚ) * (2 : ℚ) ^ e2)) := by
  refine ⟨(roundToF64 m1 m2).1, (roundToF64 m1 m2).2 + e1 - e2, ?_,
    roundToF64_mantissa_pos m1 m2 h1 h2, ?_⟩
  · have h1n : m1 ≠ 0 := by omega
    have h2n : m2 ≠ 0 := by omega
    simp [F64.div, h1n, h2n]
  · have h := roundToF64_toRat m1 m2 h1 h2
    have hx : (0 : ℚ) < (m1 : ℚ) / m2 := by positivity
    have e : ((m1 : ℚ) * (2 : ℚ) ^ e1) / ((m2 : ℚ) * (2 : ℚ) ^ e2) =
        (m1 : ℚ) / m2 * (2 : ℚ) ^ (e1 - e2) := by
      rw [zpow_sub₀ (by norm_num : (2 : ℚ) ≠ 0)]
      field_simp
    rw [e, roundQ_mul_zpow _ _ hx, ← h]
    have e3 : (roundToF64 m1 m2).2 + e1 - e2 = (roundToF64 m1 m2).2 + (e1 - e2) := by ring
    rw [e3, zpow_add₀ (by norm_num : (2 : ℚ) ≠ 0)]
    ring

theorem F64.mul_pos (m1 m2 : Nat) (e1 e2 : Int) (h1 : 0 < m1) (h2 : 0 < m2) :
    ∃ m e, F64.mul (F64.finite m1 e1) (F64.finite m2 e2) = F64.finite m e ∧ 0 < m ∧
      (m : ℚ) * (2 : ℚ) ^ e =
        roundQ (((m1 : ℚ) * (2 : ℚ) ^ e1) * ((m2 : ℚ) * (2 : ℚ) ^ e2)) := by
  have hm : 0 < m1 * m2 := Nat.mul_pos h1 h2
  refine ⟨(roundToF64 (m1 * m2) 1).1, (roundToF64 (m1 * m2) 1).2 + e1 + e2, ?_,
    roundToF64_mantissa_pos (m1 * m2) 1 hm (by norm_num), ?_⟩
  · have h1n : m1 ≠ 0 := by omega
    have h2n : m2 ≠ 0 := by omega
    simp [F64.mul, h1n, h2n]
  · have h := roundToF64_toRat (m1 * m2) 1 hm (by norm_num)
    have hx : (0 : ℚ) < ((m1 * m2 : ℕ) : ℚ) := by exact_mod_cast hm
    have e : ((m1 : ℚ) * (2 : ℚ) ^ e1) * ((m2 : ℚ) * (2 : ℚ) ^ e2) =
        ((m1 * m2 : ℕ) : ℚ) * (2 : ℚ) ^ (e1 + e2) := by
      rw [zpow_add₀ (by norm_num : (2 : ℚ) ≠ 0)]
      push_cast
      ring
    rw [e, roundQ_mul_zpow _ _ hx]
    simp only [Nat.cast_one, div_one] at h
    rw [← h]
    have e3 : (roundToF64 (m1 * m2) 1).2 + e1 + e2 = (roundToF64 (m1 * m2) 1).2 + (e1 + e2) := by
      ring
    rw [e3, zpow_add₀ (by norm_num : (2 : ℚ) ≠ 0)]
    ring

theorem two_zpow_split (e mn : ℤ) (h : mn ≤ e) :
    (2 : ℚ) ^ e = (2 : ℚ) ^ (e - mn).toNat * (2 : ℚ) ^ mn := by
  have h2 : (((e - mn).toNat : ℕ) : ℤ) = e - mn := Int.toNat_of_nonneg (by omega)
  rw [← zpow_natCast, h2, ← zpow_add₀ (by norm_num : (2 : ℚ) ≠ 0)]
  congr 1
  ring

theorem F64.gt_finite (m1 m2 : Nat) (e1 e2 : Int) :
    F64.gt (F64.finite m1 e1) (F64.finite m2 e2) = true ↔
      (m2 : ℚ) * (2 : ℚ) ^ e2 < (m1 : ℚ) * (2 : ℚ) ^ e1 := by
  unfold F64.gt
  simp only [decide_eq_true_eq]
  have hp := two_zpow_pos (min e1 e2)
  rw [two_zpow_split e1 (min e1 e2) (min_le_left _ _),
    two_zpow_split e2 (min e1 e2) (min_le_right _ _), ← mul_assoc, ← mul_assoc,
    mul_lt_mul_right hp]
  constructor
  · intro h
    exact_mod_cast h
  · intro h
    exact_mod_cast h

theorem F64.toInt64_finite (indefinite : Int) (m : Nat) (e : Int)
    (h : (m : ℚ) * (2 : ℚ) ^ e < 2 ^ 63) :
    F64.toInt64 indefinite (F64.finite m e) = ⌊(m : ℚ) * (2 : ℚ) ^ e⌋ := by
  unfold F64.toInt64
  simp only
  rcases le_or_lt 0 e with he | he
  · rw [if_pos he]
    have h2 : ((e.toNat : ℕ) : ℤ) = e := Int.toNat_of_nonneg he
    have hv : (m : ℚ) * (2 : ℚ) ^ e = ((m * 2 ^ e.toNat : ℕ) : ℚ) := by
      push_cast
      rw [← zpow_natCast, h2]
    rw [hv] at h ⊢
    have hlt : m * 2 ^ e.toNat < 2 ^ 63 := by exact_mod_cast h
    rw [if_pos hlt]
    exact (Int.floor_natCast _).symm
  · rw [if_neg (not_le.mpr he)]
    have h2 : (((-e).toNat : ℕ) : ℤ) = -e := Int.toNat_of_nonneg (by omega)
    have hv : (m : ℚ) * (2 : ℚ) ^ e = (m : ℚ) / ((2 ^ (-e).toNat : ℕ) : ℚ) := by
      push_cast
      rw [← zpow_natCast, h2, zpow_neg, div_inv_eq_mul]
    have hpos : 0 < 2 ^ (-e).toNat := by positivity
    have hfl := floor_natCast_div m (2 ^ (-e).toNat) hpos
    rw [hv] at h ⊢
    rw [hfl]
    have hle : ((m / 2 ^ (-e).toNat : ℕ) : ℚ) ≤ (m : ℚ) / ((2 ^ (-e).toNat : ℕ) : ℚ) :=
      Nat.cast_div_le
    have hlt : m / 2 ^ (-e).toNat < 2 ^ 63 := by
      have : ((m / 2 ^ (-e).toNat : ℕ) : ℚ) < 2 ^ 63 := lt_of_le_of_lt hle h
      exact_mod_cast this
    rw [if_pos hlt]

theorem roundQ_one : roundQ 1 = 1 := by
  have := roundQ_exact 1 0 (by norm_num) (by norm_num)
  simpa using this

theorem roundQ_hundred : roundQ 100 = 100 := by
  have := roundQ_exact 100 0 (by norm_num) (by norm_num)
  simpa using this

theorem Float64.ofInt64_natCast (n : Nat) :
    Float64.ofInt64 (n : Int) = ⟨false, F64.ofInt64 n⟩ := by
  unfold Float64.ofInt64
  simp

/-- The per-class score of a request that is not negative, on the
magnitudes. -/
theorem usageScore_natCast (indefinite : Int) (request capacity : Nat) :
    usageScore indefinite (request : Int) capacity =
      F64.toInt64 indefinite (F64.mul
        (if F64.gt (F64.div (F64.ofInt64 request) (F64.ofInt64 capacity)) (F64.finite 1 0) = true
          then F64.finite 1 0 else F64.div (F64.ofInt64 request) (F64.ofInt64 capacity))
        (F64.finite 100 0)) := by
  unfold usageScore
  simp only [Float64.ofInt64_natCast, Float64.div, Float64.mul, Float64.gt, Bool.xor_false]
  split_ifs <;> simp [Float64.toInt64]

/-- The per-class score in closed form, for a positive request and a positive
capacity: convert both, divide, clamp to 1, multiply by 100, rounding to
`float64` after each step, and truncate. -/
theorem usageScore_eq (indefinite : Int) (request capacity : Nat) (hr : 0 < request)
    (hc : 0 < capacity) :
    usageScore indefinite request capacity =
      ⌊roundQ (min 1 (roundQ (roundQ (request : ℚ) / roundQ (capacity : ℚ))) * 100)⌋ := by
  obtain ⟨m1, e1, ha, hm1, hv1⟩ := F64.ofInt64_pos request hr
  obtain ⟨m2, e2, hb, hm2, hv2⟩ := F64.ofInt64_pos capacity hc
  obtain ⟨m3, e3, hd, hm3, hv3⟩ := F64.div_pos m1 m2 e1 e2 hm1 hm2
  rw [usageScore_natCast, ha, hb, hd]
  rw [hv1, hv2] at hv3
  have hfinal : ∀ (m4 : Nat) (e4 : Int), 0 < m4 → (m4 : ℚ) * (2 : ℚ) ^ e4 ≤ 1 →
      F64.toInt64 indefinite (F64.mul (F64.finite m4 e4) (F64.finite 100 0)) =
        ⌊roundQ ((m4 : ℚ) * (2 : ℚ) ^ e4 * 100)⌋ := by
    intro m4 e4 hm4 hle
    obtain ⟨m5, e5, hmul, hm5, hv5⟩ := F64.mul_pos m4 100 e4 0 hm4 (by norm_num)
    rw [hmul]
    have hv5b : (m5 : ℚ) * (2 : ℚ) ^ e5 = roundQ ((m4 : ℚ) * (2 : ℚ) ^ e4 * 100) := by
      rw [hv5]
      norm_num
    have hpos : (0 : ℚ) < (m4 : ℚ) * (2 : ℚ) ^ e4 * 100 := by positivity
    have hbound : roundQ ((m4 : ℚ) * (2 : ℚ) ^ e4 * 100) ≤ 100 := by
      have := roundQ_mono _ 100 hpos (by linarith)
      rw [roundQ_hundred] at this
      exact this
    rw [F64.toInt64_finite indefinite m5 e5 (by rw [hv5b]; linarith [hbound]), hv5b]
  by_cases hgt : F64.gt (F64.finite m3 e3) (F64.finite 1 0) = true
  · rw [if_pos hgt]
    have hlt := (F64.gt_finite m3 1 e3 0).mp hgt
    rw [hv3] at hlt
    simp only [Nat.cast_one, zpow_zero, mul_one] at hlt
    rw [min_eq_left hlt.le]
    have := hfinal 1 0 (by norm_num) (by norm_num)
    simpa using this
  · rw [if_neg hgt]
    have hle : ¬ ((1 : ℚ) < (m3 : ℚ) * (2 : ℚ) ^ e3) := by
      intro h
      apply hgt
      rw [F64.gt_finite]
      simpa using h
    rw [not_lt] at hle
    have := hfinal m3 e3 hm3 hle
    rw [this, hv3]
    rw [hv3] at hle
    rw [min_eq_right hle]

/-! ## The range and some values of the per-class score -/

theorem usageScore_zero_request (indefinite : Int) (capacity : Nat) (hc : 0 < capacity) :
    usageScore indefinite 0 capacity = 0 := by
  obtain ⟨m2, e2, hb, hm2, -⟩ := F64.ofInt64_pos capacity hc
  have hm2n : m2 ≠ 0 := by omega
  show usageScore indefinite ((0 : Nat) : Int) capacity = 0
  rw [usageScore_natCast, hb]
  have ha : F64.ofInt64 0 = F64.finite 0 0 := rfl
  rw [ha]
  have hd : F64.div (F64.finite 0 0) (F64.finite m2 e2) = F64.finite 0 0 := by
    simp [F64.div, hm2n]
  rw [hd]
  rfl

theorem usageScore_zero_capacity (indefinite : Int) (request : Nat) (hr : 0 < request) :
    usageScore indefinite request 0 = 100 := by
  obtain ⟨m1, e1, ha, hm1, -⟩ := F64.ofInt64_pos request hr
  have hm1n : m1 ≠ 0 := by omega
  rw [usageScore_natCast, ha]
  have hb : F64.ofInt64 0 = F64.finite 0 0 := rfl
  rw [hb]
  have hd : F64.div (F64.finite m1 e1) (F64.finite 0 0) = F64.inf := by
    simp [F64.div, hm1n]
  rw [hd]
  rfl

/-- The per-class score lies in 0..100 unless request and capacity are both
zero (the quotient is then `NaN`). -/
theorem usageScore_range (indefinite : Int) (request capacity : Nat)
    (h : ¬ (request = 0 ∧ capacity = 0)) :
    0 ≤ usageScore indefinite request capacity ∧ usageScore indefinite request capacity ≤ 100 := by
  rcases Nat.eq_zero_or_pos request with hr | hr
  · have hc : 0 < capacity := by
      rcases Nat.eq_zero_or_pos capacity with hc | hc
      · exact absurd ⟨hr, hc⟩ h
      · exact hc
    subst hr
    rw [Nat.cast_zero, usageScore_zero_request indefinite capacity hc]
    norm_num
  · rcases Nat.eq_zero_or_pos capacity with hc | hc
    · subst hc
      rw [usageScore_zero_capacity indefinite request hr]
      norm_num
    · rw [usageScore_eq indefinite request capacity hr hc]
      have hrq : (0 : ℚ) < roundQ (request : ℚ) := roundQ_pos _ (by exact_mod_cast hr)
      have hcq : (0 : ℚ) < roundQ (capacity : ℚ) := roundQ_pos _ (by exact_mod_cast hc)
      have hu : (0 : ℚ) < roundQ (roundQ (request : ℚ) / roundQ (capacity : ℚ)) :=
        roundQ_pos _ (div_pos hrq hcq)
      have hmin : (0 : ℚ) < min 1 (roundQ (roundQ (request : ℚ) / roundQ (capacity : ℚ))) :=
        lt_min (by norm_num) hu
      have hpos : (0 : ℚ) <
          min 1 (roundQ (roundQ (request : ℚ) / roundQ (capacity : ℚ))) * 100 := by positivity
      have hle : min 1 (roundQ (roundQ (request : ℚ) / roundQ (capacity : ℚ))) * 100 ≤ 100 := by
        have := min_le_left 1 (roundQ (roundQ (request : ℚ) / roundQ (capacity : ℚ)))
        linarith
      have h1 := roundQ_mono _ 100 hpos hle
      rw [roundQ_hundred] at h1
      have h2 := roundQ_pos _ hpos
      constructor
      · exact Int.floor_nonneg.mpr h2.le
      · have : ⌊roundQ (min 1 (roundQ (roundQ (request : ℚ) / roundQ (capacity : ℚ))) * 100)⌋ ≤
            ⌊(100 : ℚ)⌋ := Int.floor_mono h1
        have h100 : ⌊(100 : ℚ)⌋ = 100 := by norm_num
        rw [h100] at this
        exact this

theorem lastCapacity_of_all (node : Node) (className : String)
    (capacities : List CSIStorageCapacity) (v : Nat)
    (hex : ∃ record ∈ capacities, record.StorageClassName = className ∧
      nodeHasAccess node record = true)
    (hcap : ∀ record ∈ capacities, record.StorageClassName = className →
      nodeHasAccess node record = true → record.Capacity = some v) :
    hasMatch node className capacities = true ∧ lastCapacity node className capacities = v := by
  have hm : hasMatch node className capacities = true := (hasMatch_iff _ _ _).mpr hex
  refine ⟨hm, ?_⟩
  unfold lastCapacity
  cases hl : (capacities.filter (matchesRecord node className)).getLast? with
  | none =>
    rw [List.getLast?_eq_none_iff, ← hasMatch_eq_false_iff] at hl
    rw [hl] at hm
    exact absurd hm (by simp)
  | some record =>
    have hmem := List.mem_of_getLast?_eq_some hl
    obtain ⟨h1, h2⟩ := List.mem_filter.mp hmem
    have h3 : record.StorageClassName = className ∧ nodeHasAccess node record = true := by
      simpa [matchesRecord] using h2
    simp only
    rw [hcap record h1 h3.1 h3.2]
    rfl

theorem meanScore_singleton (s : Int) (h1 : 0 ≤ s) (h2 : s ≤ 100) : meanScore [s] = s := by
  rw [meanScore_of_range [s] (by simpa using ⟨h1, h2⟩) (by norm_num)]
  simp

/-- The score of a node for which exactly one class name is given, when
every matching record of that class holds the same capacity. -/
theorem calculateScore_single_class (indefinite : Int) (nodes : List Node) (className : String)
    (capacities : List CSIStorageCapacity) (claims : claimsByStorageClass)
    (res : List (String × Int)) (hn : (nodes.map Node.name).Nodup)
    (h : calculateScore indefinite nodes [className] capacities claims = .returns (.ok res))
    (node : Node) (hnode : node ∈ nodes) (request capacity : Nat)
    (hnz : ¬ (request = 0 ∧ capacity = 0))
    (cg : claimGroup) (hcg : claims.get className = some cg)
    (hreq : requestedBytes cg = request)
    (hex : ∃ record ∈ capacities, record.StorageClassName = className ∧
      nodeHasAccess node record = true)
    (hcap : ∀ record ∈ capacities, record.StorageClassName = className →
      nodeHasAccess node record = true → record.Capacity = some capacity) :
    res.lookup node.name = some (usageScore indefinite request capacity) := by
  obtain ⟨hm, hlast⟩ := lastCapacity_of_all node className capacities capacity hex hcap
  have hv := calculateScore_values indefinite nodes [className] capacities claims res hn
    (List.nodup_singleton _) h node hnode
  have hsc : scoredClasses node [className] capacities = [className] := by
    simp [scoredClasses, List.filter, hm]
  have hcs : classScore indefinite capacities claims node className =
      usageScore indefinite request capacity := by
    unfold classScore
    rw [hcg, hlast]
    simp [hreq]
  rw [hv, hsc]
  simp only [List.map_cons, List.map_nil, hcs]
  obtain ⟨h1, h2⟩ := usageScore_range indefinite request capacity hnz
  rw [meanScore_singleton _ h1 h2]
  simp

/-- C4 evaluated at a failing input: a summed request of 0 bytes against a
matching record of capacity 0 divides 0 by 0; the quotient `NaN` passes the
clamp `usage > 1`, and the score is whatever `int64(NaN)` is on the platform:
`-2^63` on amd64, which is outside 0..100.  `Filter` passes the node (0 bytes
fit in 0 bytes), and `Score` after `PreScore` returns that value. -/
theorem calculateScore_zero_request_zero_capacity :
    singlePairScore (-2 ^ 63) 0 0 = .returns (.ok [("zone-a-node-a", -2 ^ 63)]) ∧
    runCycle (newPluginTester [zoneCapacity "zone-a" 0]) (-2 ^ 63) (fun _ => 0) zeroState
        [zoneNode "zone-a"] =
      .returns ⟨[none], [zoneNode "zone-a"], none, [(-2 ^ 63, none)]⟩ ∧
    ¬ (0 ≤ (-2 ^ 63 : Int) ∧ (-2 ^ 63 : Int) ≤ 100) := by
  decide

theorem tdiv_sum_range (l : List Int) (h : ∀ x ∈ l, 0 ≤ x ∧ x ≤ 100) (hne : l ≠ []) :
    0 ≤ Int.tdiv l.sum l.length ∧ Int.tdiv l.sum l.length ≤ 100 := by
  have h1 := sum_le_of_forall_le l 100 (fun x hx => (h x hx).2)
  have h2 := sum_nonneg_of_forall_nonneg l (fun x hx => (h x hx).1)
  have hpos : (0 : Int) < l.length := by
    have := List.length_pos.mpr hne
    exact_mod_cast this
  rw [Int.tdiv_eq_ediv h2 hpos.le]
  constructor
  · exact Int.ediv_nonneg h2 hpos.le
  · apply Int.ediv_le_of_le_mul hpos
    linarith

/-- Away from the pair of a zero request and a zero capacity, and from the
negative requests that a wrapped sum gives, the scores are in range: over
nodes with distinct names and fewer than `2^56` distinct class names, when no
scored class of any node has a negative request or both a request of 0 and a
capacity of 0, every score in the result of `calculateScore` lies in
0..100. -/
theorem calculateScore_range (indefinite : Int) (nodes : List Node)
    (storageClassNames : List String) (capacities : List CSIStorageCapacity)
    (claims : claimsByStorageClass) (res : List (String × Int))
    (hn : (nodes.map Node.name).Nodup) (hs : storageClassNames.Nodup)
    (hlen : storageClassNames.length < 2 ^ 56)
    (h : calculateScore indefinite nodes storageClassNames capacities claims =
      .returns (.ok res))
    (hpair : ∀ node ∈ nodes, ∀ c ∈ scoredClasses node storageClassNames capacities,
      0 ≤ requestedBytes ((claims.get c).getD []) ∧
      ¬ (requestedBytes ((claims.get c).getD []) = 0 ∧ lastCapacity node c capacities = 0))
    (nm : String) (score : Int) (hscore : res.lookup nm = some score) :
    0 ≤ score ∧ score ≤ 100 := by
  have hkey : nm ∈ res.map Prod.fst :=
    List.mem_map.mpr ⟨(nm, score), mem_of_lookup_eq_some nm score res hscore, rfl⟩
  obtain ⟨node, hnode, hname, -⟩ :=
    (calculateScore_keys indefinite nodes storageClassNames capacities claims res h nm).mp hkey
  have hv := calculateScore_values indefinite nodes storageClassNames capacities claims res hn hs
    h node hnode
  rw [hname, hscore] at hv
  by_cases he : scoredClasses node storageClassNames capacities = []
  · rw [if_pos he] at hv
    simp at hv
  · rw [if_neg he] at hv
    simp only [Option.some.injEq] at hv
    have hrange : ∀ x ∈ (scoredClasses node storageClassNames capacities).map
        (classScore indefinite capacities claims node), 0 ≤ x ∧ x ≤ 100 := by
      intro x hx
      obtain ⟨c, hc, rfl⟩ := List.mem_map.mp hx
      obtain ⟨h0, hnz⟩ := hpair node hnode c hc
      obtain ⟨n, hn⟩ := Int.eq_ofNat_of_zero_le h0
      unfold classScore
      rw [hn] at hnz ⊢
      exact usageScore_range indefinite n _ (by
        rintro ⟨h1, h2⟩
        exact hnz ⟨by exact_mod_cast h1, h2⟩)
    have hlen2 : ((scoredClasses node storageClassNames capacities).map
        (classScore indefinite capacities claims node)).length < 2 ^ 56 := by
      rw [List.length_map]
      exact lt_of_le_of_lt (List.length_filter_le _ _) hlen
    rw [hv, meanScore_of_range _ hrange hlen2]
    exact tdiv_sum_range _ hrange (by simpa using he)

/-! ## When `calculateScore` succeeds -/

theorem findCapacity_succeeds (node : Node) (className : String)
    (capacities : List CSIStorageCapacity) (st : Bool × Nat)
    (h : ∀ record ∈ capacities, record.StorageClassName = className →
      nodeHasAccess node record = true → record.Capacity.isSome = true) :
    ∃ out, findCapacity node className capacities st = .returns out := by
  induction capacities generalizing st with
  | nil => exact ⟨st, rfl⟩
  | cons record rest ih =>
    have hrest := fun st2 => ih st2 (fun r hr => h r (List.mem_cons_of_mem _ hr))
    unfold findCapacity
    split_ifs with hm
    · have := h record (List.mem_cons_self _ _) hm.1 hm.2
      obtain ⟨v, hv⟩ := Option.isSome_iff_exists.mp this
      rw [hv]
      exact hrest (true, v)
    · exact hrest st

theorem insertAt_length_append {α : Type} (x : α) (a b : List α) :
    insertAt x a.length (a ++ b) = a ++ x :: b := by
  induction a with
  | nil => cases b <;> rfl
  | cons y ys ih => simp [insertAt, ih]

/-- Every order in which the entries of a map can be visited is the order
`rangeOrder seed` for some `seed`. -/
theorem rangeOrder_surjective {α : Type} (l visited : List α) (h : visited.Perm l) :
    ∃ seed, rangeOrder seed l = visited := by
  induction l generalizing visited with
  | nil =>
    rw [List.perm_nil] at h
    subst h
    exact ⟨0, rfl⟩
  | cons x xs ih =>
    have hx : x ∈ visited := h.symm.subset (List.mem_cons_self _ _)
    obtain ⟨a, b, rfl⟩ := List.append_of_mem hx
    have hab : (a ++ b).Perm xs := (List.perm_cons x).mp (List.perm_middle.symm.trans h)
    obtain ⟨seed, hseed⟩ := ih (a ++ b) hab
    have hlen : a.length < xs.length + 1 := by
      have := hab.length_eq
      rw [List.length_append] at this
      omega
    refine ⟨a.length + (xs.length + 1) * seed, ?_⟩
    simp only [rangeOrder]
    have h1 : (a.length + (xs.length + 1) * seed) % (xs.length + 1) = a.length := by
      rw [Nat.add_mul_mod_self_left]
      exact Nat.mod_eq_of_lt hlen
    have h2 : (a.length + (xs.length + 1) * seed) / (xs.length + 1) = seed := by
      rw [Nat.add_mul_div_left _ _ (by omega : 0 < xs.length + 1), Nat.div_eq_of_lt hlen]
      simp
    rw [h1, h2, hseed, insertAt_length_append]

/-! ## Topology matching -/

theorem requirementOfExpression_cases (expr : LabelSelectorRequirement) :
    (wellFormedExpression expr = false ∧ requirementOfExpression expr = none) ∨
    (wellFormedExpression expr = true ∧ ∃ r, requirementOfExpression expr = some r ∧
      ∀ ls, r.Matches ls = expressionSatisfied ls expr) := by
  obtain ⟨key, op, values⟩ := expr
  unfold wellFormedExpression requirementOfExpression
  by_cases hk : IsQualifiedName key = true ∧ values.all IsValidLabelValue = true
  · simp only [hk, and_self, if_true, Bool.and_self, Bool.true_and]
    cases op with
    | In =>
      cases values with
      | nil => exact Or.inl ⟨rfl, rfl⟩
      | cons v vs =>
        refine Or.inr ⟨rfl, _, rfl, ?_⟩
        intro ls
        simp only [Requirement.Matches, expressionSatisfied]
        cases ls.lookup key <;> rfl
    | NotIn =>
      cases values with
      | nil => exact Or.inl ⟨rfl, rfl⟩
      | cons v vs =>
        refine Or.inr ⟨rfl, _, rfl, ?_⟩
        intro ls
        simp only [Requirement.Matches, expressionSatisfied]
        cases ls.lookup key <;> rfl
    | Exists =>
      cases values with
      | nil =>
        refine Or.inr ⟨rfl, _, rfl, ?_⟩
        intro ls
        simp only [Requirement.Matches, expressionSatisfied, labelsHas]
      | cons v vs => exact Or.inl ⟨rfl, rfl⟩
    | DoesNotExist =>
      cases values with
      | nil =>
        refine Or.inr ⟨rfl, _, rfl, ?_⟩
        intro ls
        simp only [Requirement.Matches, expressionSatisfied, labelsHas]
        cases ls.lookup key <;> rfl
      | cons v vs => exact Or.inl ⟨rfl, rfl⟩
    | unknown op => exact Or.inl ⟨rfl, rfl⟩
  · refine Or.inl ⟨?_, ?_⟩
    · rw [Bool.and_eq_false_iff]
      left
      rw [← Bool.not_eq_true, Bool.and_eq_true]
      exact hk
    · simp only
      rw [if_neg hk]

theorem convertAll_expressions (exprs : List LabelSelectorRequirement) :
    (exprs.all wellFormedExpression = false ∧
      convertAll requirementOfExpression exprs = none) ∨
    (exprs.all wellFormedExpression = true ∧
      ∃ rs, convertAll requirementOfExpression exprs = some rs ∧
        ∀ ls, rs.all (Requirement.Matches ls) = exprs.all (expressionSatisfied ls)) := by
  induction exprs with
  | nil => exact Or.inr ⟨rfl, [], rfl, fun _ => rfl⟩
  | cons expr rest ih =>
    unfold convertAll
    rcases requirementOfExpression_cases expr with ⟨hw, hn⟩ | ⟨hw, r, hr, hm⟩
    · left
      rw [hn]
      exact ⟨by simp [hw], rfl⟩
    · rw [hr]
      simp only
      rcases ih with ⟨hws, hns⟩ | ⟨hws, rs, hrs, hms⟩
      · left
        rw [hns]
        exact ⟨by simp [hws], rfl⟩
      · right
        rw [hrs]
        refine ⟨by simp [hw, hws], r :: rs, rfl, ?_⟩
        intro ls
        simp only [List.all_cons, hm ls, hms ls]

theorem equals_Matches (ls : List (String × String)) (kv : String × String) :
    (Requirement.equals kv.1 kv.2).Matches ls = pairSatisfied ls kv := by
  simp only [Requirement.Matches, pairSatisfied]
  cases h : ls.lookup kv.1 with
  | none => simp
  | some v => simp

theorem convertAll_labels (pairs : List (String × String)) :
    (pairs.all wellFormedPair = false ∧ convertAll requirementOfLabel pairs = none) ∨
    (pairs.all wellFormedPair = true ∧
      ∃ rs, convertAll requirementOfLabel pairs = some rs ∧
        ∀ ls, rs.all (Requirement.Matches ls) = pairs.all (pairSatisfied ls)) := by
  induction pairs with
  | nil => exact Or.inr ⟨rfl, [], rfl, fun _ => rfl⟩
  | cons kv rest ih =>
    unfold convertAll
    by_cases hk : IsQualifiedName kv.1 = true ∧ IsValidLabelValue kv.2 = true
    · have hw : wellFormedPair kv = true := by
        unfold wellFormedPair
        rw [Bool.and_eq_true]
        exact hk
      have hf : requirementOfLabel kv = some (.equals kv.1 kv.2) := by
        unfold requirementOfLabel
        rw [if_pos hk]
      rw [hf]
      simp only
      rcases ih with ⟨hws, hns⟩ | ⟨hws, rs, hrs, hms⟩
      · left
        rw [hns]
        exact ⟨by simp [hws], rfl⟩
      · right
        rw [hrs]
        refine ⟨by simp [hw, hws], _, rfl, ?_⟩
        intro ls
        simp only [List.all_cons, equals_Matches, hms ls]
    · have hw : wellFormedPair kv = false := by
        unfold wellFormedPair
        rw [← Bool.not_eq_true, Bool.and_eq_true]
        exact hk
      have hf : requirementOfLabel kv = none := by
        unfold requirementOfLabel
        rw [if_neg hk]
      rw [hf]
      left
      exact ⟨by simp [hw], rfl⟩

/-- The outcome of `nodeHasAccess` for a record with a topology selector. -/
theorem nodeHasAccess_of_topology (node : Node) (record : CSIStorageCapacity)
    (sel : LabelSelector) (h : record.NodeTopology = some sel) :
    nodeHasAccess node record =
      (wellFormedSelector sel &&
        (sel.matchLabels.all (pairSatisfied node.labels) &&
          sel.matchExpressions.all (expressionSatisfied node.labels))) := by
  unfold nodeHasAccess LabelSelectorAsSelector wellFormedSelector
  rw [h]
  simp only
  rcases convertAll_labels sel.matchLabels with ⟨hw, hn⟩ | ⟨hw, ls, hl, hml⟩
  · rw [hn, hw]
    rfl
  · rw [hl, hw]
    simp only
    rcases convertAll_expressions sel.matchExpressions with ⟨hw2, hn2⟩ | ⟨hw2, rs, hr, hmr⟩
    · rw [hn2, hw2]
      rfl
    · rw [hr, hw2]
      simp only [selectorMatches, List.all_append, hml, hmr, Bool.and_self, Bool.true_and]

/-- C11 (amended): `nodeHasAccess` is false for every node when the record
carries no topology selector, and false when the selector is malformed, that
is when `metav1.LabelSelectorAsSelector` fails on it (a key that is no qualified
name, a value that is no label value, an unknown operator, `In` or `NotIn`
without values, `Exists` or `DoesNotExist` with values); for a well-formed
selector it is true exactly when the node's labels satisfy every `matchLabels`
pair and every `matchExpressions` requirement. -/
theorem nodeHasAccess_iff_selector_satisfied (node : Node) (record : CSIStorageCapacity) :
    (record.NodeTopology = none → nodeHasAccess node record = false) ∧
    (∀ sel, record.NodeTopology = some sel → wellFormedSelector sel = false →
      nodeHasAccess node record = false) ∧
    (∀ sel, record.NodeTopology = some sel → wellFormedSelector sel = true →
      (nodeHasAccess node record = true ↔
        (∀ kv ∈ sel.matchLabels, pairSatisfied node.labels kv = true) ∧
        ∀ expr ∈ sel.matchExpressions, expressionSatisfied node.labels expr = true)) := by
  refine ⟨?_, ?_, ?_⟩
  · intro h
    unfold nodeHasAccess
    rw [h]
  · intro sel h hw
    rw [nodeHasAccess_of_topology node record sel h, hw]
    rfl
  · intro sel h hw
    rw [nodeHasAccess_of_topology node record sel h, hw]
    simp only [Bool.true_and, Bool.and_eq_true, List.all_eq_true]

/-- C11 as stated fails on a malformed selector: the node of zone `zone-a`
satisfies the one requirement `topology.kubernetes.io/zone NotIn ()` of the
record (its zone is none of no values), and the record has no `matchLabels`
pair, yet `nodeHasAccess` is false because the selector does not convert. -/
theorem nodeHasAccess_false_on_malformed_selector :
    malformedTopologyRecord.NodeTopology =
      some ⟨[], [⟨"topology.kubernetes.io/zone", .NotIn, []⟩]⟩ ∧
    expressionSatisfied (zoneNode "zone-a").labels
      ⟨"topology.kubernetes.io/zone", .NotIn, []⟩ = true ∧
    nodeHasAccess (zoneNode "zone-a") malformedTopologyRecord = false := by
  decide

/-! ## The total of a claim group -/

theorem summedRequest_of_requests (cg : claimGroup) (requests : List Nat)
    (h : cg.map PersistentVolumeClaim.request =
      requests.map (fun n => some (Quantity.ofBytes n))) :
    (∀ claim ∈ cg, claim.request.isSome = true) ∧ summedRequest cg = requests.sum := by
  have hsum : (∀ claim ∈ cg, claim.request.isSome = true) ∧
      requestSum cg = Quantity.ofBytes requests.sum := by
    induction cg generalizing requests with
    | nil =>
      cases requests with
      | nil => simp [requestSum, Quantity.ofBytes]
      | cons r rs => simp at h
    | cons claim rest ih =>
      cases requests with
      | nil => simp at h
      | cons r rs =>
        simp only [List.map_cons, List.cons.injEq] at h
        obtain ⟨h1, h2⟩ := ih rs h.2
        refine ⟨?_, ?_⟩
        · intro c hc
          rcases List.mem_cons.mp hc with hc | hc
          · subst hc
            rw [h.1]
            rfl
          · exact h1 c hc
        · rw [requestSum_cons, h.1, h2]
          simp [Quantity.Add, Quantity.ofBytes, Nat.add_mul]
  refine ⟨hsum.1, ?_⟩
  unfold summedRequest
  rw [hsum.2, Quantity.roundedUp_ofBytes]

theorem totalFrom_error_iff (cg : claimGroup) (total : Quantity) :
    (∃ err, claimGroup.totalFrom total cg = .error err) ↔
      ∃ claim ∈ cg, claim.request = none := by
  induction cg generalizing total with
  | nil => simp [claimGroup.totalFrom]
  | cons claim rest ih =>
    unfold claimGroup.totalFrom
    cases hq : claim.request with
    | none =>
      simp only [List.mem_cons]
      exact ⟨fun _ => ⟨claim, Or.inl rfl, hq⟩, fun _ => ⟨_, rfl⟩⟩
    | some q =>
      simp only
      rw [ih (total.Add q)]
      constructor
      · rintro ⟨c, hc, hn⟩
        exact ⟨c, List.mem_cons_of_mem _ hc, hn⟩
      · rintro ⟨c, hc, hn⟩
        rcases List.mem_cons.mp hc with hc | hc
        · subst hc
          rw [hq] at hn
          simp at hn
        · exact ⟨c, hc, hn⟩

theorem totalRequiredCapacity_error_iff_missing (cg : claimGroup) :
    (∃ err, cg.totalRequiredCapacity = .error err) ↔ ∃ claim ∈ cg, claim.request = none :=
  totalFrom_error_iff cg ⟨0⟩

/-- C12 (amended): for a claim group in which every claim carries a storage
request and the requests sum to less than `2^63` bytes, `totalRequiredCapacity`
returns, without error, the sum of the requests of its members, rounded up to
a whole number of bytes: the sum in bytes of the requests when they are whole
numbers of bytes; for the empty group it is 0. -/
theorem totalRequiredCapacity_sums_requests (cg : claimGroup)
    (h : ∀ claim ∈ cg, claim.request.isSome = true) (hmax : summedRequest cg < 2 ^ 63) :
    cg.totalRequiredCapacity = .ok (summedRequest cg) ∧
    (∀ requests : List Nat,
      cg.map PersistentVolumeClaim.request =
        requests.map (fun n => some (Quantity.ofBytes n)) →
      cg.totalRequiredCapacity = .ok requests.sum) ∧
    claimGroup.totalRequiredCapacity [] = .ok 0 := by
  have hval : cg.totalRequiredCapacity = .ok (summedRequest cg) := by
    rw [totalRequiredCapacity_eq cg h, requestedBytes_of_lt cg hmax]
  refine ⟨hval, ?_, rfl⟩
  intro requests hreq
  obtain ⟨-, hs⟩ := summedRequest_of_requests cg requests hreq
  rw [hval, hs]

/-- Two claims of 20Gi and 10Gi make a group of 30Gi. -/
theorem totalRequiredCapacity_sums_requests_witness :
    (∀ claim ∈ multiClassClaims, claim.request.isSome = true) ∧
    summedRequest multiClassClaims < 2 ^ 63 ∧
    claimGroup.totalRequiredCapacity multiClassClaims = .ok (Gi 30) :=
  ⟨by decide, by decide,
    ((totalRequiredCapacity_sums_requests multiClassClaims (by decide) (by decide)).2.1
      [Gi 20, Gi 10] (by decide)).trans (by decide)⟩

/-- C12 as stated fails: two claims of `2^62` bytes each carry their requests,
the sum of the requests is `2^63` bytes, and `totalRequiredCapacity` returns
`-2^63`.  The total is rounded after the requests are added: two claims of
half a byte each give 1, one claim of half a byte gives 1 as well. -/
theorem totalRequiredCapacity_wraps_at_int64 :
    hugeClaims.map PersistentVolumeClaim.request =
      [2 ^ 62, 2 ^ 62].map (fun n => some (Quantity.ofBytes n)) ∧
    ([2 ^ 62, 2 ^ 62] : List Nat).sum = 2 ^ 63 ∧
    claimGroup.totalRequiredCapacity hugeClaims = .ok (-2 ^ 63) ∧
    claimGroup.totalRequiredCapacity [halfByteClaim, halfByteClaim] = .ok 1 ∧
    claimGroup.totalRequiredCapacity [halfByteClaim] = .ok 1 := by
  decide

/-- C13: `totalRequiredCapacity` returns an error exactly when some member of
the group has no storage request; it then returns no total at all, so a
missing request never counts as a request of zero bytes (a group of a zero
request succeeds with 0, a group of a missing request fails). -/
theorem totalRequiredCapacity_error_iff (cg : claimGroup) :
    ((∃ err, cg.totalRequiredCapacity = .error err) ↔ ∃ claim ∈ cg, claim.request = none) ∧
    ((∃ claim ∈ cg, claim.request = none) → ∀ n, cg.totalRequiredCapacity ≠ .ok n) ∧
    claimGroup.totalRequiredCapacity [zeroClaim] = .ok 0 ∧
    claimGroup.totalRequiredCapacity [claimWithoutRequest] =
      .error "claim pvc-b/default does't have a resource request" := by
  refine ⟨totalRequiredCapacity_error_iff_missing cg, ?_, by decide, by decide⟩
  intro hm n hn
  obtain ⟨err, he⟩ := (totalRequiredCapacity_error_iff_missing cg).mpr hm
  rw [he] at hn
  cases hn

/-! ## When grouping fails -/

theorem claimsByStorageClassFrom_error_iff (pl : StorageCapacityPrioritization)
    (rest : List PersistentVolumeClaim) (g : claimsByStorageClass)
    (hnamed : ∀ claim ∈ rest, claim.storageClassName ≠ none) :
    (∃ err, pl.claimsByStorageClassFrom g rest = .returns (.error err)) ↔
      ∃ claim ∈ rest, ∃ className e,
        claim.storageClassName = some className ∧ pl.classLister className = .error e := by
  induction rest generalizing g with
  | nil => simp [StorageCapacityPrioritization.claimsByStorageClassFrom]
  | cons c rest ih =>
    have hrest : ∀ claim ∈ rest, claim.storageClassName ≠ none :=
      fun claim hm => hnamed claim (List.mem_cons_of_mem _ hm)
    unfold StorageCapacityPrioritization.claimsByStorageClassFrom
    cases hn : c.storageClassName with
    | none => exact absurd hn (hnamed c (List.mem_cons_self _ _))
    | some k =>
      simp only
      cases hc : pl.classLister k with
      | error e =>
        simp only [List.mem_cons]
        exact ⟨fun _ => ⟨c, Or.inl rfl, k, e, hn, hc⟩, fun _ => ⟨_, rfl⟩⟩
      | ok cls =>
        simp only
        rw [ih _ hrest]
        constructor
        · rintro ⟨c1, hc1, he⟩
          exact ⟨c1, List.mem_cons_of_mem _ hc1, he⟩
        · rintro ⟨c1, hc1, k1, e, hk1, he⟩
          rcases List.mem_cons.mp hc1 with hc1 | hc1
          · subst hc1
            rw [hn] at hk1
            cases hk1
            rw [hc] at he
            cases he
          · exact ⟨c1, hc1, k1, e, hk1, he⟩

theorem claimsByStorageClass_error_iff_lookup (pl : StorageCapacityPrioritization)
    (claims : List PersistentVolumeClaim)
    (hnamed : ∀ claim ∈ claims, claim.storageClassName ≠ none) :
    (∃ err, pl.claimsByStorageClass claims = .returns (.error err)) ↔
      ∃ claim ∈ claims, ∃ className e,
        claim.storageClassName = some className ∧ pl.classLister className = .error e :=
  claimsByStorageClassFrom_error_iff pl claims [] hnamed

/-- The grouping loop panics at the first claim without a class name, when the
lookups for the claims before it succeed. -/
theorem claimsByStorageClassFrom_panics (pl : StorageCapacityPrioritization)
    (before : List PersistentVolumeClaim) (claim : PersistentVolumeClaim)
    (after : List PersistentVolumeClaim) (g : claimsByStorageClass)
    (hbefore : ∀ c ∈ before, ∃ className cls,
      c.storageClassName = some className ∧ pl.classLister className = .ok cls)
    (hnone : claim.storageClassName = none) :
    pl.claimsByStorageClassFrom g (before ++ claim :: after) = .panics nilDereference := by
  induction before generalizing g with
  | nil =>
    simp [StorageCapacityPrioritization.claimsByStorageClassFrom, hnone]
  | cons c rest ih =>
    obtain ⟨k, cls, hk, hcls⟩ := hbefore c (List.mem_cons_self _ _)
    rw [List.cons_append]
    unfold StorageCapacityPrioritization.claimsByStorageClassFrom
    simp only [hk, hcls]
    exact ih _ (fun c1 hc1 => hbefore c1 (List.mem_cons_of_mem _ hc1))

/-- The grouping loop returns the error of the first claim whose lookup fails,
when the lookups for the claims before it succeed. -/
theorem claimsByStorageClassFrom_error_of_first (pl : StorageCapacityPrioritization)
    (before : List PersistentVolumeClaim) (claim : PersistentVolumeClaim)
    (after : List PersistentVolumeClaim) (g : claimsByStorageClass)
    (hbefore : ∀ c ∈ before, ∃ className cls,
      c.storageClassName = some className ∧ pl.classLister className = .ok cls)
    (className : String) (e : ListerError) (hname : claim.storageClassName = some className)
    (herr : pl.classLister className = .error e) :
    pl.claimsByStorageClassFrom g (before ++ claim :: after) =
      .returns (.error ("failed to find storage class " ++ goQuote className)) := by
  induction before generalizing g with
  | nil =>
    simp [StorageCapacityPrioritization.claimsByStorageClassFrom, hname, herr]
  | cons c rest ih =>
    obtain ⟨k, cls, hk, hcls⟩ := hbefore c (List.mem_cons_self _ _)
    rw [List.cons_append]
    unfold StorageCapacityPrioritization.claimsByStorageClassFrom
    simp only [hk, hcls]
    exact ih _ (fun c1 hc1 => hbefore c1 (List.mem_cons_of_mem _ hc1))

theorem lookups_of_claimsByStorageClassFrom_ok (pl : StorageCapacityPrioritization)
    (rest : List PersistentVolumeClaim) (g groups : claimsByStorageClass)
    (h : pl.claimsByStorageClassFrom g rest = .returns (.ok groups)) :
    ∀ claim ∈ rest, ∃ className cls,
      claim.storageClassName = some className ∧ pl.classLister className = .ok cls := by
  induction rest generalizing g with
  | nil => simp
  | cons c rest ih =>
    unfold StorageCapacityPrioritization.claimsByStorageClassFrom at h
    cases hn : c.storageClassName with
    | none => simp [hn] at h
    | some k =>
      simp only [hn] at h
      cases hc : pl.classLister k with
      | error e => simp [hc] at h
      | ok cls =>
        simp only [hc] at h
        intro claim hm
        rcases List.mem_cons.mp hm with hm | hm
        · subst hm
          exact ⟨k, cls, hn, hc⟩
        · exact ih _ h claim hm

theorem lookups_of_claimsByStorageClass_ok (pl : StorageCapacityPrioritization)
    (claims : List PersistentVolumeClaim) (groups : claimsByStorageClass)
    (h : pl.claimsByStorageClass claims = .returns (.ok groups)) :
    ∀ claim ∈ claims, ∃ className cls,
      claim.storageClassName = some className ∧ pl.classLister className = .ok cls :=
  lookups_of_claimsByStorageClassFrom_ok pl claims [] groups h

theorem Grouped_of_claimsByStorageClass (pl : StorageCapacityPrioritization)
    (claims : List PersistentVolumeClaim) (groups : claimsByStorageClass)
    (h : pl.claimsByStorageClass claims = .returns (.ok groups)) : Grouped groups claims := by
  obtain ⟨g, hg, hgr⟩ := claimsByStorageClass_ok pl claims
    (lookups_of_claimsByStorageClass_ok pl claims groups h)
  rw [h] at hg
  cases hg
  exact hgr

/-- C14 at its failing input: `claimsByStorageClass` dereferences
`claim.Spec.StorageClassName` without a nil test.  For claims that all carry a
class name the claim holds: an error, and with it no groups, is returned
exactly when the lookup fails for the class name of some claim, whatever the
failure is, and groups are returned when every lookup succeeds.  At the first
claim without a class name, the lookups before it succeeding, the call
panics: for the one claim `unnamedClaim` no lookup fails, and neither groups
nor an error are returned; `Filter` and `PreScore` panic with it. -/
theorem claimsByStorageClass_panics_on_nil_class_name (pl : StorageCapacityPrioritization)
    (claims : List PersistentVolumeClaim) :
    ((∀ claim ∈ claims, claim.storageClassName ≠ none) →
      ((∃ err, pl.claimsByStorageClass claims = .returns (.error err)) ↔
        ∃ claim ∈ claims, ∃ className e,
          claim.storageClassName = some className ∧ pl.classLister className = .error e) ∧
      ((∀ claim ∈ claims, ∀ className, claim.storageClassName = some className →
          ∃ cls, pl.classLister className = .ok cls) →
        ∃ groups, pl.claimsByStorageClass claims = .returns (.ok groups))) ∧
    (∀ before claim after, claims = before ++ claim :: after →
      (∀ c ∈ before, ∃ className cls,
        c.storageClassName = some className ∧ pl.classLister className = .ok cls) →
      claim.storageClassName = none →
        pl.claimsByStorageClass claims = .panics nilDereference) ∧
    (newPluginTester []).claimsByStorageClass [e2eClaim, unknownClassClaim] =
      .returns (.error "failed to find storage class \"unknown-sc\"") ∧
    unnamedClaim.storageClassName = none ∧
    (newPluginTester e2eCapacities).claimsByStorageClass [unnamedClaim] =
      .panics nilDereference ∧
    ((newPluginTester e2eCapacities).Filter 0
      ((newPluginTester e2eCapacities).PreFilter unnamedState).2 (some (zoneNode "zone-a"))).1 =
      .panics nilDereference ∧
    (newPluginTester e2eCapacities).PreScore 0
      ((newPluginTester e2eCapacities).PreFilter unnamedState).2 [zoneNode "zone-a"] =
      .panics nilDereference := by
  refine ⟨?_, ?_, by decide, rfl, by decide, by decide, by decide⟩
  · intro hnamed
    refine ⟨claimsByStorageClass_error_iff_lookup pl claims hnamed, ?_⟩
    intro hl
    have hall : ∀ claim ∈ claims, ∃ className cls,
        claim.storageClassName = some className ∧ pl.classLister className = .ok cls := by
      intro claim hm
      cases hn : claim.storageClassName with
      | none => exact absurd hn (hnamed claim hm)
      | some k =>
        obtain ⟨cls, hcls⟩ := hl claim hm k hn
        exact ⟨k, cls, rfl, hcls⟩
    obtain ⟨groups, hg, -⟩ := claimsByStorageClass_ok pl claims hall
    exact ⟨groups, hg⟩
  · intro before claim after hsplit hbefore hnone
    subst hsplit
    exact claimsByStorageClassFrom_panics pl before claim after [] hbefore hnone

/-! ## Grouping is a partition -/

theorem appendClaim_flatMap_perm (k : String) (c : PersistentVolumeClaim)
    (g : claimsByStorageClass) :
    ((claimsByStorageClass.appendClaim k c g).flatMap Prod.snd).Perm
      (g.flatMap Prod.snd ++ [c]) := by
  induction g with
  | nil => simp [claimsByStorageClass.appendClaim]
  | cons kv rest ih =>
    obtain ⟨k1, cg⟩ := kv
    unfold claimsByStorageClass.appendClaim
    by_cases h : k1 = k
    · simp only [h, if_true, List.flatMap_cons, List.append_assoc]
      exact List.Perm.append_left cg List.perm_append_comm
    · simp only [h, if_false, List.flatMap_cons, List.append_assoc]
      exact List.Perm.append_left cg ih

theorem claimsByStorageClassFrom_perm (pl : StorageCapacityPrioritization)
    (rest pre : List PersistentVolumeClaim) (g groups : claimsByStorageClass)
    (hg : (g.flatMap Prod.snd).Perm pre)
    (h : pl.claimsByStorageClassFrom g rest = .returns (.ok groups)) :
    (groups.flatMap Prod.snd).Perm (pre ++ rest) := by
  induction rest generalizing pre g with
  | nil =>
    simp only [StorageCapacityPrioritization.claimsByStorageClassFrom, Run.returns.injEq,
      Except.ok.injEq] at h
    subst h
    simpa using hg
  | cons c rest ih =>
    unfold StorageCapacityPrioritization.claimsByStorageClassFrom at h
    cases hn : c.storageClassName with
    | none => simp [hn] at h
    | some k =>
      simp only [hn] at h
      cases hc : pl.classLister k with
      | error e => simp [hc] at h
      | ok cls =>
        simp only [hc] at h
        have := ih (pre ++ [c]) _
          ((appendClaim_flatMap_perm k c g).trans (List.Perm.append_right [c] hg)) h
        simpa using this

theorem length_flatMap_snd (groups : claimsByStorageClass) :
    (groups.flatMap Prod.snd).length = (groups.map (fun entry => entry.2.length)).sum := by
  induction groups with
  | nil => rfl
  | cons kv rest ih => simp [List.flatMap_cons, ih]

/-- C15: when `claimsByStorageClass` succeeds its result is a partition of
the input.  The keys are distinct; every group is non-empty and holds exactly
the input claims of its key's class, in input order; every input claim is in
the group keyed by its own class name and in no group of another key; the
groups taken together hold each input claim as often as the input does; and
the sizes of the groups sum to the number of input claims. -/
theorem claimsByStorageClass_partition (pl : StorageCapacityPrioritization)
    (claims : List PersistentVolumeClaim) (groups : claimsByStorageClass)
    (h : pl.claimsByStorageClass claims = .returns (.ok groups)) :
    (groups.map Prod.fst).Nodup ∧
    (∀ entry ∈ groups, entry.2 ≠ [] ∧ entry.2 = claimsOfClass entry.1 claims) ∧
    (∀ claim ∈ claims, ∃ className group, claim.storageClassName = some className ∧
      groups.get className = some group ∧ claim ∈ group) ∧
    (∀ entry ∈ groups, ∀ claim ∈ entry.2, claim.storageClassName = some entry.1) ∧
    (groups.flatMap Prod.snd).Perm claims ∧
    (groups.map (fun entry => entry.2.length)).sum = claims.length := by
  have hgr := Grouped_of_claimsByStorageClass pl claims groups h
  have hperm : (groups.flatMap Prod.snd).Perm claims := by
    have := claimsByStorageClassFrom_perm pl claims [] [] groups (by simp) h
    simpa using this
  refine ⟨hgr.1, ?_, ?_, ?_, hperm, ?_⟩
  · rintro ⟨k, cg⟩ hm
    obtain ⟨h1, h2⟩ := hgr.of_mem hm
    exact ⟨h2, h1⟩
  · intro claim hc
    obtain ⟨className, -, hname, -⟩ :=
      lookups_of_claimsByStorageClass_ok pl claims groups h claim hc
    refine ⟨className, claimsOfClass className claims, hname, ?_, ?_⟩
    · unfold claimsByStorageClass.get
      exact lookup_eq_some_of_mem _ _ _ hgr.1 (hgr.mem_of_class hc hname)
    · simp [claimsOfClass, hc, hname]
  · rintro ⟨k, cg⟩ hm claim hc
    obtain ⟨h1, -⟩ := hgr.of_mem hm
    simp only at hc ⊢
    rw [h1] at hc
    simpa [claimsOfClass] using (List.mem_filter.mp hc).2
  · rw [← length_flatMap_snd]
    exact hperm.length_eq

/-- Three claims, the first and the last of class `wait-sc`, are grouped into
`wait-sc` with two claims and `wait-hdd-sc` with one. -/
theorem claimsByStorageClass_partition_witness :
    (newPluginTester []).claimsByStorageClass mixedClaims =
      .returns (.ok
        [(waitSC.name, [(makePVC "pvc-a" waitSC.name).withRequestStorage (Gi 20), e2eClaim]),
          (waitHDDSC.name, [(makePVC "pvc-b" waitHDDSC.name).withRequestStorage (Gi 10)])]) ∧
    ([2, 1] : List Nat).sum = mixedClaims.length :=
  ⟨by decide,
    (claimsByStorageClass_partition (newPluginTester []) mixedClaims
      [(waitSC.name, [(makePVC "pvc-a" waitSC.name).withRequestStorage (Gi 20), e2eClaim]),
        (waitHDDSC.name, [(makePVC "pvc-b" waitHDDSC.name).withRequestStorage (Gi 10)])]
      (by decide)).2.2.2.2.2⟩

/-! ## Classes without capacity tracking -/

theorem hasEnoughCapacity_of_untracked (pl : StorageCapacityPrioritization) (node : Node)
    (className : String) (cg : claimGroup) (cls : StorageClass)
    (hcls : pl.classLister className = .ok cls) (hdrv : pl.driverUntracked cls = true) :
    pl.hasEnoughCapacity node className cg = .ok "" := by
  unfold StorageCapacityPrioritization.hasEnoughCapacity
  unfold StorageCapacityPrioritization.driverUntracked at hdrv
  rw [hcls]
  simp only
  cases hd : pl.csiDriverLister cls.Provisioner with
  | error err =>
    rw [hd] at hdrv
    simp only at hdrv
    simp only [hdrv, if_true]
  | ok driver =>
    rw [hd] at hdrv
    simp only [decide_eq_true_eq] at hdrv
    simp only
    rw [if_pos hdrv]

/-- C16: for every node, every storage class the class lister knows and every
claim group, if the class's driver record is not found, or its `StorageCapacity`
flag is unset or false, `hasEnoughCapacity` returns the empty reason and no
error, whatever the capacity lister returns (records or an error) and whatever
the claims request (the claim group is arbitrary, claims without a request
included). -/
theorem hasEnoughCapacity_passes_untracked_driver (pl : StorageCapacityPrioritization)
    (node : Node) (className : String) (cg : claimGroup) (cls : StorageClass)
    (hcls : pl.classLister className = .ok cls) (hdrv : pl.driverUntracked cls = true) :
    pl.hasEnoughCapacity node className cg = .ok "" :=
  hasEnoughCapacity_of_untracked pl node className cg cls hcls hdrv

/-- A driver with `StorageCapacity` false, no capacity record at all and a
claim without a request: the class passes. -/
theorem hasEnoughCapacity_passes_untracked_driver_witness :
    (untrackedPluginTester []).hasEnoughCapacity (zoneNode "zone-a") waitSC.name
      [claimWithoutRequest] = .ok "" :=
  hasEnoughCapacity_passes_untracked_driver (untrackedPluginTester []) (zoneNode "zone-a")
    waitSC.name [claimWithoutRequest] waitSC rfl (by decide)

/-! ## The reasons of a rejection -/

theorem enoughCapacityFound_eq_any (node : Node) (className : String) (sizeInBytes : Int)
    (capacities : List CSIStorageCapacity) :
    StorageCapacityPrioritization.enoughCapacityFound node className sizeInBytes capacities =
      capacities.any (fun record => decide (record.StorageClassName = className) &&
        (capacitySufficient record sizeInBytes && nodeHasAccess node record)) := by
  rw [Bool.eq_iff_iff, enoughCapacityFound_iff, List.any_eq_true]
  simp only [Bool.and_eq_true, decide_eq_true_eq]

theorem filterMap_eq_map_filter {α β : Type} (f : α → Option β) (p : α → Bool) (g : α → β)
    (l : List α) (h : ∀ a ∈ l, f a = if p a = true then some (g a) else none) :
    l.filterMap f = (l.filter p).map g := by
  induction l with
  | nil => rfl
  | cons a rest ih =>
    have ha := h a (List.mem_cons_self _ _)
    have hrest := ih (fun b hb => h b (List.mem_cons_of_mem _ hb))
    by_cases hp : p a = true
    · rw [if_pos hp] at ha
      rw [List.filterMap_cons_some ha, List.filter_cons_of_pos hp, List.map_cons, hrest]
    · rw [if_neg hp] at ha
      rw [List.filterMap_cons_none ha, List.filter_cons_of_neg hp, hrest]

/-- What a successful call of `hasEnoughCapacity` returns for a known class. -/
theorem hasEnoughCapacity_reason (pl : StorageCapacityPrioritization) (node : Node)
    (className : String) (cg : claimGroup) (cls : StorageClass) (reason : String)
    (hcls : pl.classLister className = .ok cls)
    (hr : pl.hasEnoughCapacity node className cg = .ok reason) :
    (pl.driverTracks cls = false ∧ reason = "") ∨
    (pl.driverTracks cls = true ∧ ∃ capacities, pl.listCapacities = .ok capacities ∧
      reason = if StorageCapacityPrioritization.enoughCapacityFound node className
          (requestedBytes cg) capacities = true then ""
        else StorageCapacityPrioritization.notEnoughReason node.name (requestedBytes cg)) := by
  unfold StorageCapacityPrioritization.hasEnoughCapacity at hr
  unfold StorageCapacityPrioritization.driverTracks
  rw [hcls] at hr
  simp only at hr
  cases hd : pl.csiDriverLister cls.Provisioner with
  | error err =>
    rw [hd] at hr
    simp only at hr
    by_cases hnf : IsNotFound err = true
    · rw [if_pos hnf] at hr
      cases hr
      exact Or.inl ⟨rfl, rfl⟩
    · rw [if_neg hnf] at hr
      cases hr
  | ok driver =>
    rw [hd] at hr
    simp only at hr
    by_cases hflag : driver.StorageCapacity = none ∨ driver.StorageCapacity = some false
    · rw [if_pos hflag] at hr
      cases hr
      refine Or.inl ⟨?_, rfl⟩
      rcases hflag with hflag | hflag <;> simp [hflag]
    · rw [if_neg hflag] at hr
      have htrue : driver.StorageCapacity = some true := by
        cases hf : driver.StorageCapacity with
        | none => exact absurd (Or.inl hf) hflag
        | some b =>
          cases b with
          | false => exact absurd (Or.inr hf) hflag
          | true => rfl
      refine Or.inr ⟨by simp [htrue], ?_⟩
      cases hc : pl.listCapacities with
      | error err =>
        rw [hc] at hr
        cases hr
      | ok capacities =>
        rw [hc] at hr
        simp only at hr
        cases ht : cg.totalRequiredCapacity with
        | error err =>
          rw [ht] at hr
          cases hr
        | ok sizeInBytes =>
          rw [ht] at hr
          simp only at hr
          have hs := totalRequiredCapacity_ok cg sizeInBytes ht
          rw [hs] at hr
          refine ⟨capacities, rfl, ?_⟩
          split_ifs at hr ⊢ with hfound
          · exact (Except.ok.inj hr).symm
          · exact (Except.ok.inj hr).symm

theorem hasEnoughCapacitiesFrom_all_ok (pl : StorageCapacityPrioritization) (node : Node)
    (entries : List (String × claimGroup)) (reasons out : List String)
    (h : pl.hasEnoughCapacitiesFrom node reasons entries = .ok out) :
    ∀ entry ∈ entries, ∃ reason, pl.hasEnoughCapacity node entry.1 entry.2 = .ok reason := by
  induction entries generalizing reasons with
  | nil => simp
  | cons entry rest ih =>
    obtain ⟨k, cg⟩ := entry
    unfold StorageCapacityPrioritization.hasEnoughCapacitiesFrom at h
    cases hr : pl.hasEnoughCapacity node k cg with
    | error err =>
      rw [hr] at h
      cases h
    | ok reason =>
      rw [hr] at h
      simp only at h
      intro entry he
      rcases List.mem_cons.mp he with he | he
      · subst he
        exact ⟨reason, hr⟩
      · split_ifs at h
        · exact ih _ h entry he
        · exact ih _ h entry he

/-- The reasons gathered for the groups of a node's claims, once some group
has given a reason: one per class with a shortfall, in the order visited. -/
theorem reasonsOf_eq_shortfalls (pl : StorageCapacityPrioritization) (node : Node)
    (claims : List PersistentVolumeClaim) (groups : claimsByStorageClass)
    (entries : List (String × claimGroup)) (capacities : List CSIStorageCapacity)
    (hg : pl.claimsByStorageClass claims = .returns (.ok groups))
    (hsub : ∀ entry ∈ entries, entry ∈ groups)
    (hcaps : pl.listCapacities = .ok capacities)
    (hok : ∀ entry ∈ entries, ∃ reason, pl.hasEnoughCapacity node entry.1 entry.2 = .ok reason) :
    pl.reasonsOf node entries =
      (entries.filter (fun entry =>
        pl.hasShortfall node capacities entry.1 (classRequest entry.1 claims))).map
        (fun entry => StorageCapacityPrioritization.notEnoughReason node.name
          (classRequest entry.1 claims)) := by
  have hgr := Grouped_of_claimsByStorageClass pl claims groups hg
  unfold StorageCapacityPrioritization.reasonsOf
  apply filterMap_eq_map_filter
  rintro ⟨k, cg⟩ he
  obtain ⟨hcg, -, claim, hclaim, hk⟩ := hgr.entry (hsub _ he)
  obtain ⟨k1, cls, hk1, hcls⟩ := lookups_of_claimsByStorageClass_ok pl claims groups hg claim
    hclaim
  have hkk : k = k1 := by
    rw [hk1] at hk
    exact (Option.some.inj hk).symm
  subst hkk
  obtain ⟨reason, hr⟩ := hok _ he
  simp only at hr
  have hsize : requestedBytes cg = classRequest k claims := by
    unfold classRequest
    rw [hcg]
  simp only [hr]
  unfold StorageCapacityPrioritization.hasShortfall
  simp only [hcls]
  rcases hasEnoughCapacity_reason pl node k cg cls reason hcls hr with
    ⟨ht, hreason⟩ | ⟨ht, caps, hc, hreason⟩
  · simp [ht, hreason]
  · rw [hcaps] at hc
    cases hc
    rw [ht, Bool.true_and, ← enoughCapacityFound_eq_any, ← hsize]
    by_cases hfound : StorageCapacityPrioritization.enoughCapacityFound node k
        (requestedBytes cg) capacities = true
    · rw [if_pos hfound] at hreason
      simp [hreason, hfound]
    · rw [if_neg hfound] at hreason
      have hne := notEnoughReason_ne_empty node.name (requestedBytes cg)
      simp [hfound, hne, hreason]

/-- What `Filter` returns, case by case. -/
theorem Filter_status_cases (pl : StorageCapacityPrioritization) (seed : Nat) (cs : CycleState)
    (node : Node) (st : Status)
    (h : (pl.Filter seed cs (some node)).1 = .returns (some st))
    (hcode : st.code ≠ Code.Error) :
    ∃ vb podVolume groups reasons,
      cs.volumeBinding = StateEntry.data vb ∧
      vb.GetPodVolumesByNodeName node.name = some podVolume ∧
      pl.claimsByStorageClass podVolume.DynamicProvisions = .returns (.ok groups) ∧
      pl.hasEnoughCapacities seed groups node = .ok reasons ∧
      reasons ≠ [] ∧ st = ⟨Code.UnschedulableAndUnresolvable, reasons⟩ := by
  rw [Filter_def] at h
  simp only at h
  unfold volumebindingGetStateData at h
  cases hvb : cs.volumeBinding with
  | absent =>
    rw [hvb] at h
    simp only [Run.returns.injEq, Option.some.injEq] at h
    subst h
    exact absurd rfl hcode
  | foreign =>
    rw [hvb] at h
    simp only [Run.returns.injEq, Option.some.injEq] at h
    subst h
    exact absurd rfl hcode
  | data vb =>
    rw [hvb] at h
    simp only at h
    cases hpv : vb.GetPodVolumesByNodeName node.name with
    | none =>
      rw [hpv] at h
      simp at h
    | some podVolume =>
      rw [hpv] at h
      simp only at h
      cases hg : pl.claimsByStorageClass podVolume.DynamicProvisions with
      | panics msg =>
        rw [hg] at h
        simp at h
      | returns grouped =>
        cases grouped with
        | error err =>
          rw [hg] at h
          simp only [Run.returns.injEq, Option.some.injEq] at h
          subst h
          exact absurd rfl hcode
        | ok groups =>
          rw [hg] at h
          simp only at h
          cases hr : pl.hasEnoughCapacities seed groups node with
          | error err =>
            rw [hr] at h
            simp only [Run.returns.injEq, Option.some.injEq] at h
            subst h
            exact absurd rfl hcode
          | ok reasons =>
            rw [hr] at h
            simp only at h
            by_cases hlen : reasons.length > 0
            · rw [if_pos hlen] at h
              simp only [Run.returns.injEq, Option.some.injEq] at h
              refine ⟨vb, podVolume, groups, reasons, rfl, hpv, hg, hr, ?_, ?_⟩
              · exact List.length_pos.mp hlen
              · rw [← h, foldl_AppendReason]
                simp [NewStatus]
            · rw [if_neg hlen] at h
              cases hs : getStateData cs with
              | error err =>
                rw [hs] at h
                simp only [Run.returns.injEq, Option.some.injEq] at h
                subst h
                exact absurd rfl hcode
              | ok state =>
                rw [hs] at h
                simp at h

theorem Grouped.mem_keys_iff {g : claimsByStorageClass} {claims : List PersistentVolumeClaim}
    (h : Grouped g claims) (className : String) :
    className ∈ g.map Prod.fst ↔
      ∃ claim ∈ claims, claim.storageClassName = some className := by
  have hl := h.2 className
  constructor
  · intro hm
    by_contra hcon
    have hnil : claimsOfClass className claims = [] := by
      unfold claimsOfClass
      rw [List.filter_eq_nil_iff]
      intro claim hc hcls
      exact hcon ⟨claim, hc, by simpa using hcls⟩
    rw [if_pos hnil, lookup_eq_none_iff] at hl
    exact hl hm
  · rintro ⟨claim, hc, hcls⟩
    by_contra hcon
    rw [← lookup_eq_none_iff, hl] at hcon
    have hne : claimsOfClass className claims ≠ [] := by
      intro e
      have hm : claim ∈ claimsOfClass className claims := by
        simp [claimsOfClass, hc, hcls]
      rw [e] at hm
      simp at hm
    rw [if_neg hne] at hcon
    simp at hcon

/-- The reasons of a rejection in terms of the `int64` request of each class,
as `total.Value()` gives it. -/
theorem Filter_rejection_reasons (pl : StorageCapacityPrioritization) (seed : Nat)
    (cs : CycleState) (node : Node) (st : Status)
    (h : (pl.Filter seed cs (some node)).1 = .returns (some st))
    (hcode : st.code ≠ Code.Error) :
    st.code = Code.UnschedulableAndUnresolvable ∧ st.reasons ≠ [] ∧
    ∃ vb podVolume groups capacities,
      cs.volumeBinding = StateEntry.data vb ∧
      vb.GetPodVolumesByNodeName node.name = some podVolume ∧
      pl.claimsByStorageClass podVolume.DynamicProvisions = .returns (.ok groups) ∧
      pl.listCapacities = .ok capacities ∧
      ((rangeOrder seed groups).map Prod.fst).Nodup ∧
      (∀ className, className ∈ (rangeOrder seed groups).map Prod.fst ↔
        ∃ claim ∈ podVolume.DynamicProvisions, claim.storageClassName = some className) ∧
      st.reasons =
        ((rangeOrder seed groups).filter (fun entry => pl.hasShortfall node capacities entry.1
          (classRequest entry.1 podVolume.DynamicProvisions))).map
          (fun entry =>
            "there is nothing enough capacities of csi storage capacity objects. node=" ++
              goQuote node.name ++ " sizeInBytes=" ++
              goDecimal (classRequest entry.1 podVolume.DynamicProvisions)) := by
  obtain ⟨vb, podVolume, groups, reasons, hvb, hpv, hg, hr, hne, hst⟩ :=
    Filter_status_cases pl seed cs node st h hcode
  subst hst
  refine ⟨rfl, hne, vb, podVolume, groups, ?_⟩
  unfold StorageCapacityPrioritization.hasEnoughCapacities at hr
  have hok := hasEnoughCapacitiesFrom_all_ok pl node _ _ _ hr
  rw [hasEnoughCapacitiesFrom_ok pl node _ [] hok] at hr
  simp only [List.nil_append, Except.ok.injEq] at hr
  have hgr := Grouped_of_claimsByStorageClass pl _ groups hg
  have hsub : ∀ entry ∈ rangeOrder seed groups, entry ∈ groups :=
    fun entry he => (mem_rangeOrder seed groups entry).mp he
  have hcaps : ∃ capacities, pl.listCapacities = .ok capacities := by
    obtain ⟨reason, rest, hreasons⟩ := List.exists_cons_of_ne_nil hne
    have hm : reason ∈ pl.reasonsOf node (rangeOrder seed groups) := by
      rw [hr, hreasons]
      exact List.mem_cons_self _ _
    unfold StorageCapacityPrioritization.reasonsOf at hm
    rw [List.mem_filterMap] at hm
    obtain ⟨⟨k, cg⟩, he, hf⟩ := hm
    obtain ⟨-, -, claim, hclaim, hk⟩ := hgr.entry (hsub _ he)
    obtain ⟨k1, cls, hk1, hcls⟩ :=
      lookups_of_claimsByStorageClass_ok pl _ groups hg claim hclaim
    have hkk : k = k1 := by
      rw [hk1] at hk
      exact (Option.some.inj hk).symm
    subst hkk
    obtain ⟨r, hrk⟩ := hok _ he
    simp only at hrk
    simp only [hrk] at hf
    rcases hasEnoughCapacity_reason pl node k cg cls r hcls hrk with
      ⟨-, hreason⟩ | ⟨-, caps, hc, -⟩
    · simp [hreason] at hf
    · exact ⟨caps, hc⟩
  obtain ⟨capacities, hc⟩ := hcaps
  refine ⟨capacities, hvb, hpv, hg, hc, ?_, ?_, ?_⟩
  · exact ((rangeOrder_perm seed groups).map Prod.fst).nodup_iff.mpr hgr.1
  · intro className
    rw [((rangeOrder_perm seed groups).map Prod.fst).mem_iff]
    exact hgr.mem_keys_iff className
  · rw [← hr]
    exact reasonsOf_eq_shortfalls pl node _ groups _ capacities hg hsub hc hok

/-- C17 (amended): when `Filter` returns a status that is not an error for a
node whose claims to provision have, for every storage class, a summed request
below `2^63` bytes, the node is rejected with the code
`UnschedulableAndUnresolvable`, and the reasons of the status are, over the
storage classes of the node's claims to provision (each visited once, in the
order of the map iteration), exactly one string per class with a capacity
shortfall and none for the classes that passed; the string of a class is
`there is nothing enough capacities of csi storage capacity objects.
node=<node name as %q renders it> sizeInBytes=<summed request of the class>`.
The node name is one of ASCII characters, on which `goQuote` is `%q`. -/
theorem Filter_rejection_lists_shortfalls (pl : StorageCapacityPrioritization) (seed : Nat)
    (cs : CycleState) (node : Node) (st : Status) (vb : VolumeBindingState)
    (podVolume : PodVolumes)
    (h : (pl.Filter seed cs (some node)).1 = .returns (some st)) (hcode : st.code ≠ Code.Error)
    (hvb : cs.volumeBinding = StateEntry.data vb)
    (hpv : vb.GetPodVolumesByNodeName node.name = some podVolume)
    (hbound : ∀ className, classSummedRequest className podVolume.DynamicProvisions < 2 ^ 63)
    (_hascii : asciiName node.name) :
    st.code = Code.UnschedulableAndUnresolvable ∧ st.reasons ≠ [] ∧
    ∃ groups capacities,
      pl.claimsByStorageClass podVolume.DynamicProvisions = .returns (.ok groups) ∧
      pl.listCapacities = .ok capacities ∧
      ((rangeOrder seed groups).map Prod.fst).Nodup ∧
      (∀ className, className ∈ (rangeOrder seed groups).map Prod.fst ↔
        ∃ claim ∈ podVolume.DynamicProvisions, claim.storageClassName = some className) ∧
      st.reasons =
        ((rangeOrder seed groups).filter (fun entry => pl.hasShortfall node capacities entry.1
          (classSummedRequest entry.1 podVolume.DynamicProvisions))).map
          (fun entry =>
            "there is nothing enough capacities of csi storage capacity objects. node=" ++
              goQuote node.name ++ " sizeInBytes=" ++
              goDecimal (classSummedRequest entry.1 podVolume.DynamicProvisions)) := by
  obtain ⟨h1, h2, vb1, podVolume1, groups, capacities, hvb1, hpv1, hg, hc, hnd, hkeys, hreasons⟩ :=
    Filter_rejection_reasons pl seed cs node st h hcode
  rw [hvb] at hvb1
  cases hvb1
  rw [hpv] at hpv1
  cases hpv1
  have hval : ∀ className, classRequest className podVolume.DynamicProvisions =
      (classSummedRequest className podVolume.DynamicProvisions : Int) :=
    fun className => requestedBytes_of_lt _ (hbound className)
  simp only [hval] at hreasons
  exact ⟨h1, h2, groups, capacities, hg, hc, hnd, hkeys, hreasons⟩

/-- The second node of the filter case with a shortfall of
`TestStorageCapacityPrioritizationFilter`: 50Gi requested, 49Gi on record. -/
theorem Filter_rejection_lists_shortfalls_witness :
    ((newPluginTester filterCapacities).Filter 0 filterState (some (zoneNode "zone-b"))).1 =
      .returns (some ⟨Code.UnschedulableAndUnresolvable,
        ["there is nothing enough capacities of csi storage capacity objects. " ++
          "node=\"zone-b-node-a\" sizeInBytes=53687091200"]⟩) ∧
    (⟨Code.UnschedulableAndUnresolvable,
        ["there is nothing enough capacities of csi storage capacity objects. " ++
          "node=\"zone-b-node-a\" sizeInBytes=53687091200"]⟩ : Status).code =
      Code.UnschedulableAndUnresolvable :=
  ⟨by decide,
    (Filter_rejection_lists_shortfalls (newPluginTester filterCapacities) 0 filterState
      (zoneNode "zone-b")
      ⟨Code.UnschedulableAndUnresolvable,
        ["there is nothing enough capacities of csi storage capacity objects. " ++
          "node=\"zone-b-node-a\" sizeInBytes=53687091200"]⟩
      filterVolumeBinding ⟨[filterClaim]⟩
      (by decide) (by decide) rfl (by decide)
      (by
        intro className
        by_cases hk : className = waitSC.name
        · subst hk
          decide
        · have : claimsOfClass className (PodVolumes.mk [filterClaim]).DynamicProvisions = [] := by
            simp [claimsOfClass, filterClaim, makePVC,
              PersistentVolumeClaim.withRequestStorage, Ne.symm hk]
          unfold classSummedRequest
          rw [this]
          decide)
      (by unfold asciiName; decide)).1⟩

/-- C17 as stated fails once the summed request of a class is not an `int64`.
Four claims of `2^62` bytes and one of 5 bytes sum to `2^64 + 5` bytes; the
node, whose one record holds one byte, is rejected with `sizeInBytes=5`.
And with two claims of `2^62` bytes of the class `wait-sc` beside a claim of
the class `wait-hdd-sc`, for which there is no record, the rejection carries
the one reason of `wait-hdd-sc`, although the summed request of `wait-sc`,
`2^63` bytes, exceeds the one byte on record: its `int64` value is `-2^63`. -/
theorem Filter_rejection_with_wrapped_request :
    classSummedRequest waitSC.name wrappedClaims = 2 ^ 64 + 5 ∧
    ((newPluginTester [zoneCapacity "zone-a" 1]).Filter 0
      ((newPluginTester [zoneCapacity "zone-a" 1]).PreFilter wrappedState).2
      (some (zoneNode "zone-a"))).1 =
      .returns (some ⟨Code.UnschedulableAndUnresolvable,
        ["there is nothing enough capacities of csi storage capacity objects. " ++
          "node=\"zone-a-node-a\" sizeInBytes=5"]⟩) ∧
    classSummedRequest waitSC.name hugeAndSmallClaims = 2 ^ 63 ∧
    (newPluginTester [zoneCapacity "zone-a" 1]).hasShortfall (zoneNode "zone-a")
      [zoneCapacity "zone-a" 1] waitSC.name
      (classSummedRequest waitSC.name hugeAndSmallClaims) = true ∧
    ((newPluginTester [zoneCapacity "zone-a" 1]).Filter 0
      ((newPluginTester [zoneCapacity "zone-a" 1]).PreFilter hugeAndSmallState).2
      (some (zoneNode "zone-a"))).1 =
      .returns (some ⟨Code.UnschedulableAndUnresolvable,
        ["there is nothing enough capacities of csi storage capacity objects. " ++
          "node=\"zone-a-node-a\" sizeInBytes=10737418240"]⟩) := by
  decide

/-! ## The class names recorded by a pass -/

/-- What `Filter` leaves behind when it passes a node that has pod volumes. -/
theorem Filter_pass_cases (pl : StorageCapacityPrioritization) (seed : Nat) (cs : CycleState)
    (node : Node) (vb : VolumeBindingState) (podVolume : PodVolumes)
    (hvb : cs.volumeBinding = StateEntry.data vb)
    (hpv : vb.GetPodVolumesByNodeName node.name = some podVolume)
    (hpass : (pl.Filter seed cs (some node)).1 = .returns none) :
    ∃ groups state,
      pl.claimsByStorageClass podVolume.DynamicProvisions = .returns (.ok groups) ∧
      pl.hasEnoughCapacities seed groups node = .ok [] ∧
      cs.plugin = StateEntry.data state ∧
      (pl.Filter seed cs (some node)).2 =
        ⟨cs.volumeBinding, .data ⟨groups.foldl (fun s kv => s.Insert kv.1) state.storageClassNames,
          state.scores⟩⟩ := by
  obtain ⟨vbEntry, plEntry⟩ := cs
  simp only at hvb
  subst hvb
  rw [Filter_def] at hpass ⊢
  unfold volumebindingGetStateData at hpass ⊢
  simp only [hpv] at hpass ⊢
  cases hg : pl.claimsByStorageClass podVolume.DynamicProvisions with
  | panics msg =>
    rw [hg] at hpass
    simp at hpass
  | returns grouped =>
    cases grouped with
    | error err =>
      rw [hg] at hpass
      simp at hpass
    | ok groups =>
      rw [hg] at hpass
      simp only at hpass ⊢
      cases hr : pl.hasEnoughCapacities seed groups node with
      | error err =>
        rw [hr] at hpass
        simp at hpass
      | ok reasons =>
        rw [hr] at hpass
        simp only at hpass ⊢
        by_cases hlen : reasons.length > 0
        · rw [if_pos hlen] at hpass
          simp at hpass
        · rw [if_neg hlen] at hpass ⊢
          have hnil : reasons = [] := by
            cases reasons with
            | nil => rfl
            | cons r rest => simp at hlen
          subst hnil
          unfold getStateData at hpass ⊢
          cases plEntry with
          | absent => simp at hpass
          | foreign => simp at hpass
          | data state => exact ⟨groups, state, rfl, hr, rfl, rfl⟩

/-- C18: when `Filter` passes a node that has pod volumes, the cycle state
held the plugin's state data, and afterwards it holds the state data whose
`storageClassNames` has as members exactly the members it had before and the
storage-class names of the node's claims to provision, and whose `scores` is
the one it had before; the entry of the volume-binding plugin is untouched. -/
theorem Filter_pass_merges_class_names (pl : StorageCapacityPrioritization) (seed : Nat)
    (cs : CycleState) (node : Node) (vb : VolumeBindingState) (podVolume : PodVolumes)
    (hvb : cs.volumeBinding = StateEntry.data vb)
    (hpv : vb.GetPodVolumesByNodeName node.name = some podVolume)
    (hpass : (pl.Filter seed cs (some node)).1 = .returns none) :
    ∃ before after,
      cs.plugin = StateEntry.data before ∧
      (pl.Filter seed cs (some node)).2 = ⟨cs.volumeBinding, .data after⟩ ∧
      after.scores = before.scores ∧
      ∀ name, name ∈ after.storageClassNames.List ↔
        name ∈ before.storageClassNames.List ∨
          ∃ claim ∈ podVolume.DynamicProvisions, claim.storageClassName = some name := by
  obtain ⟨groups, state, hg, -, hst, hres⟩ :=
    Filter_pass_cases pl seed cs node vb podVolume hvb hpv hpass
  refine ⟨state, _, hst, hres, rfl, ?_⟩
  intro name
  have hgr := Grouped_of_claimsByStorageClass pl _ groups hg
  simp only [StringSet.List]
  rw [foldl_Insert_mem, hgr.mem_keys_iff]

/-- The first node of the filter cases of
`TestStorageCapacityPrioritizationFilter`: the pass adds `wait-sc` to the empty
set of names and leaves `scores` unset. -/
theorem Filter_pass_merges_class_names_witness :
    (newPluginTester filterCapacities).Filter 0 filterState (some (zoneNode "zone-a")) =
      (.returns none,
        ⟨.data filterVolumeBinding, .data ⟨StringSet.NewString.Insert waitSC.name, none⟩⟩) ∧
    ∃ before after,
      filterState.plugin = StateEntry.data before ∧
      ((newPluginTester filterCapacities).Filter 0 filterState (some (zoneNode "zone-a"))).2 =
        ⟨filterState.volumeBinding, .data after⟩ ∧
      after.scores = before.scores ∧
      ∀ name, name ∈ after.storageClassNames.List ↔
        name ∈ before.storageClassNames.List ∨
          ∃ claim ∈ [filterClaim], claim.storageClassName = some name :=
  ⟨by decide,
    Filter_pass_merges_class_names (newPluginTester filterCapacities) 0 filterState
      (zoneNode "zone-a") filterVolumeBinding ⟨[filterClaim]⟩ rfl (by decide) (by decide)⟩

/-! ## Initialising the state -/

/-- C19: for every cycle state, `PreFilter` returns the nil status (success)
and leaves under the plugin's key state data freshly initialised, whatever was
stored there before (nothing, a value of another type, or earlier state data):
`storageClassNames` is the empty set and `scores` is unset.  The entry of the
volume-binding plugin is untouched.  The pod is not read. -/
theorem PreFilter_initialises_state (pl : StorageCapacityPrioritization) (cs : CycleState) :
    (pl.PreFilter cs).1 = none ∧
    (pl.PreFilter cs).2.plugin = StateEntry.data ⟨StringSet.NewString, none⟩ ∧
    getStateData (pl.PreFilter cs).2 = .ok ⟨StringSet.NewString, none⟩ ∧
    StringSet.NewString.List = [] ∧
    (pl.PreFilter cs).2.volumeBinding = cs.volumeBinding ∧
    (newPluginTester []).PreFilter usedState =
      (none, ⟨.data filterVolumeBinding, .data ⟨StringSet.NewString, none⟩⟩) := by
  refine ⟨rfl, rfl, rfl, rfl, rfl, by decide⟩

/-! ## `PreScore` and a claim of an unknown storage class -/

/-- C20 evaluated at a failing input: the one claim to bind names a storage
class that the class lister does not know, so `claimsByStorageClass` fails; no
class name has been recorded by `Filter`.  `PreScore` does not return the status
it builds from that failure: it goes on with the nil map of groups, and since
`calculateScore` has no class to visit it succeeds with the empty map, which
`PreScore` writes into `scores`, returning the nil status (success).  The whole
cycle ends the same way, `Score` giving 0 with a nil status.  When a class name
has been recorded and a capacity record matches, the nil map makes
`calculateScore` fail, with an error that names the known class. -/
theorem PreScore_succeeds_despite_unknown_class :
    (newPluginTester []).claimsByStorageClass unknownClassVolumeBinding.GetClaimsToBind =
      .returns (.error "failed to find storage class \"unknown-sc\"") ∧
    (newPluginTester []).PreScore 0 unknownClassState [zoneNode "zone-a"] =
      .returns (none, ⟨.data unknownClassVolumeBinding, .data ⟨StringSet.NewString, some []⟩⟩) ∧
    runCycle (newPluginTester []) 0 (fun _ => 0) ⟨.data unknownClassVolumeBinding, .absent⟩
        [zoneNode "zone-a"] =
      .returns ⟨[none], [zoneNode "zone-a"], none, [(0, none)]⟩ ∧
    (newPluginTester [zoneCapacity "zone-a" (Gi 10)]).PreScore 0 partlyUnknownState
        [zoneNode "zone-a"] =
      .returns (some ⟨Code.Error,
        ["failed to calcurate scores: storage class \"wait-sc\" is not found in claim groups"]⟩,
        partlyUnknownState) := by
  decide

/-! ## Errors of `Filter` -/

theorem claimsByStorageClassFrom_returns_of_named (pl : StorageCapacityPrioritization)
    (rest : List PersistentVolumeClaim) (g : claimsByStorageClass)
    (hnamed : ∀ claim ∈ rest, claim.storageClassName ≠ none) :
    ∃ r, pl.claimsByStorageClassFrom g rest = .returns r := by
  induction rest generalizing g with
  | nil => exact ⟨_, rfl⟩
  | cons c rest ih =>
    unfold StorageCapacityPrioritization.claimsByStorageClassFrom
    cases hn : c.storageClassName with
    | none => exact absurd hn (hnamed c (List.mem_cons_self _ _))
    | some k =>
      simp only
      cases hc : pl.classLister k with
      | error e => exact ⟨_, rfl⟩
      | ok cls => exact ih _ (fun claim hm => hnamed claim (List.mem_cons_of_mem _ hm))

/-- Grouping claims that all carry a class name returns: it does not panic. -/
theorem claimsByStorageClass_returns_of_named (pl : StorageCapacityPrioritization)
    (claims : List PersistentVolumeClaim)
    (hnamed : ∀ claim ∈ claims, claim.storageClassName ≠ none) :
    ∃ r, pl.claimsByStorageClass claims = .returns r :=
  claimsByStorageClassFrom_returns_of_named pl claims [] hnamed

theorem hasEnoughCapacitiesFrom_error_of_mem (pl : StorageCapacityPrioritization) (node : Node)
    (entries : List (String × claimGroup)) (reasons : List String) (entry : String × claimGroup)
    (he : entry ∈ entries) (err : String)
    (h : pl.hasEnoughCapacity node entry.1 entry.2 = .error err) :
    ∃ msg, pl.hasEnoughCapacitiesFrom node reasons entries = .error msg := by
  cases hr : pl.hasEnoughCapacitiesFrom node reasons entries with
  | error msg => exact ⟨msg, rfl⟩
  | ok out =>
    obtain ⟨reason, hreason⟩ := hasEnoughCapacitiesFrom_all_ok pl node entries reasons out hr entry he
    rw [h] at hreason
    cases hreason

/-- The status `Filter` returns, with the state untouched, when grouping the
claims fails or `hasEnoughCapacity` fails for one of the groups. -/
theorem Filter_error_of_failure (pl : StorageCapacityPrioritization) (seed : Nat)
    (cs : CycleState) (node : Node) (vb : VolumeBindingState) (podVolume : PodVolumes)
    (hvb : cs.volumeBinding = StateEntry.data vb)
    (hpv : vb.GetPodVolumesByNodeName node.name = some podVolume)
    (h : (∃ err, pl.claimsByStorageClass podVolume.DynamicProvisions = .returns (.error err)) ∨
      ∃ groups, pl.claimsByStorageClass podVolume.DynamicProvisions = .returns (.ok groups) ∧
        ∃ entry ∈ groups, ∃ err, pl.hasEnoughCapacity node entry.1 entry.2 = .error err) :
    ∃ msg, pl.Filter seed cs (some node) = (.returns (some ⟨Code.Error, [msg]⟩), cs) := by
  rw [Filter_def]
  unfold volumebindingGetStateData
  simp only [hvb, hpv]
  rcases h with ⟨err, hg⟩ | ⟨groups, hg, entry, he, err, hf⟩
  · rw [hg]
    exact ⟨err, rfl⟩
  · rw [hg]
    simp only
    obtain ⟨msg, hm⟩ := hasEnoughCapacitiesFrom_error_of_mem pl node (rangeOrder seed groups) []
      entry ((mem_rangeOrder seed groups entry).mpr he) err hf
    unfold StorageCapacityPrioritization.hasEnoughCapacities
    rw [hm]
    exact ⟨msg, rfl⟩

theorem driverTracks_iff (pl : StorageCapacityPrioritization) (cls : StorageClass) :
    pl.driverTracks cls = true ↔ pl.csiDriverLister cls.Provisioner = .ok ⟨some true⟩ := by
  unfold StorageCapacityPrioritization.driverTracks
  cases hd : pl.csiDriverLister cls.Provisioner with
  | error err => simp
  | ok driver =>
    obtain ⟨flag⟩ := driver
    simp

theorem hasEnoughCapacity_error_of_missing_request (pl : StorageCapacityPrioritization)
    (node : Node) (className : String) (cg : claimGroup) (cls : StorageClass)
    (hcls : pl.classLister className = .ok cls) (ht : pl.driverTracks cls = true)
    (hmiss : ∃ claim ∈ cg, claim.request = none) :
    ∃ err, pl.hasEnoughCapacity node className cg = .error err := by
  rw [driverTracks_iff] at ht
  obtain ⟨err, he⟩ := (totalRequiredCapacity_error_iff_missing cg).mpr hmiss
  unfold StorageCapacityPrioritization.hasEnoughCapacity
  rw [hcls]
  simp only
  rw [ht]
  simp only [reduceCtorEq, Option.some.injEq, Bool.true_eq_false, or_self, if_false]
  cases hc : pl.listCapacities with
  | error e => exact ⟨e, rfl⟩
  | ok capacities =>
    simp only
    rw [he]
    exact ⟨err, rfl⟩

/-- C21 (amended): when a claim to be dynamically provisioned on a node has no
storage request recorded and the driver of its storage class tracks capacity,
`Filter` fails that node with an Error status, neither a pass nor a capacity
rejection, and leaves the state as it was.  Every claim to provision on the
node carries a class name. -/
theorem Filter_errors_on_missing_request (pl : StorageCapacityPrioritization) (seed : Nat)
    (cs : CycleState) (node : Node) (vb : VolumeBindingState) (podVolume : PodVolumes)
    (claim : PersistentVolumeClaim)
    (hvb : cs.volumeBinding = StateEntry.data vb)
    (hpv : vb.GetPodVolumesByNodeName node.name = some podVolume)
    (hnamed : ∀ c ∈ podVolume.DynamicProvisions, c.storageClassName ≠ none)
    (hclaim : claim ∈ podVolume.DynamicProvisions) (hreq : claim.request = none)
    (htracks : ∀ className cls, claim.storageClassName = some className →
      pl.classLister className = .ok cls → pl.driverTracks cls = true) :
    ∃ msg, pl.Filter seed cs (some node) = (.returns (some ⟨Code.Error, [msg]⟩), cs) := by
  apply Filter_error_of_failure pl seed cs node vb podVolume hvb hpv
  obtain ⟨r, hg⟩ := claimsByStorageClass_returns_of_named pl _ hnamed
  cases r with
  | error err => exact Or.inl ⟨err, hg⟩
  | ok groups =>
    right
    refine ⟨groups, hg, ?_⟩
    have hgr := Grouped_of_claimsByStorageClass pl _ groups hg
    obtain ⟨className, cls, hname, hcls⟩ :=
      lookups_of_claimsByStorageClass_ok pl _ groups hg claim hclaim
    refine ⟨_, hgr.mem_of_class hclaim hname, ?_⟩
    apply hasEnoughCapacity_error_of_missing_request pl node _ _ cls hcls
      (htracks className cls hname hcls)
    exact ⟨claim, by simp [claimsOfClass, hclaim, hname], hreq⟩

/-- A claim of `wait-sc` without a request, the driver tracking capacity: the
node fails with the error of `totalRequiredCapacity`. -/
theorem Filter_errors_on_missing_request_witness :
    (newPluginTester []).Filter 0 noRequestState (some (zoneNode "zone-a")) =
      (.returns (some ⟨Code.Error, ["claim pvc-b/default does't have a resource request"]⟩),
        noRequestState) ∧
    ∃ msg, (newPluginTester []).Filter 0 noRequestState (some (zoneNode "zone-a")) =
      (.returns (some ⟨Code.Error, [msg]⟩), noRequestState) :=
  ⟨by decide,
    Filter_errors_on_missing_request (newPluginTester []) 0 noRequestState (zoneNode "zone-a")
      noRequestVolumeBinding ⟨[claimWithoutRequest]⟩ claimWithoutRequest rfl (by decide)
      (by decide) (by decide) rfl
      (by
        intro className cls hname hcls
        have hn : className = waitSC.name := (Option.some.inj hname).symm
        subst hn
        have : cls = waitSC := by
          have h2 : (newPluginTester []).classLister waitSC.name = .ok waitSC := by decide
          rw [h2] at hcls
          cases hcls
          rfl
        subst this
        decide)⟩

/-- C21 as stated fails when the driver does not track capacity: the same
claim without a request, with a driver whose `StorageCapacity` is false, passes
`Filter`, which records the class name. -/
theorem Filter_passes_missing_request_untracked_driver :
    claimWithoutRequest.request = none ∧
    (untrackedPluginTester []).Filter 0 noRequestState (some (zoneNode "zone-a")) =
      (.returns none, ⟨.data noRequestVolumeBinding,
        .data ⟨StringSet.NewString.Insert waitSC.name, none⟩⟩) := by
  decide

/-- Every reason of a rejection by `Filter` is the shortfall text for the node
and some number of bytes. -/
theorem Filter_rejection_reason_form (pl : StorageCapacityPrioritization) (seed : Nat)
    (cs : CycleState) (node : Node) (st : Status)
    (h : (pl.Filter seed cs (some node)).1 = .returns (some st))
    (hcode : st.code ≠ Code.Error)
    (reason : String) (hr : reason ∈ st.reasons) :
    ∃ n : Int, reason = StorageCapacityPrioritization.notEnoughReason node.name n := by
  obtain ⟨vb, podVolume, groups, reasons, -, -, hg, hres, -, hst⟩ :=
    Filter_status_cases pl seed cs node st h hcode
  subst hst
  simp only at hr
  unfold StorageCapacityPrioritization.hasEnoughCapacities at hres
  have hok := hasEnoughCapacitiesFrom_all_ok pl node _ _ _ hres
  rw [hasEnoughCapacitiesFrom_ok pl node _ [] hok] at hres
  simp only [List.nil_append, Except.ok.injEq] at hres
  rw [← hres] at hr
  unfold StorageCapacityPrioritization.reasonsOf at hr
  rw [List.mem_filterMap] at hr
  obtain ⟨⟨k, cg⟩, he, hf⟩ := hr
  have hgr := Grouped_of_claimsByStorageClass pl _ groups hg
  obtain ⟨-, -, claim, hclaim, hk⟩ := hgr.entry ((mem_rangeOrder seed groups _).mp he)
  obtain ⟨k1, cls, hk1, hcls⟩ := lookups_of_claimsByStorageClass_ok pl _ groups hg claim hclaim
  have hkk : k = k1 := by
    rw [hk1] at hk
    exact (Option.some.inj hk).symm
  subst hkk
  obtain ⟨r, hrk⟩ := hok _ he
  simp only at hrk
  simp only [hrk] at hf
  by_cases hne : r = ""
  · simp [hne] at hf
  · simp only [ne_eq, hne, not_false_eq_true, if_true, Option.some.injEq] at hf
    subst hf
    rcases hasEnoughCapacity_reason pl node k cg cls r hcls hrk with
      ⟨-, hreason⟩ | ⟨-, caps, -, hreason⟩
    · exact absurd hreason hne
    · split_ifs at hreason with hfound
      · exact absurd hreason hne
      · exact ⟨_, hreason⟩

theorem notEnoughReason_ne_classNotFound (nodeName : String) (n : Int) (className : String) :
    StorageCapacityPrioritization.notEnoughReason nodeName n ≠ classNotFoundReason className := by
  intro h
  have := congrArg String.toList h
  rw [notEnoughReason_toList] at this
  simp [classNotFoundReason, String.toList, String.data_append] at this

/-- C22: when a claim to be dynamically provisioned on a node names a storage
class that the class lookup does not resolve (the class lister being a function,
it answers the same way each time), every claim to provision on the node
carrying a class name, `Filter` returns an Error status for the node and
leaves the state as it was; and no status of `Filter` that is not an Error has
the reason `storage class <name> is not found` of `hasEnoughCapacity`. -/
theorem Filter_errors_on_unknown_class (pl : StorageCapacityPrioritization) (seed : Nat)
    (cs : CycleState) (node : Node) (vb : VolumeBindingState) (podVolume : PodVolumes)
    (claim : PersistentVolumeClaim) (className : String) (err : ListerError)
    (hvb : cs.volumeBinding = StateEntry.data vb)
    (hpv : vb.GetPodVolumesByNodeName node.name = some podVolume)
    (hnamed : ∀ c ∈ podVolume.DynamicProvisions, c.storageClassName ≠ none)
    (hclaim : claim ∈ podVolume.DynamicProvisions)
    (hname : claim.storageClassName = some className)
    (hcls : pl.classLister className = .error err) :
    (∃ msg, pl.Filter seed cs (some node) = (.returns (some ⟨Code.Error, [msg]⟩), cs)) ∧
    ∀ (seed2 : Nat) (cs2 : CycleState) (node2 : Node) (st : Status),
      (pl.Filter seed2 cs2 (some node2)).1 = .returns (some st) → st.code ≠ Code.Error →
        ∀ className, classNotFoundReason className ∉ st.reasons := by
  refine ⟨?_, ?_⟩
  · apply Filter_error_of_failure pl seed cs node vb podVolume hvb hpv
    left
    exact (claimsByStorageClass_error_iff_lookup pl _ hnamed).mpr
      ⟨claim, hclaim, className, err, hname, hcls⟩
  · intro seed2 cs2 node2 st h hcode className hmem
    obtain ⟨n, hn⟩ := Filter_rejection_reason_form pl seed2 cs2 node2 st h hcode _ hmem
    exact notEnoughReason_ne_classNotFound node2.name n className hn.symm

/-- A claim of `wait-sc` and a claim of an unknown class on the same node: the
node fails with the error of the grouping. -/
theorem Filter_errors_on_unknown_class_witness :
    (newPluginTester [zoneCapacity "zone-a" (Gi 10)]).Filter 0 unknownProvisionState
        (some (zoneNode "zone-a")) =
      (.returns (some ⟨Code.Error, ["failed to find storage class \"unknown-sc\""]⟩),
        unknownProvisionState) ∧
    ∃ msg, (newPluginTester [zoneCapacity "zone-a" (Gi 10)]).Filter 0 unknownProvisionState
        (some (zoneNode "zone-a")) =
          (.returns (some ⟨Code.Error, [msg]⟩), unknownProvisionState) :=
  ⟨by decide,
    (Filter_errors_on_unknown_class (newPluginTester [zoneCapacity "zone-a" (Gi 10)]) 0
      unknownProvisionState (zoneNode "zone-a") unknownProvisionVolumeBinding
      ⟨[e2eClaim, unknownClassClaim]⟩ unknownClassClaim "unknown-sc"
      (.notFound "storageclass.storage.k8s.io \"unknown-sc\" not found")
      rfl (by decide) (by decide) (by decide) (by decide) (by decide)).1⟩

theorem hasEnoughCapacity_classNotFound (pl : StorageCapacityPrioritization) (node : Node)
    (className : String) (cg : claimGroup) (msg : String)
    (h : pl.classLister className = .error (.notFound msg)) :
    pl.hasEnoughCapacity node className cg = .ok (classNotFoundReason className) := by
  unfold StorageCapacityPrioritization.hasEnoughCapacity
  rw [h]
  rfl

theorem hasEnoughCapacity_error_of_lookupBroken (pl : StorageCapacityPrioritization)
    (node : Node) (className : String) (cg : claimGroup) (cls : StorageClass)
    (hcls : pl.classLister className = .ok cls) (hb : pl.lookupBroken cls = true) :
    ∃ err, pl.hasEnoughCapacity node className cg = .error err := by
  unfold StorageCapacityPrioritization.lookupBroken at hb
  unfold StorageCapacityPrioritization.hasEnoughCapacity
  rw [hcls]
  simp only
  cases hd : pl.csiDriverLister cls.Provisioner with
  | error err =>
    rw [hd] at hb
    simp only [Bool.not_eq_true'] at hb
    simp only [hb, Bool.false_eq_true, if_false]
    exact ⟨_, rfl⟩
  | ok driver =>
    rw [hd] at hb
    simp only [Bool.and_eq_true, decide_eq_true_eq] at hb
    obtain ⟨hflag, hl⟩ := hb
    simp only [hflag, reduceCtorEq, Option.some.injEq, Bool.true_eq_false, or_self, if_false]
    unfold StorageCapacityPrioritization.listCapacities
    cases hc : pl.csiStorageCapacityLister with
    | ok capacities =>
      rw [hc] at hl
      simp at hl
    | error err =>
      rw [hc] at hl
      simp only [Bool.not_eq_true'] at hl
      simp only [hl, Bool.false_eq_true, if_false]
      exact ⟨_, rfl⟩

/-- C23: for a storage class the class lister knows, if the driver lookup
fails with an error other than not-found, or, the driver tracking capacity, the
capacity listing does, `hasEnoughCapacity` returns an error (and so no reason),
and `Filter` returns an Error status, leaving the state as it was, for every
node that would provision a claim of the class, the claims to provision on
the node all carrying a class name.  A not-found from the driver
lookup is no error: the class passes with the empty reason.  A not-found from
the capacity listing is no error either: the records are taken to be none, and
the class gets the shortfall reason. -/
theorem hasEnoughCapacity_lookup_errors (pl : StorageCapacityPrioritization) (node : Node)
    (className : String) (cg : claimGroup) (cls : StorageClass)
    (hcls : pl.classLister className = .ok cls) :
    (pl.lookupBroken cls = true → ∃ err, pl.hasEnoughCapacity node className cg = .error err) ∧
    (pl.lookupBroken cls = true →
      ∀ (seed : Nat) (cs : CycleState) (vb : VolumeBindingState) (podVolume : PodVolumes)
        (claim : PersistentVolumeClaim),
        cs.volumeBinding = StateEntry.data vb →
        vb.GetPodVolumesByNodeName node.name = some podVolume →
        (∀ c ∈ podVolume.DynamicProvisions, c.storageClassName ≠ none) →
        claim ∈ podVolume.DynamicProvisions → claim.storageClassName = some className →
          ∃ msg, pl.Filter seed cs (some node) = (.returns (some ⟨Code.Error, [msg]⟩), cs)) ∧
    ((∃ msg, pl.csiDriverLister cls.Provisioner = .error (.notFound msg)) →
      pl.hasEnoughCapacity node className cg = .ok "") ∧
    (pl.driverTracks cls = true →
      (∃ msg, pl.csiStorageCapacityLister = .error (.notFound msg)) →
      (∀ claim ∈ cg, claim.request.isSome = true) →
        pl.hasEnoughCapacity node className cg =
          .ok (StorageCapacityPrioritization.notEnoughReason node.name (requestedBytes cg))) := by
  refine ⟨?_, ?_, ?_, ?_⟩
  · exact hasEnoughCapacity_error_of_lookupBroken pl node className cg cls hcls
  · intro hb seed cs vb podVolume claim hvb hpv hnamed hclaim hk
    apply Filter_error_of_failure pl seed cs node vb podVolume hvb hpv
    obtain ⟨r, hg⟩ := claimsByStorageClass_returns_of_named pl _ hnamed
    cases r with
    | error err => exact Or.inl ⟨err, hg⟩
    | ok groups =>
      right
      refine ⟨groups, hg, ?_⟩
      have hgr := Grouped_of_claimsByStorageClass pl _ groups hg
      refine ⟨_, hgr.mem_of_class hclaim hk, ?_⟩
      exact hasEnoughCapacity_error_of_lookupBroken pl node className _ cls hcls hb
  · rintro ⟨msg, hd⟩
    apply hasEnoughCapacity_of_untracked pl node className cg cls hcls
    unfold StorageCapacityPrioritization.driverUntracked
    rw [hd]
    rfl
  · rintro ht ⟨msg, hl⟩ hreq
    rw [driverTracks_iff] at ht
    have hc : pl.listCapacities = .ok [] := by
      unfold StorageCapacityPrioritization.listCapacities
      rw [hl]
      rfl
    rw [hasEnoughCapacity_tracked pl node className cg cls [] hcls ht hc hreq]
    simp [StorageCapacityPrioritization.enoughCapacityFound]

/-- The driver lookup times out: `hasEnoughCapacity` fails for `wait-sc`, and
so does `Filter` for the node that would provision the 10Gi claim; the same
with a capacity listing that times out. -/
theorem hasEnoughCapacity_lookup_errors_witness :
    (brokenDriverTester []).hasEnoughCapacity (zoneNode "zone-a") waitSC.name [e2eClaim] =
      .error "failed to find csi driver object \"wait\" err=etcdserver: request timed out" ∧
    (∃ err, (brokenDriverTester []).hasEnoughCapacity (zoneNode "zone-a") waitSC.name
      [e2eClaim] = .error err) ∧
    (brokenDriverTester []).Filter 0 ⟨e2eState.volumeBinding, .data ⟨StringSet.NewString, none⟩⟩
        (some (zoneNode "zone-a")) =
      (.returns (some ⟨Code.Error,
        ["failed to find csi driver object \"wait\" err=etcdserver: request timed out"]⟩),
        ⟨e2eState.volumeBinding, .data ⟨StringSet.NewString, none⟩⟩) ∧
    brokenCapacityTester.Filter 0 ⟨e2eState.volumeBinding, .data ⟨StringSet.NewString, none⟩⟩
        (some (zoneNode "zone-a")) =
      (.returns (some ⟨Code.Error,
        ["failed to find csi storage capacities err=etcdserver: request timed out"]⟩),
        ⟨e2eState.volumeBinding, .data ⟨StringSet.NewString, none⟩⟩) ∧
    missingCapacityTester.hasEnoughCapacity (zoneNode "zone-a") waitSC.name [e2eClaim] =
      .ok ("there is nothing enough capacities of csi storage capacity objects. " ++
        "node=\"zone-a-node-a\" sizeInBytes=10737418240") :=
  ⟨by decide,
    (hasEnoughCapacity_lookup_errors (brokenDriverTester []) (zoneNode "zone-a") waitSC.name
      [e2eClaim] waitSC rfl).1 (by decide),
    by decide, by decide, by decide⟩

/-! ## Nodes without pod volumes -/

theorem Filter_of_no_podVolumes (pl : StorageCapacityPrioritization) (seed : Nat)
    (cs : CycleState) (node : Node) (vb : VolumeBindingState)
    (hvb : cs.volumeBinding = StateEntry.data vb)
    (hpv : vb.GetPodVolumesByNodeName node.name = none) :
    pl.Filter seed cs (some node) = (.returns none, cs) := by
  rw [Filter_def]
  unfold volumebindingGetStateData
  simp only [hvb, hpv]

/-- C30: for a node for which the volume-binding state holds no pod volumes,
`Filter` returns the nil status (pass) and the cycle state it was given, so no
storage-class name is added, whatever the listers hold (the plugin is
arbitrary). -/
theorem Filter_passes_without_podVolumes (pl : StorageCapacityPrioritization) (seed : Nat)
    (cs : CycleState) (node : Node) (vb : VolumeBindingState)
    (hvb : cs.volumeBinding = StateEntry.data vb)
    (hpv : vb.GetPodVolumesByNodeName node.name = none) :
    (pl.Filter seed cs (some node)).1 = .returns none ∧
      (pl.Filter seed cs (some node)).2 = cs := by
  rw [Filter_of_no_podVolumes pl seed cs node vb hvb hpv]
  exact ⟨rfl, rfl⟩

/-- The case `pod has not pvcs` of `TestStorageCapacityPrioritizationFilter`,
here with capacity records present. -/
theorem Filter_passes_without_podVolumes_witness :
    ((newPluginTester e2eCapacities).Filter 0 noVolumesState (some (makeNode "node-a"))).1 =
      .returns none ∧
    ((newPluginTester e2eCapacities).Filter 0 noVolumesState (some (makeNode "node-a"))).2 =
      noVolumesState :=
  Filter_passes_without_podVolumes (newPluginTester e2eCapacities) 0 noVolumesState
    (makeNode "node-a") ⟨[], []⟩ rfl rfl

/-! ## What `PreScore` changes -/

/-- The outcomes of `PreScore` when it returns. -/
theorem PreScore_cases (pl : StorageCapacityPrioritization) (indefinite : Int)
    (cs : CycleState) (nodes : List Node) (out : Option Status × CycleState)
    (h : pl.PreScore indefinite cs nodes = .returns out) :
    (∃ msg, out = (some ⟨Code.Error, [msg]⟩, cs)) ∨
    (out = (none, cs) ∧ ∃ vb, cs.volumeBinding = StateEntry.data vb ∧ vb.GetClaimsToBind = []) ∨
    (∃ vb state capacities scores,
      cs.volumeBinding = StateEntry.data vb ∧ vb.GetClaimsToBind ≠ [] ∧
      cs.plugin = StateEntry.data state ∧ pl.listCapacities = .ok capacities ∧
      calculateScore indefinite nodes state.storageClassNames.List capacities
        (pl.groupsOrNil vb.GetClaimsToBind) = .returns (.ok scores) ∧
      out = (none, ⟨cs.volumeBinding, .data ⟨state.storageClassNames, some scores⟩⟩)) := by
  obtain ⟨vbEntry, plEntry⟩ := cs
  rw [PreScore_def] at h
  unfold volumebindingGetStateData at h
  cases vbEntry with
  | absent =>
    simp only [Run.returns.injEq] at h
    exact Or.inl ⟨_, h.symm⟩
  | foreign =>
    simp only [Run.returns.injEq] at h
    exact Or.inl ⟨_, h.symm⟩
  | data vb =>
    simp only at h
    by_cases hlen : vb.GetClaimsToBind.length = 0
    · rw [if_pos hlen] at h
      simp only [Run.returns.injEq] at h
      exact Or.inr (Or.inl ⟨h.symm, vb, rfl, List.length_eq_zero.mp hlen⟩)
    · rw [if_neg hlen] at h
      cases hg : pl.claimsByStorageClass vb.GetClaimsToBind with
      | panics msg =>
        rw [hg] at h
        cases h
      | returns grouped =>
        rw [hg] at h
        simp only at h
        unfold getStateData at h
        cases plEntry with
        | absent =>
          simp only [Run.returns.injEq] at h
          exact Or.inl ⟨_, h.symm⟩
        | foreign =>
          simp only [Run.returns.injEq] at h
          exact Or.inl ⟨_, h.symm⟩
        | data state =>
          simp only at h
          cases hc : pl.listCapacities with
          | error err =>
            rw [hc] at h
            simp only [Run.returns.injEq] at h
            exact Or.inl ⟨_, h.symm⟩
          | ok capacities =>
            rw [hc] at h
            simp only at h
            cases hs : calculateScore indefinite nodes state.storageClassNames.List capacities
                (pl.groupsOrNil vb.GetClaimsToBind) with
            | panics msg =>
              rw [hs] at h
              cases h
            | returns r =>
              rw [hs] at h
              cases r with
              | error err =>
                simp only [Run.returns.injEq] at h
                exact Or.inl ⟨_, h.symm⟩
              | ok scores =>
                simp only [Run.returns.injEq] at h
                refine Or.inr (Or.inr
                  ⟨vb, state, capacities, scores, rfl, ?_, rfl, rfl, hs, h.symm⟩)
                exact fun e => hlen (by rw [e]; rfl)

/-- C29: when `PreScore` returns, it has changed nothing in the cycle state but
`scores`: the entry of the volume-binding plugin and `storageClassNames` are
the same after the call in every outcome.  A status it returns is an Error
status, and then, as when there are no claims to bind, the state is left as it
was.  On success with at least one claim to bind, `scores` becomes exactly the
map `calculateScore` returns for the given nodes, the listing of the recorded
`storageClassNames`, the listed capacity records and the map that grouping the
claims to bind gave (the groups when grouping succeeds). -/
theorem PreScore_changes_only_scores (pl : StorageCapacityPrioritization) (indefinite : Int)
    (cs : CycleState) (nodes : List Node) (out : Option Status × CycleState)
    (h : pl.PreScore indefinite cs nodes = .returns out) :
    out.2.volumeBinding = cs.volumeBinding ∧
    (out.2 = cs ∨ ∃ state scores, cs.plugin = StateEntry.data state ∧
      out.2.plugin = StateEntry.data ⟨state.storageClassNames, some scores⟩) ∧
    (∀ st, out.1 = some st → st.code = Code.Error ∧ out.2 = cs) ∧
    (∀ vb, cs.volumeBinding = StateEntry.data vb → vb.GetClaimsToBind = [] →
      out = (none, cs)) ∧
    (∀ vb, cs.volumeBinding = StateEntry.data vb → vb.GetClaimsToBind ≠ [] → out.1 = none →
      ∃ state capacities scores,
        cs.plugin = StateEntry.data state ∧ pl.listCapacities = .ok capacities ∧
        calculateScore indefinite nodes state.storageClassNames.List capacities
          (pl.groupsOrNil vb.GetClaimsToBind) = .returns (.ok scores) ∧
        out.2.plugin = StateEntry.data ⟨state.storageClassNames, some scores⟩) ∧
    (∀ claims groups, pl.claimsByStorageClass claims = .returns (.ok groups) →
      pl.groupsOrNil claims = groups) := by
  have hgroups : ∀ claims groups, pl.claimsByStorageClass claims = .returns (.ok groups) →
      pl.groupsOrNil claims = groups := by
    intro claims groups hg
    unfold StorageCapacityPrioritization.groupsOrNil
    rw [hg]
  rcases PreScore_cases pl indefinite cs nodes out h with
    ⟨msg, hout⟩ | ⟨hout, vb0, hvb0, hnil⟩ | ⟨vb0, state, capacities, scores, hvb0, hne, hst, hc, hs, hout⟩
  · subst hout
    refine ⟨rfl, Or.inl rfl, ?_, ?_, ?_, hgroups⟩
    · intro st hst
      simp only [Option.some.injEq] at hst
      subst hst
      exact ⟨rfl, rfl⟩
    · intro vb hvb hnil
      exfalso
      rw [PreScore_def] at h
      unfold volumebindingGetStateData at h
      simp only [hvb, hnil, List.length_nil, if_true, Run.returns.injEq, Prod.mk.injEq,
        reduceCtorEq, false_and] at h
    · intro vb hvb hne hnone
      simp at hnone
  · subst hout
    refine ⟨rfl, Or.inl rfl, ?_, ?_, ?_, hgroups⟩
    · intro st hst
      simp at hst
    · intro vb hvb hnil2
      rfl
    · intro vb hvb hne hnone
      rw [hvb0] at hvb
      cases hvb
      exact absurd hnil hne
  · subst hout
    refine ⟨rfl, Or.inr ⟨state, scores, hst, rfl⟩, ?_, ?_, ?_, hgroups⟩
    · intro st hst2
      simp at hst2
    · intro vb hvb hnil
      rw [hvb0] at hvb
      cases hvb
      exact absurd hnil hne
    · intro vb hvb hne2 hnone
      rw [hvb0] at hvb
      cases hvb
      exact ⟨state, capacities, scores, hst, hc, hs, rfl⟩

/-- The case with two storage classes of
`TestStorageCapacityPrioritizationPreScore`: the names stay, every node gets
the score 30. -/
theorem PreScore_changes_only_scores_witness :
    (newPluginTester multiClassCapacities).PreScore 0 multiClassState preScoreNodes =
      .returns (none, ⟨multiClassState.volumeBinding,
        .data ⟨(StringSet.NewString.Insert waitSC.name).Insert waitHDDSC.name,
          some [("zone-a-node-a", 30), ("zone-b-node-a", 30), ("zone-c-node-a", 30)]⟩⟩) ∧
    (⟨multiClassState.volumeBinding,
        .data ⟨(StringSet.NewString.Insert waitSC.name).Insert waitHDDSC.name,
          some [("zone-a-node-a", 30), ("zone-b-node-a", 30), ("zone-c-node-a", 30)]⟩⟩ :
      CycleState).volumeBinding = multiClassState.volumeBinding :=
  ⟨by decide,
    (PreScore_changes_only_scores (newPluginTester multiClassCapacities) 0 multiClassState
      preScoreNodes
      (none, ⟨multiClassState.volumeBinding,
        .data ⟨(StringSet.NewString.Insert waitSC.name).Insert waitHDDSC.name,
          some [("zone-a-node-a", 30), ("zone-b-node-a", 30), ("zone-c-node-a", 30)]⟩⟩)
      (by decide)).1⟩

/-! ## The per-class score: truncation and the cap -/

theorem classScore_eq (indefinite : Int) (capacities : List CSIStorageCapacity)
    (claims : claimsByStorageClass) (node : Node) (className : String) :
    classScore indefinite capacities claims node className =
      usageScore indefinite (requestedBytes ((claims.get className).getD []))
        (lastCapacity node className capacities) := rfl

theorem usageScore_of_capacity_le (indefinite : Int) (r c : Nat) (hc : 0 < c) (hle : c ≤ r) :
    usageScore indefinite r c = 100 := by
  have hr : 0 < r := lt_of_lt_of_le hc hle
  rw [usageScore_eq indefinite r c hr hc]
  have hcq : (0 : ℚ) < (c : ℚ) := by exact_mod_cast hc
  have hrc : roundQ (c : ℚ) ≤ roundQ (r : ℚ) := roundQ_mono _ _ hcq (by exact_mod_cast hle)
  have hcpos : (0 : ℚ) < roundQ (c : ℚ) := roundQ_pos _ hcq
  have hq : (1 : ℚ) ≤ roundQ (r : ℚ) / roundQ (c : ℚ) := by
    rw [le_div_iff₀ hcpos]
    linarith
  have hu : (1 : ℚ) ≤ roundQ (roundQ (r : ℚ) / roundQ (c : ℚ)) := by
    have := roundQ_mono 1 _ (by norm_num) hq
    rwa [roundQ_one] at this
  rw [min_eq_left hu, one_mul, roundQ_hundred]
  norm_num

/-- C25 (amended): for every (node, storage class) pair whose capacity used
for scoring is `c > 0` and whose summed request `r` is at least `c` and below
`2^63` bytes, the per-class utilisation score is exactly 100, however far the
request exceeds the capacity, and it is the score of a node whose only scored
class it is; with a positive capacity the per-class score of a request that is
not negative never exceeds 100. -/
theorem classScore_capped_at_hundred (indefinite : Int) (nodes : List Node)
    (className : String) (capacities : List CSIStorageCapacity) (claims : claimsByStorageClass)
    (res : List (String × Int)) (hn : (nodes.map Node.name).Nodup)
    (h : calculateScore indefinite nodes [className] capacities claims = .returns (.ok res))
    (node : Node) (hnode : node ∈ nodes) (r c : Nat) (hc : 0 < c) (hle : c ≤ r)
    (cg : claimGroup) (hcg : claims.get className = some cg) (hsum : summedRequest cg = r)
    (hmax : r < 2 ^ 63)
    (hex : ∃ record ∈ capacities, record.StorageClassName = className ∧
      nodeHasAccess node record = true)
    (hcap : ∀ record ∈ capacities, record.StorageClassName = className →
      nodeHasAccess node record = true → record.Capacity = some c) :
    classScore indefinite capacities claims node className = 100 ∧
    res.lookup node.name = some 100 ∧
    ∀ request : Nat, usageScore indefinite request c ≤ 100 := by
  have hlast := (lastCapacity_of_all node className capacities c hex hcap).2
  have hreq : requestedBytes cg = r := by
    rw [requestedBytes_of_lt cg (by rw [hsum]; exact hmax), hsum]
  refine ⟨?_, ?_, ?_⟩
  · rw [classScore_eq, hcg, hlast]
    simp only [Option.getD_some, hreq]
    exact usageScore_of_capacity_le indefinite r c hc hle
  · rw [calculateScore_single_class indefinite nodes className capacities claims res hn h node
      hnode r c (by omega) cg hcg hreq hex hcap]
    rw [usageScore_of_capacity_le indefinite r c hc hle]
  · intro request
    exact (usageScore_range indefinite request c (by omega)).2

/-- A request of 30Gi against a capacity of 10Gi scores 100. -/
theorem classScore_capped_at_hundred_witness :
    singlePairScore 0 (Gi 30) (Gi 10) = .returns (.ok [("zone-a-node-a", 100)]) ∧
    [("zone-a-node-a", (100 : Int))].lookup "zone-a-node-a" = some 100 :=
  ⟨by decide,
    (classScore_capped_at_hundred 0 [zoneNode "zone-a"] waitSC.name
      [zoneCapacity "zone-a" (Gi 10)]
      [(waitSC.name, [(makePVC "pvc-a" waitSC.name).withRequestStorage (Gi 30)])]
      [("zone-a-node-a", 100)] (by decide) (by decide) (zoneNode "zone-a") (by decide)
      (Gi 30) (Gi 10) (by decide) (by decide)
      [(makePVC "pvc-a" waitSC.name).withRequestStorage (Gi 30)] (by decide) (by decide)
      (by decide)
      ⟨zoneCapacity "zone-a" (Gi 10), by decide, by decide, by decide⟩
      (by
        intro record hrec _ _
        rw [List.mem_singleton] at hrec
        subst hrec
        rfl)).2.1⟩

/-- C25 as stated fails once the summed request is not an `int64`: two claims
of `2^62` bytes each sum to `2^63` bytes, at least the capacity `2^62 > 0` of
the one matching record, and the per-class score and the score of the node are
-200, not 100: the request that is divided is `total.Value()`, `-2^63`. -/
theorem classScore_of_wrapped_request_is_not_hundred :
    summedRequest hugeClaims = 2 ^ 63 ∧
    requestedBytes hugeClaims = -2 ^ 63 ∧
    lastCapacity (zoneNode "zone-a") waitSC.name [zoneCapacity "zone-a" (2 ^ 62)] = 2 ^ 62 ∧
    classScore 0 [zoneCapacity "zone-a" (2 ^ 62)] [(waitSC.name, hugeClaims)]
      (zoneNode "zone-a") waitSC.name = -200 ∧
    calculateScore 0 [zoneNode "zone-a"] [waitSC.name] [zoneCapacity "zone-a" (2 ^ 62)]
      [(waitSC.name, hugeClaims)] = .returns (.ok [("zone-a-node-a", -200)]) := by
  decide

/-! ## Monotonicity of the score -/

/-- Inserting again the names of the same groups changes nothing. -/
theorem foldl_Insert_twice (entries entries2 : List (String × claimGroup)) (s : StringSet)
    (h : entries2.Perm entries) :
    entries2.foldl (fun s kv => s.Insert kv.1) (entries.foldl (fun s kv => s.Insert kv.1) s) =
      entries.foldl (fun s kv => s.Insert kv.1) s := by
  apply StringSet.ext_mem
  intro x
  rw [foldl_Insert_mem, foldl_Insert_mem, (h.map Prod.fst).mem_iff]
  tauto

/-! ## The order of iteration and the outcome of `Filter` -/

theorem hasEnoughCapacities_error_iff (pl : StorageCapacityPrioritization) (seed : Nat)
    (groups : claimsByStorageClass) (node : Node) :
    (∃ err, pl.hasEnoughCapacities seed groups node = .error err) ↔
      ∃ entry ∈ groups, ∃ err, pl.hasEnoughCapacity node entry.1 entry.2 = .error err := by
  unfold StorageCapacityPrioritization.hasEnoughCapacities
  constructor
  · rintro ⟨err, he⟩
    by_contra hcon
    have hok : ∀ entry ∈ rangeOrder seed groups,
        ∃ reason, pl.hasEnoughCapacity node entry.1 entry.2 = .ok reason := by
      intro entry hentry
      cases hr : pl.hasEnoughCapacity node entry.1 entry.2 with
      | ok reason => exact ⟨reason, rfl⟩
      | error e =>
        exact absurd ⟨entry, (mem_rangeOrder seed groups entry).mp hentry, e, hr⟩ hcon
    rw [hasEnoughCapacitiesFrom_ok pl node _ [] hok] at he
    cases he
  · rintro ⟨entry, hentry, err, he⟩
    exact hasEnoughCapacitiesFrom_error_of_mem pl node _ [] entry
      ((mem_rangeOrder seed groups entry).mpr hentry) err he

theorem hasEnoughCapacities_ok_eq (pl : StorageCapacityPrioritization) (seed : Nat)
    (groups : claimsByStorageClass) (node : Node) (reasons : List String)
    (h : pl.hasEnoughCapacities seed groups node = .ok reasons) :
    reasons = pl.reasonsOf node (rangeOrder seed groups) := by
  unfold StorageCapacityPrioritization.hasEnoughCapacities at h
  have hok := hasEnoughCapacitiesFrom_all_ok pl node _ _ _ h
  rw [hasEnoughCapacitiesFrom_ok pl node _ [] hok] at h
  simp only [List.nil_append, Except.ok.injEq] at h
  exact h.symm

/-- Two visits of the same groups in different orders: both fail or both
succeed, and when they succeed they give the same reasons up to their order. -/
theorem hasEnoughCapacities_two_orders (pl : StorageCapacityPrioritization) (seed1 seed2 : Nat)
    (groups : claimsByStorageClass) (node : Node) :
    ((∃ e1 e2, pl.hasEnoughCapacities seed1 groups node = .error e1 ∧
        pl.hasEnoughCapacities seed2 groups node = .error e2) ∨
      ∃ r1 r2, pl.hasEnoughCapacities seed1 groups node = .ok r1 ∧
        pl.hasEnoughCapacities seed2 groups node = .ok r2 ∧ r2.Perm r1) := by
  cases h1 : pl.hasEnoughCapacities seed1 groups node with
  | error e1 =>
    left
    obtain ⟨e2, he2⟩ := (hasEnoughCapacities_error_iff pl seed2 groups node).mpr
      ((hasEnoughCapacities_error_iff pl seed1 groups node).mp ⟨e1, h1⟩)
    exact ⟨e1, e2, rfl, he2⟩
  | ok r1 =>
    right
    cases h2 : pl.hasEnoughCapacities seed2 groups node with
    | error e2 =>
      obtain ⟨e1, he1⟩ := (hasEnoughCapacities_error_iff pl seed1 groups node).mpr
        ((hasEnoughCapacities_error_iff pl seed2 groups node).mp ⟨e2, h2⟩)
      rw [he1] at h1
      cases h1
    | ok r2 =>
      refine ⟨r1, r2, rfl, rfl, ?_⟩
      rw [hasEnoughCapacities_ok_eq pl seed1 groups node r1 h1,
        hasEnoughCapacities_ok_eq pl seed2 groups node r2 h2]
      unfold StorageCapacityPrioritization.reasonsOf
      exact ((rangeOrder_perm seed2 groups).trans (rangeOrder_perm seed1 groups).symm).filterMap _

/-- The method `Filter` from the call of `hasEnoughCapacities` on. -/
theorem Filter_unfold (pl : StorageCapacityPrioritization) (seed : Nat) (cs : CycleState)
    (node : Node) (vb : VolumeBindingState) (podVolume : PodVolumes)
    (groups : claimsByStorageClass)
    (hvb : cs.volumeBinding = StateEntry.data vb)
    (hpv : vb.GetPodVolumesByNodeName node.name = some podVolume)
    (hg : pl.claimsByStorageClass podVolume.DynamicProvisions = .returns (.ok groups)) :
    pl.Filter seed cs (some node) =
      match pl.hasEnoughCapacities seed groups node with
      | .error err => (.returns (some (AsStatus err)), cs)
      | .ok reasons =>
        if reasons.length > 0 then
          (.returns (some ⟨Code.UnschedulableAndUnresolvable, reasons⟩), cs)
        else
          match getStateData cs with
          | .error err => (.returns (some (AsStatus err)), cs)
          | .ok state =>
            (.returns none, ⟨cs.volumeBinding,
              .data ⟨groups.foldl (fun s kv => s.Insert kv.1) state.storageClassNames,
                state.scores⟩⟩) := by
  rw [Filter_def]
  unfold volumebindingGetStateData
  simp only [hvb, hpv, hg]
  cases pl.hasEnoughCapacities seed groups node with
  | error err => rfl
  | ok reasons =>
    simp only
    split_ifs
    · rw [foldl_AppendReason]
      simp [NewStatus]
    · rfl

/-- Unless `Filter` passes the node, the state is untouched. -/
theorem Filter_state_of_not_pass (pl : StorageCapacityPrioritization) (seed : Nat)
    (cs : CycleState) (nodeInfo : Option Node)
    (h : (pl.Filter seed cs nodeInfo).1 ≠ .returns none) : (pl.Filter seed cs nodeInfo).2 = cs := by
  rw [Filter_def] at h ⊢
  cases nodeInfo with
  | none => rfl
  | some node =>
    simp only at h ⊢
    cases hvb : volumebindingGetStateData cs with
    | error err => rfl
    | ok vb =>
      rw [hvb] at h
      simp only at h ⊢
      cases hpv : vb.GetPodVolumesByNodeName node.name with
      | none => rfl
      | some podVolume =>
        rw [hpv] at h
        simp only at h ⊢
        cases hg : pl.claimsByStorageClass podVolume.DynamicProvisions with
        | panics msg => rfl
        | returns grouped =>
          cases grouped with
          | error err => rfl
          | ok groups =>
            rw [hg] at h
            simp only at h ⊢
            cases hr : pl.hasEnoughCapacities seed groups node with
            | error err => rfl
            | ok reasons =>
              rw [hr] at h
              simp only at h ⊢
              split_ifs with hlen
              · rfl
              · rw [if_neg hlen] at h
                cases hs : getStateData cs with
                | error err => rfl
                | ok state =>
                  rw [hs] at h
                  simp at h

/-- A status of `Filter` comes with the state untouched. -/
theorem Filter_state_of_status (pl : StorageCapacityPrioritization) (seed : Nat)
    (cs : CycleState) (nodeInfo : Option Node) (st : Status)
    (h : (pl.Filter seed cs nodeInfo).1 = .returns (some st)) :
    (pl.Filter seed cs nodeInfo).2 = cs :=
  Filter_state_of_not_pass pl seed cs nodeInfo (by rw [h]; simp)

/-- A panic of `Filter` comes with the state untouched. -/
theorem Filter_state_of_panic (pl : StorageCapacityPrioritization) (seed : Nat)
    (cs : CycleState) (nodeInfo : Option Node) (msg : String)
    (h : (pl.Filter seed cs nodeInfo).1 = .panics msg) :
    (pl.Filter seed cs nodeInfo).2 = cs :=
  Filter_state_of_not_pass pl seed cs nodeInfo (by rw [h]; simp)

/-- Two runs of `Filter` from the same state that visit the groups in
different orders: the same state afterwards, the same status code (or the same
panic), and in a rejection the same reasons up to their order. -/
theorem Filter_two_orders (pl : StorageCapacityPrioritization) (seed1 seed2 : Nat)
    (cs : CycleState) (node : Node) :
    (pl.Filter seed2 cs (some node)).2 = (pl.Filter seed1 cs (some node)).2 ∧
    (pl.Filter seed2 cs (some node)).1.map (Option.map Status.code) =
      (pl.Filter seed1 cs (some node)).1.map (Option.map Status.code) ∧
    ∀ st1 st2, (pl.Filter seed1 cs (some node)).1 = .returns (some st1) →
      (pl.Filter seed2 cs (some node)).1 = .returns (some st2) → st1.code ≠ Code.Error →
        st2.reasons.Perm st1.reasons := by
  cases hvb : cs.volumeBinding with
  | absent =>
    have h : ∀ seed, pl.Filter seed cs (some node) =
        (.returns (some (AsStatus
          ("failed to get VolumeBinding state data: " ++ "not found"))), cs) := by
      intro seed
      rw [Filter_def]
      unfold volumebindingGetStateData
      simp only [hvb]
    rw [h seed1, h seed2]
    refine ⟨rfl, rfl, ?_⟩
    intro st1 st2 h1 _ hcode
    simp only [Run.returns.injEq, Option.some.injEq] at h1
    subst h1
    exact absurd rfl hcode
  | foreign =>
    have h : ∀ seed, pl.Filter seed cs (some node) =
        (.returns (some (AsStatus ("failed to get VolumeBinding state data: " ++
          "unable to convert state into stateData"))), cs) := by
      intro seed
      rw [Filter_def]
      unfold volumebindingGetStateData
      simp only [hvb]
    rw [h seed1, h seed2]
    refine ⟨rfl, rfl, ?_⟩
    intro st1 st2 h1 _ hcode
    simp only [Run.returns.injEq, Option.some.injEq] at h1
    subst h1
    exact absurd rfl hcode
  | data vb =>
    cases hpv : vb.GetPodVolumesByNodeName node.name with
    | none =>
      rw [Filter_of_no_podVolumes pl seed1 cs node vb hvb hpv,
        Filter_of_no_podVolumes pl seed2 cs node vb hvb hpv]
      refine ⟨rfl, rfl, ?_⟩
      intro st1 st2 h1
      simp at h1
    | some podVolume =>
      cases hg : pl.claimsByStorageClass podVolume.DynamicProvisions with
      | panics msg =>
        have h : ∀ seed, pl.Filter seed cs (some node) = (.panics msg, cs) := by
          intro seed
          rw [Filter_def]
          unfold volumebindingGetStateData
          simp only [hvb, hpv, hg]
        rw [h seed1, h seed2]
        refine ⟨rfl, rfl, ?_⟩
        intro st1 st2 h1
        simp at h1
      | returns grouped =>
        cases grouped with
        | error err =>
          have h : ∀ seed, pl.Filter seed cs (some node) =
              (.returns (some (AsStatus err)), cs) := by
            intro seed
            rw [Filter_def]
            unfold volumebindingGetStateData
            simp only [hvb, hpv, hg]
          rw [h seed1, h seed2]
          refine ⟨rfl, rfl, ?_⟩
          intro st1 st2 h1 _ hcode
          simp only [Run.returns.injEq, Option.some.injEq] at h1
          subst h1
          exact absurd rfl hcode
        | ok groups =>
          rw [Filter_unfold pl seed1 cs node vb podVolume groups hvb hpv hg,
            Filter_unfold pl seed2 cs node vb podVolume groups hvb hpv hg]
          rcases hasEnoughCapacities_two_orders pl seed1 seed2 groups node with
            ⟨e1, e2, h1, h2⟩ | ⟨r1, r2, h1, h2, hperm⟩
          · rw [h1, h2]
            refine ⟨rfl, rfl, ?_⟩
            intro st1 st2 hs1 _ hcode
            simp only [Run.returns.injEq, Option.some.injEq] at hs1
            subst hs1
            exact absurd rfl hcode
          · rw [h1, h2]
            simp only
            have hlen : r2.length = r1.length := hperm.length_eq
            by_cases hpos : r1.length > 0
            · rw [if_pos hpos, if_pos (by omega)]
              refine ⟨rfl, rfl, ?_⟩
              intro st1 st2 hs1 hs2 _
              simp only [Run.returns.injEq, Option.some.injEq] at hs1 hs2
              subst hs1
              subst hs2
              exact hperm
            · rw [if_neg hpos, if_neg (by omega)]
              refine ⟨rfl, rfl, ?_⟩
              intro st1 st2 hs1 hs2 _
              rw [hs1] at hs2
              simp only [Run.returns.injEq, Option.some.injEq] at hs2
              subst hs2
              exact List.Perm.refl _

/-- After a pass, `Filter` on the same node passes again and leaves the state
as the first pass left it, whatever the order of iteration of either run. -/
theorem Filter_again_after_pass (pl : StorageCapacityPrioritization) (seed1 seed2 : Nat)
    (cs : CycleState) (node : Node) (hpass : (pl.Filter seed1 cs (some node)).1 = .returns none) :
    pl.Filter seed2 (pl.Filter seed1 cs (some node)).2 (some node) =
      (.returns none, (pl.Filter seed1 cs (some node)).2) := by
  cases hvb : cs.volumeBinding with
  | absent =>
    rw [Filter_def] at hpass
    unfold volumebindingGetStateData at hpass
    simp [hvb] at hpass
  | foreign =>
    rw [Filter_def] at hpass
    unfold volumebindingGetStateData at hpass
    simp [hvb] at hpass
  | data vb =>
    cases hpv : vb.GetPodVolumesByNodeName node.name with
    | none =>
      rw [Filter_of_no_podVolumes pl seed1 cs node vb hvb hpv]
      exact Filter_of_no_podVolumes pl seed2 cs node vb hvb hpv
    | some podVolume =>
      obtain ⟨groups, state, hg, hr1, hst, hres⟩ :=
        Filter_pass_cases pl seed1 cs node vb podVolume hvb hpv hpass
      rw [hres]
      have hr2 : pl.hasEnoughCapacities seed2 groups node = .ok [] := by
        rcases hasEnoughCapacities_two_orders pl seed1 seed2 groups node with
          ⟨e1, e2, h1, -⟩ | ⟨r1, r2, h1, h2, hperm⟩
        · rw [hr1] at h1
          cases h1
        · rw [hr1] at h1
          cases h1
          rw [h2, List.perm_nil.mp hperm]
      rw [Filter_unfold pl seed2
        ⟨cs.volumeBinding, .data ⟨groups.foldl (fun s kv => s.Insert kv.1)
          state.storageClassNames, state.scores⟩⟩ node vb podVolume groups hvb hpv hg, hr2]
      simp only [List.length_nil, gt_iff_lt, lt_self_iff_false, if_false, getStateData]
      rw [foldl_Insert_twice groups groups state.storageClassNames (List.Perm.refl _)]

/-- The method `PreScore` from the call of `calculateScore` on. -/
theorem PreScore_unfold (pl : StorageCapacityPrioritization) (indefinite : Int)
    (cs : CycleState) (nodes : List Node) (vb : VolumeBindingState) (state : stateData)
    (capacities : List CSIStorageCapacity) (grouped : Except String claimsByStorageClass)
    (hvb : cs.volumeBinding = StateEntry.data vb) (hne : vb.GetClaimsToBind ≠ [])
    (hg : pl.claimsByStorageClass vb.GetClaimsToBind = .returns grouped)
    (hst : cs.plugin = StateEntry.data state) (hc : pl.listCapacities = .ok capacities) :
    pl.PreScore indefinite cs nodes =
      match calculateScore indefinite nodes state.storageClassNames.List capacities
          (pl.groupsOrNil vb.GetClaimsToBind) with
      | .panics msg => .panics msg
      | .returns (.error err) =>
        .returns (some (AsStatus ("failed to calcurate scores: " ++ err)), cs)
      | .returns (.ok scores) =>
        .returns (none, ⟨cs.volumeBinding, .data ⟨state.storageClassNames, some scores⟩⟩) := by
  have hlen : ¬ vb.GetClaimsToBind.length = 0 := fun e => hne (List.length_eq_zero.mp e)
  rw [PreScore_def]
  unfold volumebindingGetStateData getStateData
  simp only [hvb, hst, hc, hg, if_neg hlen]

/-- When `PreScore` returns with claims to bind, grouping them has returned. -/
theorem PreScore_grouping_returns (pl : StorageCapacityPrioritization) (indefinite : Int)
    (cs : CycleState) (nodes : List Node) (vb : VolumeBindingState)
    (out : Option Status × CycleState)
    (h : pl.PreScore indefinite cs nodes = .returns out)
    (hvb : cs.volumeBinding = StateEntry.data vb) (hne : vb.GetClaimsToBind ≠ []) :
    ∃ grouped, pl.claimsByStorageClass vb.GetClaimsToBind = .returns grouped := by
  have hlen : ¬ vb.GetClaimsToBind.length = 0 := fun e => hne (List.length_eq_zero.mp e)
  cases hg : pl.claimsByStorageClass vb.GetClaimsToBind with
  | returns grouped => exact ⟨grouped, rfl⟩
  | panics msg =>
    rw [PreScore_def] at h
    unfold volumebindingGetStateData at h
    simp only [hvb, hg, if_neg hlen] at h
    cases h

/-- Running `PreScore` again on the state it left gives the same outcome. -/
theorem PreScore_again (pl : StorageCapacityPrioritization) (indefinite : Int)
    (cs : CycleState) (nodes : List Node) (out : Option Status × CycleState)
    (h : pl.PreScore indefinite cs nodes = .returns out) :
    pl.PreScore indefinite out.2 nodes = .returns out := by
  rcases PreScore_cases pl indefinite cs nodes out h with
    ⟨msg, hout⟩ | ⟨hout, -⟩ | ⟨vb, state, capacities, scores, hvb, hne, -, hc, hs, hout⟩
  · rw [hout]
    rw [hout] at h
    exact h
  · rw [hout]
    rw [hout] at h
    exact h
  · obtain ⟨grouped, hg⟩ := PreScore_grouping_returns pl indefinite cs nodes vb out h hvb hne
    rw [hout]
    rw [PreScore_unfold pl indefinite
      ⟨cs.volumeBinding, .data ⟨state.storageClassNames, some scores⟩⟩ nodes vb
      ⟨state.storageClassNames, some scores⟩ capacities grouped hvb hne hg rfl hc]
    simp only [hs]

/-- C27 (amended): running `Filter` twice on the same node, the second run on
the state the first one left and with the listers unchanged, leaves the state
after the second run equal to the state after the first and returns a status
with the same code both times; a rejection carries the same reasons both times
up to their order, which follows the iteration of the map of groups (`seed1`
and `seed2`), and when both runs iterate in the same order the two statuses are
identical.  Running `PreScore` again on the state it left, over the same nodes
and claims, returns the same status and leaves the same state, so the same
scores map. -/
theorem Filter_and_PreScore_rerun (pl : StorageCapacityPrioritization) (seed1 seed2 : Nat)
    (cs : CycleState) (node : Node) (indefinite : Int) (nodes : List Node) :
    (pl.Filter seed2 (pl.Filter seed1 cs (some node)).2 (some node)).2 =
      (pl.Filter seed1 cs (some node)).2 ∧
    (pl.Filter seed2 (pl.Filter seed1 cs (some node)).2 (some node)).1.map
        (Option.map Status.code) =
      (pl.Filter seed1 cs (some node)).1.map (Option.map Status.code) ∧
    (∀ st1 st2, (pl.Filter seed1 cs (some node)).1 = .returns (some st1) →
      (pl.Filter seed2 (pl.Filter seed1 cs (some node)).2 (some node)).1 =
        .returns (some st2) →
      st1.code ≠ Code.Error → st2.reasons.Perm st1.reasons) ∧
    (seed2 = seed1 →
      (pl.Filter seed2 (pl.Filter seed1 cs (some node)).2 (some node)).1 =
        (pl.Filter seed1 cs (some node)).1) ∧
    (∀ out, pl.PreScore indefinite cs nodes = .returns out →
      pl.PreScore indefinite out.2 nodes = .returns out) := by
  have hcases : ((pl.Filter seed1 cs (some node)).1 ≠ .returns none ∧
        (pl.Filter seed1 cs (some node)).2 = cs) ∨
      ((pl.Filter seed1 cs (some node)).1 = .returns none ∧
        pl.Filter seed2 (pl.Filter seed1 cs (some node)).2 (some node) =
          (.returns none, (pl.Filter seed1 cs (some node)).2)) := by
    by_cases h1 : (pl.Filter seed1 cs (some node)).1 = .returns none
    · exact Or.inr ⟨h1, Filter_again_after_pass pl seed1 seed2 cs node h1⟩
    · exact Or.inl ⟨h1, Filter_state_of_not_pass pl seed1 cs (some node) h1⟩
  have h3 := Filter_two_orders pl seed1 seed2 cs node
  refine ⟨?_, ?_, ?_, ?_, PreScore_again pl indefinite cs nodes⟩
  · rcases hcases with ⟨-, hstate⟩ | ⟨-, h2⟩
    · rw [hstate]
      exact h3.1.trans hstate
    · rw [h2]
  · rcases hcases with ⟨-, hstate⟩ | ⟨h1, h2⟩
    · rw [hstate]
      exact h3.2.1
    · rw [h2, h1]
  · intro st1 st2 hs1 hs2 hcode
    rcases hcases with ⟨-, hstate⟩ | ⟨h1, -⟩
    · rw [hstate] at hs2
      exact h3.2.2 st1 st2 hs1 hs2 hcode
    · rw [h1] at hs1
      simp at hs1
  · intro hseed
    rcases hcases with ⟨-, hstate⟩ | ⟨h1, h2⟩
    · rw [hstate, hseed]
    · rw [h2, h1]

/-- C27 as stated fails in the order of the reasons: a node that would
provision a claim of `wait-sc` (20Gi) and a claim of `wait-hdd-sc` (10Gi), with
no capacity record at all, is rejected with two reasons, which come in the
order in which the map of groups is visited; the two runs below visit it in
opposite orders and return different statuses. -/
theorem Filter_reasons_follow_iteration_order :
    (newPluginTester []).Filter 0 twoClassState (some (zoneNode "zone-a")) =
      (.returns (some ⟨Code.UnschedulableAndUnresolvable,
        ["there is nothing enough capacities of csi storage capacity objects. " ++
          "node=\"zone-a-node-a\" sizeInBytes=21474836480",
         "there is nothing enough capacities of csi storage capacity objects. " ++
          "node=\"zone-a-node-a\" sizeInBytes=10737418240"]⟩), twoClassState) ∧
    (newPluginTester []).Filter 1 twoClassState (some (zoneNode "zone-a")) =
      (.returns (some ⟨Code.UnschedulableAndUnresolvable,
        ["there is nothing enough capacities of csi storage capacity objects. " ++
          "node=\"zone-a-node-a\" sizeInBytes=10737418240",
         "there is nothing enough capacities of csi storage capacity objects. " ++
          "node=\"zone-a-node-a\" sizeInBytes=21474836480"]⟩), twoClassState) ∧
    ((newPluginTester []).Filter 1
        ((newPluginTester []).Filter 0 twoClassState (some (zoneNode "zone-a"))).2
        (some (zoneNode "zone-a"))).1 ≠
      ((newPluginTester []).Filter 0 twoClassState (some (zoneNode "zone-a"))).1 := by
  decide

/-! ## The lock -/

/-- What a call of `Filter` does to the state data: nothing, the state being
left as it was, or, on a pass, the lock, the insertions of the class names
with the lock held, and the unlock. -/
theorem FilterCall_cases (pl : StorageCapacityPrioritization) (seed : Nat)
    (cs : CycleState) (nodeInfo : Option Node) :
    (pl.FilterOps seed cs nodeInfo = [] ∧ (pl.Filter seed cs nodeInfo).2 = cs) ∨
    ∃ (names : List String) (state : stateData),
      cs.plugin = StateEntry.data state ∧
      (pl.Filter seed cs nodeInfo).1 = .returns none ∧
      pl.FilterOps seed cs nodeInfo =
        [StateOp.lock] ++ names.map (fun name => StateOp.insert name true) ++
          [StateOp.unlock] ∧
      (pl.Filter seed cs nodeInfo).2 =
        ⟨cs.volumeBinding,
          .data ⟨names.foldl (fun s name => s.Insert name) state.storageClassNames,
            state.scores⟩⟩ := by
  unfold StorageCapacityPrioritization.FilterOps StorageCapacityPrioritization.Filter
    StorageCapacityPrioritization.FilterCall
  cases nodeInfo with
  | none => exact Or.inl ⟨rfl, rfl⟩
  | some node =>
    simp only
    unfold volumebindingGetStateData
    cases hvb : cs.volumeBinding with
    | absent => exact Or.inl ⟨rfl, rfl⟩
    | foreign => exact Or.inl ⟨rfl, rfl⟩
    | data vb =>
      simp only
      cases hpv : vb.GetPodVolumesByNodeName node.name with
      | none => exact Or.inl ⟨rfl, rfl⟩
      | some podVolume =>
        simp only
        cases hg : pl.claimsByStorageClass podVolume.DynamicProvisions with
        | panics msg => exact Or.inl ⟨rfl, rfl⟩
        | returns grouped =>
          cases grouped with
          | error err => exact Or.inl ⟨rfl, rfl⟩
          | ok groups =>
            simp only
            cases hr : pl.hasEnoughCapacities seed groups node with
            | error err => exact Or.inl ⟨rfl, rfl⟩
            | ok reasons =>
              simp only
              by_cases hlen : reasons.length > 0
              · rw [if_pos hlen]
                exact Or.inl ⟨rfl, rfl⟩
              · rw [if_neg hlen]
                unfold getStateData
                cases hst : cs.plugin with
                | absent => exact Or.inl ⟨rfl, rfl⟩
                | foreign => exact Or.inl ⟨rfl, rfl⟩
                | data state =>
                  refine Or.inr ⟨(rangeOrder (seed / groups.length.factorial) groups).map
                    Prod.fst, state, rfl, rfl, ?_, ?_⟩
                  · simp only [Access.Unlock, Access.Lock, Access.start, Access_foldl_Insert,
                      List.map_map, List.nil_append, List.append_assoc]
                    rfl
                  · simp only [Access.Unlock, Access.Lock, Access.start, Access_foldl_Insert,
                      List.foldl_map]

/-- What a call of `PreScore` does to the state data: nothing, a read of the
names, or a read of the names and the write of the scores, all without the
lock. -/
theorem PreScoreOps_shape (pl : StorageCapacityPrioritization) (indefinite : Int)
    (cs : CycleState) (nodes : List Node) :
    pl.PreScoreOps indefinite cs nodes = [] ∨
    pl.PreScoreOps indefinite cs nodes = [StateOp.listNames false] ∨
    ∃ scores, pl.PreScoreOps indefinite cs nodes =
      [StateOp.listNames false, StateOp.writeScores scores false] := by
  unfold StorageCapacityPrioritization.PreScoreOps StorageCapacityPrioritization.PreScoreCall
  cases volumebindingGetStateData cs with
  | error err => exact Or.inl rfl
  | ok vb =>
    simp only
    split_ifs
    · exact Or.inl rfl
    · cases pl.claimsByStorageClass vb.GetClaimsToBind with
      | panics msg => exact Or.inl rfl
      | returns grouped =>
        simp only
        cases getStateData cs with
        | error err => exact Or.inl rfl
        | ok state =>
          simp only
          cases pl.listCapacities with
          | error err => exact Or.inl rfl
          | ok capacities =>
            simp only [Access.ListNames, Access.start]
            cases grouped with
            | error e =>
              simp only
              cases calculateScore indefinite nodes state.storageClassNames.List capacities
                  [] with
              | panics msg => exact Or.inr (Or.inl rfl)
              | returns r =>
                cases r with
                | error err => exact Or.inr (Or.inl rfl)
                | ok scores => exact Or.inr (Or.inr ⟨scores, rfl⟩)
            | ok groups =>
              simp only
              cases calculateScore indefinite nodes state.storageClassNames.List capacities
                  groups with
              | panics msg => exact Or.inr (Or.inl rfl)
              | returns r =>
                cases r with
                | error err => exact Or.inr (Or.inl rfl)
                | ok scores => exact Or.inr (Or.inr ⟨scores, rfl⟩)

/-- When `PreScore` returns a state other than the one it was given, it has
written the scores, and `scores` is all it has changed. -/
theorem PreScoreCall_write (pl : StorageCapacityPrioritization) (indefinite : Int)
    (cs : CycleState) (nodes : List Node) (out : Option Status × CycleState)
    (h : pl.PreScore indefinite cs nodes = .returns out) :
    out.2 = cs ∨
    ∃ state scores, cs.plugin = StateEntry.data state ∧ out.1 = none ∧
      pl.PreScoreOps indefinite cs nodes =
        [StateOp.listNames false, StateOp.writeScores scores false] ∧
      out.2 = ⟨cs.volumeBinding, .data ⟨state.storageClassNames, some scores⟩⟩ := by
  obtain ⟨vbEntry, plEntry⟩ := cs
  unfold StorageCapacityPrioritization.PreScoreOps
  unfold StorageCapacityPrioritization.PreScore at h
  unfold StorageCapacityPrioritization.PreScoreCall at h ⊢
  unfold volumebindingGetStateData at h ⊢
  cases vbEntry with
  | absent =>
    simp only [Run.returns.injEq] at h
    exact Or.inl (by rw [← h])
  | foreign =>
    simp only [Run.returns.injEq] at h
    exact Or.inl (by rw [← h])
  | data vb =>
    simp only at h ⊢
    by_cases hlen : vb.GetClaimsToBind.length = 0
    · rw [if_pos hlen] at h
      simp only [Run.returns.injEq] at h
      exact Or.inl (by rw [← h])
    · rw [if_neg hlen] at h
      rw [if_neg hlen]
      cases hg : pl.claimsByStorageClass vb.GetClaimsToBind with
      | panics msg =>
        rw [hg] at h
        cases h
      | returns grouped =>
        rw [hg] at h
        simp only at h ⊢
        unfold getStateData at h ⊢
        cases plEntry with
        | absent =>
          simp only [Run.returns.injEq] at h
          exact Or.inl (by rw [← h])
        | foreign =>
          simp only [Run.returns.injEq] at h
          exact Or.inl (by rw [← h])
        | data state =>
          simp only at h ⊢
          cases hc : pl.listCapacities with
          | error err =>
            rw [hc] at h
            simp only [Run.returns.injEq] at h
            exact Or.inl (by rw [← h])
          | ok capacities =>
            rw [hc] at h
            simp only [Access.ListNames, Access.start] at h ⊢
            cases grouped with
            | error e =>
              simp only at h ⊢
              cases hs : calculateScore indefinite nodes state.storageClassNames.List capacities
                  [] with
              | panics msg =>
                rw [hs] at h
                cases h
              | returns r =>
                rw [hs] at h
                cases r with
                | error err =>
                  simp only [Run.returns.injEq] at h
                  exact Or.inl (by rw [← h])
                | ok scores =>
                  simp only [Run.returns.injEq] at h
                  refine Or.inr ⟨state, scores, rfl, by rw [← h], rfl, ?_⟩
                  rw [← h]
                  rfl
            | ok groups =>
              simp only at h ⊢
              cases hs : calculateScore indefinite nodes state.storageClassNames.List capacities
                  groups with
              | panics msg =>
                rw [hs] at h
                cases h
              | returns r =>
                rw [hs] at h
                cases r with
                | error err =>
                  simp only [Run.returns.injEq] at h
                  exact Or.inl (by rw [← h])
                | ok scores =>
                  simp only [Run.returns.injEq] at h
                  refine Or.inr ⟨state, scores, rfl, by rw [← h], rfl, ?_⟩
                  rw [← h]
                  rfl

/-- C28 (amended): `Filter` performs its insertions into `storageClassNames`
while holding the lock of the state data: a call either leaves the state as it
was, performing no operation on the state data, or passes the node and takes
the lock, inserts the class names, each with the lock held, and releases the
lock; the insertions make up the whole change of the state.  `PreScore` never
takes the lock: it reads `storageClassNames` and writes `scores` without
holding it; every mutation it performs is unguarded, and whenever it returns
a changed state it has written `scores` so, which is the whole change. -/
theorem Filter_locks_PreScore_does_not (pl : StorageCapacityPrioritization)
    (seed : Nat) (cs : CycleState) (nodeInfo : Option Node) (indefinite : Int)
    (nodes : List Node) :
    (pl.FilterCall seed cs nodeInfo).result = pl.Filter seed cs nodeInfo ∧
    (pl.FilterCall seed cs nodeInfo).ops = pl.FilterOps seed cs nodeInfo ∧
    (∀ op ∈ pl.FilterOps seed cs nodeInfo, op.guarded = true) ∧
    ((pl.FilterOps seed cs nodeInfo = [] ∧ (pl.Filter seed cs nodeInfo).2 = cs) ∨
      ∃ (names : List String) (state : stateData),
        cs.plugin = StateEntry.data state ∧
        (pl.Filter seed cs nodeInfo).1 = .returns none ∧
        pl.FilterOps seed cs nodeInfo =
          [StateOp.lock] ++ names.map (fun name => StateOp.insert name true) ++
            [StateOp.unlock] ∧
        (pl.Filter seed cs nodeInfo).2 =
          ⟨cs.volumeBinding,
            .data ⟨names.foldl (fun s name => s.Insert name) state.storageClassNames,
              state.scores⟩⟩) ∧
    (pl.PreScoreCall indefinite cs nodes).result = pl.PreScore indefinite cs nodes ∧
    (pl.PreScoreCall indefinite cs nodes).ops = pl.PreScoreOps indefinite cs nodes ∧
    StateOp.lock ∉ pl.PreScoreOps indefinite cs nodes ∧
    (∀ name held, StateOp.insert name held ∉ pl.PreScoreOps indefinite cs nodes) ∧
    (∀ scores held, StateOp.writeScores scores held ∈ pl.PreScoreOps indefinite cs nodes →
      held = false) ∧
    (∀ out, pl.PreScore indefinite cs nodes = .returns out →
      out.2 = cs ∨
      ∃ state scores, cs.plugin = StateEntry.data state ∧ out.1 = none ∧
        pl.PreScoreOps indefinite cs nodes =
          [StateOp.listNames false, StateOp.writeScores scores false] ∧
        out.2 = ⟨cs.volumeBinding, .data ⟨state.storageClassNames, some scores⟩⟩) := by
  refine ⟨rfl, rfl, ?_, FilterCall_cases pl seed cs nodeInfo, rfl, rfl, ?_, ?_, ?_,
    PreScoreCall_write pl indefinite cs nodes⟩
  · intro op hop
    rcases FilterCall_cases pl seed cs nodeInfo with ⟨hops, -⟩ | ⟨names, state, -, -, hops, -⟩
    · rw [hops] at hop
      simp at hop
    · rw [hops] at hop
      simp only [List.mem_append, List.mem_singleton, List.mem_map] at hop
      rcases hop with (hop | ⟨name, -, hop⟩) | hop
      · rw [hop]
        rfl
      · rw [← hop]
        rfl
      · rw [hop]
        rfl
  · rcases PreScoreOps_shape pl indefinite cs nodes with h | h | ⟨scores, h⟩ <;> rw [h] <;> simp
  · intro name held
    rcases PreScoreOps_shape pl indefinite cs nodes with h | h | ⟨scores, h⟩ <;> rw [h] <;> simp
  · intro scores held hmem
    rcases PreScoreOps_shape pl indefinite cs nodes with h | h | ⟨scores2, h⟩
    · rw [h] at hmem
      simp at hmem
    · rw [h] at hmem
      simp at hmem
    · rw [h] at hmem
      simp only [List.mem_cons, reduceCtorEq, StateOp.writeScores.injEq, List.mem_singleton,
        List.not_mem_nil, or_false, false_or] at hmem
      exact hmem.2

/-- C28 as stated fails for `PreScore`: in the case with two storage classes
of `TestStorageCapacityPrioritizationPreScore` it succeeds, and its operations
on the state data are a read of the names and the write of the scores, both
without the lock, which it never takes; the write is a mutation that is not
guarded.  `Filter` on the first node of the filter cases takes the lock,
inserts `wait-sc` holding it, and releases it. -/
theorem PreScore_writes_scores_without_lock :
    (newPluginTester multiClassCapacities).PreScore 0 multiClassState preScoreNodes =
      .returns (none, ⟨multiClassState.volumeBinding,
        .data ⟨(StringSet.NewString.Insert waitSC.name).Insert waitHDDSC.name,
          some [("zone-a-node-a", 30), ("zone-b-node-a", 30), ("zone-c-node-a", 30)]⟩⟩) ∧
    ((newPluginTester multiClassCapacities).PreScoreCall 0 multiClassState preScoreNodes).ops =
      [StateOp.listNames false, StateOp.writeScores
        [("zone-a-node-a", 30), ("zone-b-node-a", 30), ("zone-c-node-a", 30)] false] ∧
    (StateOp.writeScores
      [("zone-a-node-a", 30), ("zone-b-node-a", 30), ("zone-c-node-a", 30)] false).guarded =
        false ∧
    ((newPluginTester filterCapacities).FilterCall 0 filterState (some (zoneNode "zone-a"))).ops =
      [StateOp.lock, StateOp.insert "wait-sc" true, StateOp.unlock] := by
  decide

/-! ## A node that does not pass -/

/-- C32: whenever `Filter` returns a status, a rejection or an Error, the
cycle state, and with it the plugin's state data (`storageClassNames` and
`scores`), is exactly what it was before the call: a node that does not pass
adds no storage-class name, also not those of its classes that have enough
capacity. -/
theorem Filter_failure_keeps_state (pl : StorageCapacityPrioritization) (seed : Nat)
    (cs : CycleState) (nodeInfo : Option Node) (st : Status)
    (h : (pl.Filter seed cs nodeInfo).1 = .returns (some st)) :
    (pl.Filter seed cs nodeInfo).2 = cs ∧
    getStateData (pl.Filter seed cs nodeInfo).2 = getStateData cs := by
  have hstate := Filter_state_of_status pl seed cs nodeInfo st h
  rw [hstate]
  exact ⟨rfl, rfl⟩

/-- A node that would provision a claim of `wait-sc` (20Gi, with 50Gi on
record) and a claim of `wait-hdd-sc` (10Gi, with nothing on record) is rejected
for `wait-hdd-sc` alone, and `wait-sc` is not added to the names. -/
theorem Filter_failure_keeps_state_witness :
    (newPluginTester [zoneCapacity "zone-a" (Gi 50)]).Filter 0 twoClassState
        (some (zoneNode "zone-a")) =
      (.returns (some ⟨Code.UnschedulableAndUnresolvable,
        ["there is nothing enough capacities of csi storage capacity objects. " ++
          "node=\"zone-a-node-a\" sizeInBytes=10737418240"]⟩), twoClassState) ∧
    ((newPluginTester [zoneCapacity "zone-a" (Gi 50)]).Filter 0 twoClassState
        (some (zoneNode "zone-a"))).2 = twoClassState :=
  ⟨by decide,
    (Filter_failure_keeps_state (newPluginTester [zoneCapacity "zone-a" (Gi 50)]) 0
      twoClassState (some (zoneNode "zone-a"))
      ⟨Code.UnschedulableAndUnresolvable,
        ["there is nothing enough capacities of csi storage capacity objects. " ++
          "node=\"zone-a-node-a\" sizeInBytes=10737418240"]⟩ (by decide)).1⟩

/-! ## `Filter` on two nodes -/

/-- The outcome of `Filter` and the names it inserts do not depend on the
state data it finds: for given listers, order of iteration, volume-binding
entry and node there are an outcome and a list of groups such that, whatever
the state data, `Filter` ends with that outcome and inserts the names of those
groups. -/
theorem Filter_frame (pl : StorageCapacityPrioritization) (seed : Nat)
    (vbEntry : StateEntry VolumeBindingState) (node : Node) :
    ∃ (status : Run (Option Status)) (entries : List (String × claimGroup)),
      ∀ d : stateData, pl.Filter seed ⟨vbEntry, .data d⟩ (some node) =
        (status, ⟨vbEntry, .data ⟨entries.foldl (fun s kv => s.Insert kv.1) d.storageClassNames,
          d.scores⟩⟩) := by
  cases vbEntry with
  | absent =>
    refine ⟨.returns (some (AsStatus
      ("failed to get VolumeBinding state data: " ++ "not found"))), [], fun d => ?_⟩
    rw [Filter_def]
    rfl
  | foreign =>
    refine ⟨.returns (some (AsStatus ("failed to get VolumeBinding state data: " ++
      "unable to convert state into stateData"))), [], fun d => ?_⟩
    rw [Filter_def]
    rfl
  | data vb =>
    cases hpv : vb.GetPodVolumesByNodeName node.name with
    | none =>
      refine ⟨.returns none, [], fun d => ?_⟩
      exact Filter_of_no_podVolumes pl seed ⟨.data vb, .data d⟩ node vb rfl hpv
    | some podVolume =>
      cases hg : pl.claimsByStorageClass podVolume.DynamicProvisions with
      | panics msg =>
        refine ⟨.panics msg, [], fun d => ?_⟩
        rw [Filter_def]
        unfold volumebindingGetStateData
        simp only [hpv, hg]
        rfl
      | returns grouped =>
        cases grouped with
        | error err =>
          refine ⟨.returns (some (AsStatus err)), [], fun d => ?_⟩
          rw [Filter_def]
          unfold volumebindingGetStateData
          simp only [hpv, hg]
          rfl
        | ok groups =>
          cases hr : pl.hasEnoughCapacities seed groups node with
          | error err =>
            refine ⟨.returns (some (AsStatus err)), [], fun d => ?_⟩
            rw [Filter_unfold pl seed ⟨.data vb, .data d⟩ node vb podVolume groups rfl hpv hg,
              hr]
            rfl
          | ok reasons =>
            by_cases hlen : reasons.length > 0
            · refine ⟨.returns (some ⟨Code.UnschedulableAndUnresolvable, reasons⟩), [],
                fun d => ?_⟩
              rw [Filter_unfold pl seed ⟨.data vb, .data d⟩ node vb podVolume groups rfl hpv hg,
                hr]
              simp only [if_pos hlen]
              rfl
            · refine ⟨.returns none, groups, fun d => ?_⟩
              rw [Filter_unfold pl seed ⟨.data vb, .data d⟩ node vb podVolume groups rfl hpv hg,
                hr]
              simp only [if_neg hlen]
              rfl

/-- Without state data under the plugin's key `Filter` leaves the state as it
is. -/
theorem Filter_state_of_no_data (pl : StorageCapacityPrioritization) (seed : Nat)
    (cs : CycleState) (nodeInfo : Option Node) (h : ∀ d, cs.plugin ≠ StateEntry.data d) :
    (pl.Filter seed cs nodeInfo).2 = cs := by
  rcases FilterCall_cases pl seed cs nodeInfo with ⟨-, hstate⟩ | ⟨names, state, hst, -, -, -⟩
  · exact hstate
  · exact absurd hst (h state)

/-- Two calls of `Filter` in either order: the same status for each node and
the same state at the end, each node's call visiting its groups in the same
order in both sequences. -/
theorem Filter_commute (pl : StorageCapacityPrioritization) (seedA seedB : Nat)
    (cs : CycleState) (a b : Node) :
    (pl.Filter seedA (pl.Filter seedB cs (some b)).2 (some a)).1 =
      (pl.Filter seedA cs (some a)).1 ∧
    (pl.Filter seedB (pl.Filter seedA cs (some a)).2 (some b)).1 =
      (pl.Filter seedB cs (some b)).1 ∧
    (pl.Filter seedB (pl.Filter seedA cs (some a)).2 (some b)).2 =
      (pl.Filter seedA (pl.Filter seedB cs (some b)).2 (some a)).2 := by
  obtain ⟨vbEntry, plEntry⟩ := cs
  by_cases hd : ∃ d, plEntry = StateEntry.data d
  · obtain ⟨d, hd⟩ := hd
    subst hd
    obtain ⟨stA, entriesA, hA⟩ := Filter_frame pl seedA vbEntry a
    obtain ⟨stB, entriesB, hB⟩ := Filter_frame pl seedB vbEntry b
    rw [hA d, hB d]
    simp only
    rw [hA, hB]
    refine ⟨rfl, rfl, ?_⟩
    simp only [Prod.mk.injEq, CycleState.mk.injEq, StateEntry.data.injEq, true_and]
    have hnames : entriesB.foldl (fun s kv => s.Insert kv.1)
          (entriesA.foldl (fun s kv => s.Insert kv.1) d.storageClassNames) =
        entriesA.foldl (fun s kv => s.Insert kv.1)
          (entriesB.foldl (fun s kv => s.Insert kv.1) d.storageClassNames) := by
      apply StringSet.ext_mem
      intro x
      simp only [foldl_Insert_mem]
      tauto
    rw [hnames]
  · have hno : ∀ d, (⟨vbEntry, plEntry⟩ : CycleState).plugin ≠ StateEntry.data d :=
      fun d e => hd ⟨d, e⟩
    rw [Filter_state_of_no_data pl seedA _ (some a) hno,
      Filter_state_of_no_data pl seedB _ (some b) hno,
      Filter_state_of_no_data pl seedA _ (some a) hno]
    exact ⟨rfl, rfl, rfl⟩

/-- C31 as stated fails in the order of the reasons. The node of zone `zone-a`
is short of two classes, the node of zone `zone-b` passes. Filtering `zone-a`
then `zone-b` with the groups of `zone-a` visited in one order, and `zone-b`
then `zone-a` with them visited in the other order, gives `zone-a` two
different lists of reasons; the final state is the same. -/
theorem Filter_order_of_calls_changes_reasons :
    (twoNodePlugin.Filter 0 twoNodeState (some (zoneNode "zone-a"))).1 =
      .returns (some ⟨Code.UnschedulableAndUnresolvable,
        ["there is nothing enough capacities of csi storage capacity objects. " ++
          "node=\"zone-a-node-a\" sizeInBytes=21474836480",
         "there is nothing enough capacities of csi storage capacity objects. " ++
          "node=\"zone-a-node-a\" sizeInBytes=10737418240"]⟩) ∧
    (twoNodePlugin.Filter 1
        (twoNodePlugin.Filter 0 twoNodeState (some (zoneNode "zone-b"))).2
        (some (zoneNode "zone-a"))).1 =
      .returns (some ⟨Code.UnschedulableAndUnresolvable,
        ["there is nothing enough capacities of csi storage capacity objects. " ++
          "node=\"zone-a-node-a\" sizeInBytes=10737418240",
         "there is nothing enough capacities of csi storage capacity objects. " ++
          "node=\"zone-a-node-a\" sizeInBytes=21474836480"]⟩) ∧
    (twoNodePlugin.Filter 0
        (twoNodePlugin.Filter 0 twoNodeState (some (zoneNode "zone-a"))).2
        (some (zoneNode "zone-b"))) =
      (.returns none,
        ⟨.data twoNodeVolumeBinding, .data ⟨StringSet.NewString.Insert "wait-sc", none⟩⟩) ∧
    (twoNodePlugin.Filter 1
        (twoNodePlugin.Filter 0 twoNodeState (some (zoneNode "zone-b"))).2
        (some (zoneNode "zone-a"))).2 =
      ⟨.data twoNodeVolumeBinding, .data ⟨StringSet.NewString.Insert "wait-sc", none⟩⟩ := by
  decide

/-- C31, amended: `Filter` on node `a` then on node `b`, against `Filter` on
`b` then on `a`, from any state and whatever the order in which each call
visits its groups (`seedA`, `seedB` in the first sequence, `seedA2`, `seedB2`
in the second): the final state, hence the final `storageClassNames`, is the
same; each node gets the same status code (pass, rejection or Error), and in a
rejection the same reasons up to their order; when a node's groups are visited
in the same order in both sequences its status is identical; and the status of
the second call is the status the node gets from the starting state, so the
outcome does not depend on what the earlier call stored. -/
theorem Filter_calls_commute (pl : StorageCapacityPrioritization)
    (seedA seedB seedA2 seedB2 : Nat) (cs : CycleState) (a b : Node) :
    (pl.Filter seedB (pl.Filter seedA cs (some a)).2 (some b)).2 =
      (pl.Filter seedA2 (pl.Filter seedB2 cs (some b)).2 (some a)).2 ∧
    getStateData (pl.Filter seedB (pl.Filter seedA cs (some a)).2 (some b)).2 =
      getStateData (pl.Filter seedA2 (pl.Filter seedB2 cs (some b)).2 (some a)).2 ∧
    (pl.Filter seedA2 (pl.Filter seedB2 cs (some b)).2 (some a)).1.map (Option.map Status.code) =
      (pl.Filter seedA cs (some a)).1.map (Option.map Status.code) ∧
    (pl.Filter seedB (pl.Filter seedA cs (some a)).2 (some b)).1.map (Option.map Status.code) =
      (pl.Filter seedB2 cs (some b)).1.map (Option.map Status.code) ∧
    (∀ st1 st2, (pl.Filter seedA cs (some a)).1 = .returns (some st1) →
      (pl.Filter seedA2 (pl.Filter seedB2 cs (some b)).2 (some a)).1 = .returns (some st2) →
      st1.code ≠ Code.Error → st2.reasons.Perm st1.reasons) ∧
    (∀ st1 st2, (pl.Filter seedB2 cs (some b)).1 = .returns (some st1) →
      (pl.Filter seedB (pl.Filter seedA cs (some a)).2 (some b)).1 = .returns (some st2) →
      st1.code ≠ Code.Error → st2.reasons.Perm st1.reasons) ∧
    (seedA2 = seedA → (pl.Filter seedA2 (pl.Filter seedB2 cs (some b)).2 (some a)).1 =
      (pl.Filter seedA cs (some a)).1) ∧
    (seedB2 = seedB → (pl.Filter seedB (pl.Filter seedA cs (some a)).2 (some b)).1 =
      (pl.Filter seedB2 cs (some b)).1) ∧
    (pl.Filter seedB (pl.Filter seedA cs (some a)).2 (some b)).1 =
      (pl.Filter seedB cs (some b)).1 ∧
    (pl.Filter seedA2 (pl.Filter seedB2 cs (some b)).2 (some a)).1 =
      (pl.Filter seedA2 cs (some a)).1 := by
  obtain ⟨h1, h2, h3⟩ := Filter_commute pl seedA seedB cs a b
  obtain ⟨k1, -, -⟩ := Filter_commute pl seedA2 seedB2 cs a b
  obtain ⟨sB, cB, pB⟩ := Filter_two_orders pl seedB2 seedB cs b
  obtain ⟨sA, cA, pA⟩ := Filter_two_orders pl seedA seedA2 cs a
  obtain ⟨sA2, -, -⟩ := Filter_two_orders pl seedA seedA2 (pl.Filter seedB cs (some b)).2 a
  have hstate : (pl.Filter seedB (pl.Filter seedA cs (some a)).2 (some b)).2 =
      (pl.Filter seedA2 (pl.Filter seedB2 cs (some b)).2 (some a)).2 := by
    rw [h3, ← sB, sA2]
  refine ⟨hstate, by rw [hstate], ?_, ?_, ?_, ?_, ?_, ?_, h2, k1⟩
  · rw [k1, cA]
  · rw [h2, cB]
  · intro st1 st2 e1 e2 hcode
    rw [k1] at e2
    exact pA st1 st2 e1 e2 hcode
  · intro st1 st2 e1 e2 hcode
    rw [h2] at e2
    exact pB st1 st2 e1 e2 hcode
  · intro e
    rw [k1, e]
  · intro e
    rw [h2, e]

/-! ## The divisor of the mean -/

theorem findCapacity_panics (node : Node) (className : String)
    (capacities : List CSIStorageCapacity) (st : Bool × Nat) (msg : String)
    (h : findCapacity node className capacities st = .panics msg) : msg = nilDereference := by
  induction capacities generalizing st with
  | nil =>
    unfold findCapacity at h
    simp at h
  | cons record rest ih =>
    unfold findCapacity at h
    split_ifs at h with hm
    · cases hc : record.Capacity with
      | none =>
        rw [hc] at h
        simp only [Run.panics.injEq] at h
        exact h.symm
      | some v =>
        rw [hc] at h
        exact ih _ h
    · exact ih _ h

theorem scoreNodes_panics (indefinite : Int) (className : String)
    (capacities : List CSIStorageCapacity) (claims : claimsByStorageClass) (ns : List Node)
    (m : UsageMap) (msg : String)
    (h : scoreNodes indefinite className capacities claims ns m = .panics msg) :
    msg = nilDereference := by
  induction ns generalizing m with
  | nil =>
    unfold scoreNodes at h
    simp at h
  | cons node rest ih =>
    unfold scoreNodes at h
    cases hf : findCapacity node className capacities (false, 0) with
    | panics msg1 =>
      rw [hf] at h
      simp only [Run.panics.injEq] at h
      rw [← h]
      exact findCapacity_panics node className capacities _ msg1 hf
    | returns out =>
      obtain ⟨found, capacity⟩ := out
      rw [hf] at h
      simp only at h
      split_ifs at h with hfound
      · exact ih _ h
      · cases hc : claims.get className with
        | none =>
          rw [hc] at h
          simp at h
        | some cg =>
          rw [hc] at h
          simp only at h
          cases ht : cg.totalRequiredCapacity with
          | error err =>
            rw [ht] at h
            simp at h
          | ok request =>
            rw [ht] at h
            exact ih _ h

theorem scoreClasses_panics (indefinite : Int) (nodes : List Node)
    (capacities : List CSIStorageCapacity) (claims : claimsByStorageClass)
    (classes : List String) (m : UsageMap) (msg : String)
    (h : scoreClasses indefinite nodes capacities claims classes m = .panics msg) :
    msg = nilDereference := by
  induction classes generalizing m with
  | nil =>
    unfold scoreClasses at h
    simp at h
  | cons className rest ih =>
    unfold scoreClasses at h
    cases hs : scoreNodes indefinite className capacities claims nodes m with
    | panics msg1 =>
      rw [hs] at h
      simp only [Run.panics.injEq] at h
      rw [← h]
      exact scoreNodes_panics indefinite className capacities claims nodes m msg1 hs
    | returns r =>
      cases r with
      | error err =>
        rw [hs] at h
        simp at h
      | ok m1 =>
        rw [hs] at h
        exact ih _ h

/-- Whatever `calculateScore` panics with, it is the nil dereference of
`cap.Capacity.Value()`. -/
theorem calculateScore_panics (indefinite : Int) (nodes : List Node)
    (storageClassNames : List String) (capacities : List CSIStorageCapacity)
    (claims : claimsByStorageClass) (msg : String)
    (h : calculateScore indefinite nodes storageClassNames capacities claims = .panics msg) :
    msg = nilDereference := by
  unfold calculateScore at h
  cases hs : scoreClasses indefinite nodes capacities claims storageClassNames [] with
  | panics msg1 =>
    rw [hs] at h
    simp only [Run.panics.injEq] at h
    rw [← h]
    exact scoreClasses_panics indefinite nodes capacities claims storageClassNames [] msg1 hs
  | returns r =>
    cases r with
    | error err =>
      rw [hs] at h
      simp at h
    | ok m =>
      rw [hs] at h
      simp only at h
      have hnd := scoreClasses_keys_nodup indefinite nodes capacities claims storageClassNames []
        m hs List.nodup_nil
      have hne := scoreClasses_nonempty indefinite nodes capacities claims storageClassNames []
        m hs (by simp)
      obtain ⟨res, hres, -, -⟩ := nodeMeans_spec m [] hnd hne
      rw [hres] at h
      simp at h

/-- C34: the division that computes a node's mean in `calculateScore` never
divides by zero.  For every input the function does not panic with a division
by zero, and whenever the first half has built the per-node usage map, every
node with an entry in it has at least one per-class entry, the count that
serves as divisor is the number of those entries, at least 1, and the second
half returns. -/
theorem calculateScore_never_divides_by_zero (indefinite : Int) (nodes : List Node)
    (storageClassNames : List String) (capacities : List CSIStorageCapacity)
    (claims : claimsByStorageClass) :
    calculateScore indefinite nodes storageClassNames capacities claims ≠
      .panics divideByZero ∧
    ∀ capacityUsageMap,
      scoreClasses indefinite nodes capacities claims storageClassNames [] =
        .returns (.ok capacityUsageMap) →
      (∀ entry ∈ capacityUsageMap, entry.2 ≠ [] ∧
        (sumAndCount entry.2 (0, 0)).2 = (entry.2.length : Int) ∧
        1 ≤ (sumAndCount entry.2 (0, 0)).2) ∧
      ∃ nodeScores, nodeMeans capacityUsageMap [] = .returns nodeScores ∧
        calculateScore indefinite nodes storageClassNames capacities claims =
          .returns (.ok nodeScores) := by
  constructor
  · intro h
    have hmsg := calculateScore_panics indefinite nodes storageClassNames capacities claims _ h
    revert hmsg
    decide
  · intro m hs
    have hnd := scoreClasses_keys_nodup indefinite nodes capacities claims storageClassNames []
      m hs List.nodup_nil
    have hne := scoreClasses_nonempty indefinite nodes capacities claims storageClassNames []
      m hs (by simp)
    constructor
    · intro entry hentry
      have hl := hne entry hentry
      refine ⟨hl, ?_, ?_⟩
      · rw [sumAndCount_zero]
      · rw [sumAndCount_zero]
        have := List.length_pos.mpr hl
        simp only
        exact_mod_cast this
    · obtain ⟨res, hres, -, -⟩ := nodeMeans_spec m [] hnd hne
      refine ⟨res, hres, ?_⟩
      unfold calculateScore
      rw [hs]
      simp only
      rw [hres]

/-! ## The capacity that the score reads -/

theorem lastCapacity_of_split (node : Node) (className : String)
    (front back : List CSIStorageCapacity) (record : CSIStorageCapacity)
    (hm : matchesRecord node className record = true)
    (hback : hasMatch node className back = false) :
    lastCapacity node className (front ++ record :: back) = record.Capacity.getD 0 := by
  unfold lastCapacity
  rw [hasMatch_eq_false_iff] at hback
  rw [List.filter_append, List.filter_cons, if_pos hm, hback, List.getLast?_concat]

theorem nodeHasAccess_setMaximumVolumeSize (node : Node) (record : CSIStorageCapacity)
    (v : Option Nat) :
    nodeHasAccess node { record with MaximumVolumeSize := v } = nodeHasAccess node record :=
  rfl

theorem findCapacity_setMaximumVolumeSizes (f : CSIStorageCapacity → Option Nat) (node : Node)
    (className : String) (capacities : List CSIStorageCapacity) (st : Bool × Nat) :
    findCapacity node className (setMaximumVolumeSizes f capacities) st =
      findCapacity node className capacities st := by
  induction capacities generalizing st with
  | nil => rfl
  | cons record rest ih =>
    have hcons : setMaximumVolumeSizes f (record :: rest) =
        { record with MaximumVolumeSize := f record } :: setMaximumVolumeSizes f rest := rfl
    rw [hcons]
    unfold findCapacity
    simp only [nodeHasAccess_setMaximumVolumeSize]
    by_cases hm : record.StorageClassName = className ∧ nodeHasAccess node record = true
    · rw [if_pos hm, if_pos hm]
      cases hc : record.Capacity with
      | none => rfl
      | some v => exact ih _
    · rw [if_neg hm, if_neg hm]
      exact ih _

theorem scoreNodes_setMaximumVolumeSizes (f : CSIStorageCapacity → Option Nat)
    (indefinite : Int) (className : String) (capacities : List CSIStorageCapacity)
    (claims : claimsByStorageClass) (ns : List Node) (m : UsageMap) :
    scoreNodes indefinite className (setMaximumVolumeSizes f capacities) claims ns m =
      scoreNodes indefinite className capacities claims ns m := by
  induction ns generalizing m with
  | nil => rfl
  | cons node rest ih =>
    unfold scoreNodes
    rw [findCapacity_setMaximumVolumeSizes]
    cases hf : findCapacity node className capacities (false, 0) with
    | panics msg => rfl
    | returns out =>
      obtain ⟨found, capacity⟩ := out
      simp only
      by_cases hfound : found = false
      · rw [if_pos hfound, if_pos hfound]
        exact ih _
      · rw [if_neg hfound, if_neg hfound]
        cases hc : claims.get className with
        | none => rfl
        | some cg =>
          simp only
          cases ht : cg.totalRequiredCapacity with
          | error err => rfl
          | ok request => exact ih _

theorem scoreClasses_setMaximumVolumeSizes (f : CSIStorageCapacity → Option Nat)
    (indefinite : Int) (nodes : List Node) (capacities : List CSIStorageCapacity)
    (claims : claimsByStorageClass) (classes : List String) (m : UsageMap) :
    scoreClasses indefinite nodes (setMaximumVolumeSizes f capacities) claims classes m =
      scoreClasses indefinite nodes capacities claims classes m := by
  induction classes generalizing m with
  | nil => rfl
  | cons className rest ih =>
    unfold scoreClasses
    rw [scoreNodes_setMaximumVolumeSizes]
    cases hs : scoreNodes indefinite className capacities claims nodes m with
    | panics msg => rfl
    | returns r =>
      cases r with
      | error err => rfl
      | ok m1 => exact ih _

/-- No result of `calculateScore` depends on a `MaximumVolumeSize`. -/
theorem calculateScore_setMaximumVolumeSizes (f : CSIStorageCapacity → Option Nat)
    (indefinite : Int) (nodes : List Node) (storageClassNames : List String)
    (capacities : List CSIStorageCapacity) (claims : claimsByStorageClass) :
    calculateScore indefinite nodes storageClassNames (setMaximumVolumeSizes f capacities)
        claims =
      calculateScore indefinite nodes storageClassNames capacities claims := by
  unfold calculateScore
  rw [scoreClasses_setMaximumVolumeSizes]

/-- C33: when `calculateScore` succeeds, over nodes with distinct names and
distinct class names, the score of a node is the mean of the utilisations of
its scored classes, each computed from the summed request and
`lastCapacity`, which is the bulk `Capacity` of the last record in list order
that has the class and matches the node.  `MaximumVolumeSize` is never
consulted: replacing it in every record, by any values, leaves the result of
`calculateScore` as it is, while the decision of `Filter` changes with it (a
50Gi claim passes on a 50Gi record and is rejected once the record's
`MaximumVolumeSize` is 49Gi).  With two matching records, of 10Gi and 20Gi, a
10Gi request scores 50 in one order of the records and 100 in the other. -/
theorem calculateScore_reads_last_Capacity (indefinite : Int) (nodes : List Node)
    (storageClassNames : List String) (capacities : List CSIStorageCapacity)
    (claims : claimsByStorageClass) (res : List (String × Int))
    (hn : (nodes.map Node.name).Nodup) (hs : storageClassNames.Nodup)
    (h : calculateScore indefinite nodes storageClassNames capacities claims =
      .returns (.ok res)) :
    (∀ node ∈ nodes, res.lookup node.name =
      if scoredClasses node storageClassNames capacities = [] then none
      else some (meanScore ((scoredClasses node storageClassNames capacities).map
        (fun className => usageScore indefinite
          (requestedBytes ((claims.get className).getD []))
          (lastCapacity node className capacities))))) ∧
    (∀ (node : Node) (className : String) (front back : List CSIStorageCapacity)
      (record : CSIStorageCapacity), capacities = front ++ record :: back →
      record.StorageClassName = className → nodeHasAccess node record = true →
      (∀ later ∈ back, ¬ (later.StorageClassName = className ∧
        nodeHasAccess node later = true)) →
      lastCapacity node className capacities = record.Capacity.getD 0) ∧
    (∀ f : CSIStorageCapacity → Option Nat,
      calculateScore indefinite nodes storageClassNames (setMaximumVolumeSizes f capacities)
        claims = .returns (.ok res)) ∧
    (((newPluginTester [zoneCapacity "zone-a" (Gi 50)]).Filter 0 filterState
          (some (zoneNode "zone-a"))).1 = .returns none ∧
      ((newPluginTester (setMaximumVolumeSizes (fun _ => some (Gi 49))
          [zoneCapacity "zone-a" (Gi 50)])).Filter 0 filterState
          (some (zoneNode "zone-a"))).1 =
        .returns (some (shortfallStatus (zoneNode "zone-a") (Gi 50)))) ∧
    (calculateScore indefinite [zoneNode "zone-a"] [waitSC.name] twoRecordCapacities
        (waitGroup (Gi 10)) = .returns (.ok [("zone-a-node-a", 50)]) ∧
      calculateScore indefinite [zoneNode "zone-a"] [waitSC.name] twoRecordCapacities.reverse
        (waitGroup (Gi 10)) = .returns (.ok [("zone-a-node-a", 100)])) := by
  refine ⟨?_, ?_, ?_, ⟨by decide, by decide⟩, ?_⟩
  · intro node hnode
    exact calculateScore_values indefinite nodes storageClassNames capacities claims res hn hs h
      node hnode
  · intro node className front back record hsplit hclass haccess hlater
    rw [hsplit]
    apply lastCapacity_of_split
    · simp [matchesRecord, hclass, haccess]
    · cases hb : hasMatch node className back with
      | false => rfl
      | true =>
        obtain ⟨later, hmem, h1, h2⟩ := (hasMatch_iff node className back).mp hb
        exact absurd ⟨h1, h2⟩ (hlater later hmem)
  · intro f
    rw [calculateScore_setMaximumVolumeSizes, h]
  · exact ⟨rfl, rfl⟩

/-- Two records of `wait-sc` match the node of zone `zone-a`, 10Gi then 20Gi:
the 10Gi request is scored against the 20Gi of the second, 50. -/
theorem calculateScore_reads_last_Capacity_witness :
    calculateScore 0 [zoneNode "zone-a"] [waitSC.name] twoRecordCapacities (waitGroup (Gi 10)) =
      .returns (.ok [("zone-a-node-a", 50)]) ∧
    lastCapacity (zoneNode "zone-a") waitSC.name twoRecordCapacities = Gi 20 ∧
    usageScore 0 (Gi 10) (Gi 20) = 50 ∧
    calculateScore 0 [zoneNode "zone-a"] [waitSC.name]
        (setMaximumVolumeSizes (fun _ => some 0) twoRecordCapacities) (waitGroup (Gi 10)) =
      .returns (.ok [("zone-a-node-a", 50)]) :=
  ⟨by decide,
    (calculateScore_reads_last_Capacity 0 [zoneNode "zone-a"] [waitSC.name] twoRecordCapacities
      (waitGroup (Gi 10)) [("zone-a-node-a", 50)] (by decide) (by decide) (by decide)).2.1
      (zoneNode "zone-a") waitSC.name [zoneCapacity "zone-a" (Gi 10)] []
      (zoneCapacity "zone-a" (Gi 20)) rfl rfl (by decide) (by simp),
    by decide,
    (calculateScore_reads_last_Capacity 0 [zoneNode "zone-a"] [waitSC.name] twoRecordCapacities
      (waitGroup (Gi 10)) [("zone-a-node-a", 50)] (by decide) (by decide) (by decide)).2.2.1
      (fun _ => some 0)⟩

/-! ## When `calculateScore` returns an error -/

theorem groupError_isSome_iff (claims : claimsByStorageClass) (className : String) :
    (groupError claims className).isSome = true ↔
      claims.get className = none ∨
        ∃ cg, claims.get className = some cg ∧ ∃ claim ∈ cg, claim.request = none := by
  unfold groupError
  cases hc : claims.get className with
  | none => simp
  | some cg =>
    simp only [false_or, Option.some.injEq, exists_eq_left', reduceCtorEq]
    rw [← totalRequiredCapacity_error_iff_missing cg]
    cases ht : cg.totalRequiredCapacity with
    | error err => simp
    | ok n => simp

theorem matchesSomeNode_iff (nodes : List Node) (className : String)
    (capacities : List CSIStorageCapacity) :
    matchesSomeNode nodes className capacities = true ↔
      ∃ node ∈ nodes, ∃ record ∈ capacities, record.StorageClassName = className ∧
        nodeHasAccess node record = true := by
  unfold matchesSomeNode
  rw [List.any_eq_true]
  constructor
  · rintro ⟨node, hnode, hm⟩
    exact ⟨node, hnode, (hasMatch_iff node className capacities).mp hm⟩
  · rintro ⟨node, hnode, hm⟩
    exact ⟨node, hnode, (hasMatch_iff node className capacities).mpr hm⟩

theorem firstError_isSome_iff (nodes : List Node) (capacities : List CSIStorageCapacity)
    (claims : claimsByStorageClass) (classes : List String) :
    (firstError nodes capacities claims classes).isSome = true ↔
      ∃ className ∈ classes, matchesSomeNode nodes className capacities = true ∧
        (groupError claims className).isSome = true := by
  induction classes with
  | nil => simp [firstError]
  | cons className rest ih =>
    unfold firstError
    by_cases hm : matchesSomeNode nodes className capacities = true
    · rw [if_pos hm]
      cases hg : groupError claims className with
      | some err =>
        simp only [Option.isSome_some, true_iff]
        exact ⟨className, List.mem_cons_self _ _, hm, by rw [hg]; rfl⟩
      | none =>
        simp only
        rw [ih]
        constructor
        · rintro ⟨c, hc, h1, h2⟩
          exact ⟨c, List.mem_cons_of_mem _ hc, h1, h2⟩
        · rintro ⟨c, hc, h1, h2⟩
          rcases List.mem_cons.mp hc with rfl | hc
          · rw [hg] at h2
            simp at h2
          · exact ⟨c, hc, h1, h2⟩
    · rw [if_neg hm]
      simp only
      rw [ih]
      constructor
      · rintro ⟨c, hc, h1, h2⟩
        exact ⟨c, List.mem_cons_of_mem _ hc, h1, h2⟩
      · rintro ⟨c, hc, h1, h2⟩
        rcases List.mem_cons.mp hc with rfl | hc
        · exact absurd h1 hm
        · exact ⟨c, hc, h1, h2⟩

/-- The outcome of the loop over the nodes for one class, when every matching
record has a `Capacity`. -/
theorem scoreNodes_outcome (indefinite : Int) (className : String)
    (capacities : List CSIStorageCapacity) (claims : claimsByStorageClass) (ns : List Node)
    (m : UsageMap)
    (hcap : ∀ node ∈ ns, ∀ record ∈ capacities, record.StorageClassName = className →
      nodeHasAccess node record = true → record.Capacity.isSome = true) :
    match (if matchesSomeNode ns className capacities = true then groupError claims className
      else none) with
    | some err => scoreNodes indefinite className capacities claims ns m = .returns (.error err)
    | none => ∃ m1, scoreNodes indefinite className capacities claims ns m = .returns (.ok m1) := by
  induction ns generalizing m with
  | nil =>
    have h0 : matchesSomeNode [] className capacities = false := rfl
    rw [h0]
    exact ⟨m, rfl⟩
  | cons node rest ih =>
    have hrest := fun m2 => ih m2 (fun n hn => hcap n (List.mem_cons_of_mem _ hn))
    obtain ⟨out, hout⟩ := findCapacity_succeeds node className capacities (false, 0)
      (hcap node (List.mem_cons_self _ _))
    obtain ⟨hfound, -⟩ := findCapacity_returns node className capacities (false, 0) out hout
    obtain ⟨found, capacity⟩ := out
    simp only [Bool.false_or] at hfound
    have hany : matchesSomeNode (node :: rest) className capacities =
        (hasMatch node className capacities || matchesSomeNode rest className capacities) := rfl
    unfold scoreNodes
    rw [hout, hany, ← hfound]
    simp only
    cases found with
    | false =>
      simp only [Bool.false_or, if_true]
      exact hrest m
    | true =>
      simp only [Bool.true_or, if_true, reduceCtorEq, if_false]
      unfold groupError
      cases hc : claims.get className with
      | none => rfl
      | some cg =>
        simp only
        cases ht : cg.totalRequiredCapacity with
        | error err => rfl
        | ok request =>
          simp only
          have hnone : groupError claims className = none := by
            unfold groupError
            rw [hc]
            simp only
            rw [ht]
          have := hrest (m.record node.name className (usageScore indefinite request capacity))
          rw [hnone] at this
          simpa using this

/-- The outcome of the loop over the class names, when every matching record
has a `Capacity`. -/
theorem scoreClasses_outcome (indefinite : Int) (nodes : List Node)
    (capacities : List CSIStorageCapacity) (claims : claimsByStorageClass)
    (classes : List String) (m : UsageMap)
    (hcap : ∀ className ∈ classes, ∀ node ∈ nodes, ∀ record ∈ capacities,
      record.StorageClassName = className → nodeHasAccess node record = true →
        record.Capacity.isSome = true) :
    match firstError nodes capacities claims classes with
    | some err =>
      scoreClasses indefinite nodes capacities claims classes m = .returns (.error err)
    | none =>
      ∃ m1, scoreClasses indefinite nodes capacities claims classes m = .returns (.ok m1) := by
  induction classes generalizing m with
  | nil => exact ⟨m, rfl⟩
  | cons className rest ih =>
    have hrest := fun m2 => ih m2 (fun c hc => hcap c (List.mem_cons_of_mem _ hc))
    have hnodes := scoreNodes_outcome indefinite className capacities claims nodes m
      (hcap className (List.mem_cons_self _ _))
    unfold firstError scoreClasses
    cases hf : (if matchesSomeNode nodes className capacities = true then
        groupError claims className else none) with
    | some err =>
      rw [hf] at hnodes
      simp only at hnodes
      rw [hnodes]
    | none =>
      rw [hf] at hnodes
      simp only at hnodes
      obtain ⟨m1, hm1⟩ := hnodes
      rw [hm1]
      exact hrest m1

/-- The outcome of `calculateScore` when every record that matches a node for
one of the class names has a `Capacity`: the error of the first class with a
matching record and a missing or unusable group, a score map when there is no
such class. -/
theorem calculateScore_outcome (indefinite : Int) (nodes : List Node)
    (storageClassNames : List String) (capacities : List CSIStorageCapacity)
    (claims : claimsByStorageClass)
    (hcap : ∀ className ∈ storageClassNames, ∀ node ∈ nodes, ∀ record ∈ capacities,
      record.StorageClassName = className → nodeHasAccess node record = true →
        record.Capacity.isSome = true) :
    match firstError nodes capacities claims storageClassNames with
    | some err =>
      calculateScore indefinite nodes storageClassNames capacities claims =
        .returns (.error err)
    | none =>
      ∃ res, calculateScore indefinite nodes storageClassNames capacities claims =
        .returns (.ok res) := by
  have hclasses := scoreClasses_outcome indefinite nodes capacities claims storageClassNames []
    hcap
  cases hf : firstError nodes capacities claims storageClassNames with
  | some err =>
    rw [hf] at hclasses
    simp only at hclasses ⊢
    unfold calculateScore
    rw [hclasses]
  | none =>
    rw [hf] at hclasses
    simp only at hclasses ⊢
    obtain ⟨m, hm⟩ := hclasses
    have hnd := scoreClasses_keys_nodup indefinite nodes capacities claims storageClassNames []
      m hm List.nodup_nil
    have hne := scoreClasses_nonempty indefinite nodes capacities claims storageClassNames []
      m hm (by simp)
    obtain ⟨res, hres, -, -⟩ := nodeMeans_spec m [] hnd hne
    refine ⟨res, ?_⟩
    unfold calculateScore
    rw [hm]
    simp only
    rw [hres]

/-- When every record that matches a node for one of the class names has a
`Capacity`, `calculateScore` returns an error exactly when some class name has
a record matching one of the nodes and either no group in the claims or a
group with a claim without request; otherwise it returns a score map. -/
theorem calculateScore_error_iff (indefinite : Int) (nodes : List Node)
    (storageClassNames : List String) (capacities : List CSIStorageCapacity)
    (claims : claimsByStorageClass)
    (hcap : ∀ className ∈ storageClassNames, ∀ node ∈ nodes, ∀ record ∈ capacities,
      record.StorageClassName = className → nodeHasAccess node record = true →
        record.Capacity.isSome = true) :
    ((∃ err, calculateScore indefinite nodes storageClassNames capacities claims =
        .returns (.error err)) ↔
      ∃ className ∈ storageClassNames,
        (∃ node ∈ nodes, ∃ record ∈ capacities, record.StorageClassName = className ∧
          nodeHasAccess node record = true) ∧
        (claims.get className = none ∨
          ∃ cg, claims.get className = some cg ∧ ∃ claim ∈ cg, claim.request = none)) ∧
    ((∃ err, calculateScore indefinite nodes storageClassNames capacities claims =
        .returns (.error err)) ∨
      ∃ res, calculateScore indefinite nodes storageClassNames capacities claims =
        .returns (.ok res)) := by
  have hout := calculateScore_outcome indefinite nodes storageClassNames capacities claims hcap
  have hiff := firstError_isSome_iff nodes capacities claims storageClassNames
  simp only [matchesSomeNode_iff, groupError_isSome_iff] at hiff
  rw [← hiff]
  cases hf : firstError nodes capacities claims storageClassNames with
  | some err =>
    rw [hf] at hout
    simp only at hout
    exact ⟨⟨fun _ => rfl, fun _ => ⟨err, hout⟩⟩, Or.inl ⟨err, hout⟩⟩
  | none =>
    rw [hf] at hout
    simp only at hout
    obtain ⟨res, hres⟩ := hout
    refine ⟨⟨?_, ?_⟩, Or.inr ⟨res, hres⟩⟩
    · rintro ⟨err, herr⟩
      rw [hres] at herr
      cases herr
    · intro h
      simp at h

/-- C35 fails at a record without `Capacity`.  The class `wait-sc` has a record
matching the node and no group in the claims, so the claim has
`calculateScore` return `storage class "wait-sc" is not found in claim groups`;
the record reports a `MaximumVolumeSize` only, `cap.Capacity.Value()`
dereferences nil, and the call panics before the claims are looked up: it
returns neither an error nor a score map.  The same with a group whose claim
has no request.  With a `Capacity` on the record the error is returned.
`Filter` accepts such a record, by its `MaximumVolumeSize`, and the `PreScore`
that follows panics. -/
theorem calculateScore_panics_on_nil_Capacity :
    hasMatch (zoneNode "zone-a") waitSC.name [maximumOnlyRecord] = true ∧
    claimsByStorageClass.get [] waitSC.name = none ∧
    calculateScore 0 [zoneNode "zone-a"] [waitSC.name] [maximumOnlyRecord] [] =
      .panics nilDereference ∧
    calculateScore 0 [zoneNode "zone-a"] [waitSC.name] [maximumOnlyRecord]
        [(waitSC.name, [claimWithoutRequest])] = .panics nilDereference ∧
    calculateScore 0 [zoneNode "zone-a"] [waitSC.name] [maximumOnlyRecord.withCapacity (Gi 50)]
        [] = .returns (.error "storage class \"wait-sc\" is not found in claim groups") ∧
    calculateScore 0 [zoneNode "zone-a"] [waitSC.name] [maximumOnlyRecord.withCapacity (Gi 50)]
        [(waitSC.name, [claimWithoutRequest])] =
      .returns (.error "claim pvc-b/default does't have a resource request") ∧
    capacitySufficient maximumOnlyRecord (Gi 10) = true ∧
    ((newPluginTester [maximumOnlyRecord]).Filter 0
        ((newPluginTester [maximumOnlyRecord]).PreFilter e2eState).2
        (some (zoneNode "zone-a"))).1 = .returns none ∧
    runCycle (newPluginTester [maximumOnlyRecord]) 0 (fun _ => 0) e2eState [zoneNode "zone-a"] =
      .panics nilDereference := by
  decide

end Scheduler
